import Mathlib

/-!
# Tomato (NanoBoyAdvance core): verification development

Shallow embedding of `Sources/TomatoCXX/emulator.cpp` (the `Core` run loop,
reset, boot-screen skip and MP2K hook search) and of
`Sources/TomatoCXX/hw/rom/gpio/rtc.cpp` (the real-time-clock serial state
machine), followed by theorems about them.

Machine integers are `Nat`/`Int`; truncation to the width of the C++ type is
written as an explicit `% 2^w`.
-/

namespace Tomato

/-! ## Core: data model -/

/-- Modelled from the spec: `Bus::Hardware::HaltControl` is declared in a header
that is not part of the sources at hand; `emulator.cpp` only names the
enumerator `Run`.  `Halt` is the CPU idle state entered through HALTCNT. -/
inductive HaltControl where
  | Run
  | Stop
  | Halt
  deriving DecidableEq, Repr

/-- Modelled from the spec: processor modes of the ARM7TDMI (`arm::MODE_*`). -/
inductive Mode where
  | USR | FIQ | IRQ | SVC | ABT | UND | SYS
  deriving DecidableEq, Repr

/-- Modelled from the spec: register banks of the ARM7TDMI (`arm::BANK_*`). -/
inductive Bank where
  | NONE | FIQ | SVC | ABT | IRQ | UND
  deriving DecidableEq, Repr

/-- Modelled from the spec: index of a banked register (`arm::BANK_R13`, ...). -/
inductive BankedRegister where
  | R8 | R9 | R10 | R11 | R12 | R13 | R14
  deriving DecidableEq, Repr

/-- The part of `arm::ARM7TDMI::state` that `Core` reads or writes directly. -/
structure CPUState where
  mode : Mode
  r13 : Nat
  r15 : Nat
  bank : Bank → BankedRegister → Nat

/-- The options of `Config` that `Core::Reset` consults. -/
structure Config where
  skip_bios : Bool
  mp2k_hle_enable : Bool
  mp2k_hle_cubic : Bool
  mp2k_hle_force_reverb : Bool
  deriving DecidableEq, Repr

/-- State of `nba::core::Core`.  The members that `emulator.cpp` touches
directly are explicit fields; everything else owned by the components
(registers, memories, the event heap, ...) is the opaque `rest`.

* `timestamp_now` is `scheduler.GetTimestampNow()` (u64),
* `haltcnt` is `bus.hw.haltcnt`,
* `irq_ie`, `irq_if` are the IE and IF words of the IRQ controller,
* `rom` is `bus.memory.rom.GetRawROM()`, one byte per element,
* `mp2k_use_cubic_filter`, `mp2k_force_reverb` are the cells returned by
  `apu.GetMP2K().UseCubicFilter()` and `apu.GetMP2K().ForceReverb()`. -/
structure Core (ρ : Type) where
  hle_audio_hook : Nat
  timestamp_now : Nat
  haltcnt : HaltControl
  cpu : CPUState
  irq_ie : Nat
  irq_if : Nat
  rom : List Nat
  mp2k_use_cubic_filter : Bool
  mp2k_force_reverb : Bool
  rest : ρ

/-- The operations `emulator.cpp` calls on components whose code is not part
of the sources at hand (scheduler, CPU, DMA, bus, APU/MP2K, CRC).  Each is a
parameter of the embedding; theorems state the contract they rely on as a
hypothesis. -/
structure Components (ρ : Type) where
  scheduler_Reset : Core ρ → Core ρ
  cpu_Reset : Core ρ → Core ρ
  irq_Reset : Core ρ → Core ρ
  dma_Reset : Core ρ → Core ρ
  timer_Reset : Core ρ → Core ρ
  apu_Reset : Core ρ → Core ρ
  ppu_Reset : Core ρ → Core ρ
  bus_Reset : Core ρ → Core ρ
  keypad_Reset : Core ρ → Core ρ
  /-- The method `cpu.SwitchMode(mode)`. -/
  SwitchMode : Mode → Core ρ → Core ρ
  /-- The method `cpu.Run()`: one instruction. -/
  cpu_Run : Core ρ → Core ρ
  /-- The method `dma.IsRunning()`. -/
  dma_IsRunning : Core ρ → Bool
  /-- The method `dma.Run()`. -/
  dma_Run : Core ρ → Core ρ
  /-- The method `scheduler.GetRemainingCycleCount()`: cycles from now to the next due event. -/
  GetRemainingCycleCount : Core ρ → Nat
  /-- The method `bus.Step(cycles)`. -/
  Step : Nat → Core ρ → Core ρ
  /-- Whether `bus.GetHostAddress<MP2K::SoundInfo>(sound_info_addr)` is non-null. -/
  sound_info_valid : Core ρ → Bool
  /-- The call `apu.GetMP2K().SoundMainRAM(*sound_info)`. -/
  SoundMainRAM : Core ρ → Core ρ
  /-- The function `crc32(data, length)` of `common/crc32.hpp`, applied to the bytes read. -/
  crc32 : List Nat → Nat

/-- Modelled from the spec: `IRQ::ShouldUnhaltCPU()` is true iff
`(IE & IF) ≠ 0`, regardless of IME (section 4.5); `irq.cpp` is not part of the
sources at hand. -/
def Core.ShouldUnhaltCPU {ρ : Type} (s : Core ρ) : Bool :=
  (s.irq_ie &&& s.irq_if) != 0

/-! ## Core::SearchSoundMainRAM -/

/-- The constant `kSoundMainCRC32`. -/
def kSoundMainCRC32 : Nat := 0x27EA7FCF

/-- The constant `kSoundMainLength`. -/
def kSoundMainLength : Nat := 48

/-- The call `read<u32>(rom.data(), offset)`: the little-endian 32-bit word at
`offset`.  The C++ code performs no bounds check; a read that leaves the ROM
image has no defined value and is `none` here. -/
def read_u32 (rom : List Nat) (offset : Nat) : Option Nat :=
  if offset + 4 ≤ rom.length then
    some (rom.getD offset 0 % 256
      + (rom.getD (offset + 1) 0 % 256) * 2 ^ 8
      + (rom.getD (offset + 2) 0 % 256) * 2 ^ 16
      + (rom.getD (offset + 3) 0 % 256) * 2 ^ 24)
  else none

/-- The pointer adjustment at lines 141-147 of `emulator.cpp`, in u32 arithmetic:
`if(address & 1) { address &= ~1; address += sizeof(u16) * 2; }
 else { address &= ~3; address += sizeof(u32) * 2; }`. -/
def adjustSoundMainRAM (address : Nat) : Nat :=
  if address &&& 1 ≠ 0 then
    ((address &&& 0xFFFFFFFE) + 2 * 2) % 2 ^ 32
  else
    ((address &&& 0xFFFFFFFC) + 4 * 2) % 2 ^ 32

/-- The `for` loop of `Core::SearchSoundMainRAM`, with `address` the u32 loop
counter.  `none` stands for "no defined result": the pointer read left the ROM,
or the fuel ran out (which the fuel passed by `SearchSoundMainRAM` only allows
when the u32 counter wraps around). -/
def Core.SearchSoundMainRAM.loop (crc32 : List Nat → Nat) (rom : List Nat)
    (address_max : Nat) : Nat → Nat → Option Nat
  | 0, _ => none
  | fuel + 1, address =>
    if address ≤ address_max then
      if crc32 ((rom.drop address).take kSoundMainLength) = kSoundMainCRC32 then
        (read_u32 rom ((address + 0x74) % 2 ^ 32)).map adjustSoundMainRAM
      else
        Core.SearchSoundMainRAM.loop crc32 rom address_max fuel ((address + 2) % 2 ^ 32)
    else some 0xFFFFFFFF

/-- The function `Core::SearchSoundMainRAM()` on the raw ROM bytes. -/
def Core.SearchSoundMainRAM (crc32 : List Nat → Nat) (rom : List Nat) : Option Nat :=
  if rom.length < kSoundMainLength then
    some 0xFFFFFFFF
  else
    let address_max := (rom.length - kSoundMainLength) % 2 ^ 32
    Core.SearchSoundMainRAM.loop crc32 rom address_max (address_max / 2 + 2) 0

/-! ## Core::SkipBootScreen, Core::Reset -/

/-- The function `Core::SkipBootScreen()`. -/
def Core.SkipBootScreen {ρ : Type} (hw : Components ρ) (s : Core ρ) : Core ρ :=
  let s := hw.SwitchMode Mode.SYS s
  let s := { s with cpu := { s.cpu with bank := fun b r =>
    if b = Bank.SVC ∧ r = BankedRegister.R13 then 0x03007FE0 else s.cpu.bank b r } }
  let s := { s with cpu := { s.cpu with bank := fun b r =>
    if b = Bank.IRQ ∧ r = BankedRegister.R13 then 0x03007FA0 else s.cpu.bank b r } }
  let s := { s with cpu := { s.cpu with r13 := 0x03007F00 } }
  { s with cpu := { s.cpu with r15 := 0x08000000 } }

/-- The nine component resets at the head of `Core::Reset()` (lines 32-40). -/
def Core.resetComponents {ρ : Type} (hw : Components ρ) (s : Core ρ) : Core ρ :=
  let s := hw.scheduler_Reset s
  let s := hw.cpu_Reset s
  let s := hw.irq_Reset s
  let s := hw.dma_Reset s
  let s := hw.timer_Reset s
  let s := hw.apu_Reset s
  let s := hw.ppu_Reset s
  let s := hw.bus_Reset s
  hw.keypad_Reset s

/-- The function `Core::Reset()`.  The result is `none` when the hook search has
no defined result (see `Core.SearchSoundMainRAM.loop`). -/
def Core.Reset {ρ : Type} (hw : Components ρ) (config : Config) (s : Core ρ) :
    Option (Core ρ) :=
  let s := Core.resetComponents hw s
  let s := if config.skip_bios then Core.SkipBootScreen hw s else s
  if config.mp2k_hle_enable then
    let s := { s with mp2k_use_cubic_filter := config.mp2k_hle_cubic }
    let s := { s with mp2k_force_reverb := config.mp2k_hle_force_reverb }
    (Core.SearchSoundMainRAM hw.crc32 s.rom).map fun a => { s with hle_audio_hook := a }
  else
    some { s with hle_audio_hook := 0xFFFFFFFF }

/-! ## Core::Run -/

/-- One pass through the body of the inner `while` loop of `Core::Run`
(lines 97-102), for a state that passed the loop condition. -/
def Core.haltBody {ρ : Type} (hw : Components ρ) (s : Core ρ) : Core ρ :=
  if hw.dma_IsRunning s then
    let s1 := hw.dma_Run s
    if s1.ShouldUnhaltCPU then s1
    else hw.Step (hw.GetRemainingCycleCount s1) s1
  else
    hw.Step (hw.GetRemainingCycleCount s) s

/-- The inner `while` loop of `Core::Run` (line 96), bounded by `fuel`
iterations; `none` when the fuel runs out. -/
def Core.haltLoop {ρ : Type} (hw : Components ρ) (limit : Nat) :
    Nat → Core ρ → Option (Core ρ)
  | 0, _ => none
  | fuel + 1, s =>
    if s.timestamp_now < limit ∧ ¬ s.ShouldUnhaltCPU then
      Core.haltLoop hw limit fuel (Core.haltBody hw s)
    else some s

/-- The statement `if(irq.ShouldUnhaltCPU()) { bus.Step(1); bus.hw.haltcnt = Run; }`
(lines 105-108). -/
def Core.wake {ρ : Type} (hw : Components ρ) (s : Core ρ) : Core ρ :=
  if s.ShouldUnhaltCPU then
    { (hw.Step 1 s) with haltcnt := HaltControl.Run }
  else s

/-- The `if` branch of the outer loop body (lines 85-94): the HLE hook, then one
CPU instruction. -/
def Core.runCPU {ρ : Type} (hw : Components ρ) (s : Core ρ) : Core ρ :=
  let s1 :=
    if s.cpu.r15 = s.hle_audio_hook then
      if hw.sound_info_valid s then hw.SoundMainRAM s else s
    else s
  hw.cpu_Run s1

/-- The outer `while` loop of `Core::Run` (line 83), bounded by `fuel`
iterations (the inner loop gets the same bound); `none` when the fuel runs out. -/
def Core.RunLoop {ρ : Type} (hw : Components ρ) (limit : Nat) :
    Nat → Core ρ → Option (Core ρ)
  | 0, _ => none
  | fuel + 1, s =>
    if s.timestamp_now < limit then
      if s.haltcnt = HaltControl.Run then
        Core.RunLoop hw limit fuel (Core.runCPU hw s)
      else
        match Core.haltLoop hw limit fuel s with
        | none => none
        | some s1 => Core.RunLoop hw limit fuel (Core.wake hw s1)
    else some s

/-- The state after `k` fast-forward steps
`bus.Step(scheduler.GetRemainingCycleCount())` (line 102). -/
def Core.fastForward {ρ : Type} (hw : Components ρ) : Nat → Core ρ → Core ρ
  | 0, s => s
  | k + 1, s => Core.fastForward hw k (hw.Step (hw.GetRemainingCycleCount s) s)

/-- The value `limit = scheduler.GetTimestampNow() + cycles` (u64 plus int). -/
def Core.runLimit {ρ : Type} (s : Core ρ) (cycles : Int) : Nat :=
  (((s.timestamp_now : Int) + cycles) % 2 ^ 64).toNat

/-- The function `Core::Run(cycles)`. -/
def Core.Run {ρ : Type} (hw : Components ρ) (fuel : Nat) (cycles : Int) (s : Core ρ) :
    Option (Core ρ) :=
  Core.RunLoop hw (Core.runLimit s cycles) fuel s

/-! ## RTC: data model (rtc.cpp) -/

/-- Modelled from the spec: the declarations of `rom/gpio/rtc.hpp`, which is not
part of the sources at hand.  `SCK`, `SIO`, `CS` are the enumerators of
`RTC::Port` (bit positions in the GPIO value); `ForceReset` ... `Time` are the
enumerators of `RTC::Register` (values of the 3-bit selector, section 3 of the
spec); `s_argument_count` is the table of argument byte counts.  They are
parameters of the embedding. -/
structure RTCDecl where
  SCK : Nat
  SIO : Nat
  CS : Nat
  ForceReset : Nat
  DateTime : Nat
  ForceIRQ : Nat
  Control : Nat
  Time : Nat
  s_argument_count : Nat → Nat

/-- Modelled from the spec: the enumeration `RTC::State` (section 3: states
Command, Receiving, Sending, Complete). -/
inductive RTCState where
  | Command
  | Sending
  | Receiving
  | Complete
  deriving DecidableEq, Repr

/-- Modelled from the spec: the enumeration `GPIO::PortDirection`. -/
inductive PortDirection where
  | In
  | Out
  deriving DecidableEq, Repr

/-- The member `port` of `RTC`: the three pin values. -/
structure RTCPort where
  sck : Nat
  sio : Nat
  cs : Nat
  deriving DecidableEq, Repr

/-- The member `control` of `RTC`; `control = {}` clears every flag. -/
structure ControlRegister where
  unknown1 : Bool
  per_minute_irq : Bool
  unknown2 : Bool
  mode_24h : Bool
  poweroff : Bool
  deriving DecidableEq, Repr

/-- The fields of `struct tm` that `RTC::ReadRegister` reads (all C `int`):
the value `*std::localtime(&timestamp)` at the time of the call. -/
structure Tm where
  tm_sec : Int
  tm_min : Int
  tm_hour : Int
  tm_mday : Int
  tm_mon : Int
  tm_year : Int
  tm_wday : Int
  deriving DecidableEq, Repr

/-- State of `nba::RTC`.  `buffer` is `u8 buffer[7]` (only indices below 7
exist; the functions below check the index where the C++ code computes it),
`port_direction` is what `GetPortDirection(pin)` of the GPIO base class
returns, and `irq_raised` counts the calls `irq.Raise(IRQ::Source::ROM)`. -/
structure RTC where
  current_bit : Nat
  current_byte : Nat
  reg : Nat
  data : Nat
  buffer : Nat → Nat
  port : RTCPort
  state : RTCState
  control : ControlRegister
  port_direction : Nat → PortDirection
  irq_raised : Nat

/-- Assignment `buffer[i] = v` of a u8 array element. -/
def setBuffer (buffer : Nat → Nat) (i v : Nat) : Nat → Nat :=
  fun j => if j = i then v % 256 else buffer j

/-- Modelled from the spec: `ConvertDecimalToBCD(h) = ((h/10)<<4) | (h%10)` for
`h` in `[0, 99]` (section 8); the helper is declared in `rtc.hpp`, which is not
part of the sources at hand.  Outside `[0, 99]` the spec does not define it. -/
def ConvertDecimalToBCD (h : Int) : Nat :=
  ((h.toNat / 10) <<< 4) ||| (h.toNat % 10)

/-! ## RTC: operations -/

/-- The function `RTC::Reset()`.  It leaves `reg` as it is. -/
def RTC.Reset (s : RTC) : RTC :=
  { s with
    current_bit := 0
    current_byte := 0
    data := 0
    buffer := fun i => if i < 7 then 0 else s.buffer i
    port := { sck := 0, sio := 0, cs := 0 }
    state := RTCState.Complete
    control := { unknown1 := false, per_minute_irq := false, unknown2 := false,
                 mode_24h := true, poweroff := false } }

/-- The function `RTC::Read()`. -/
def RTC.Read (d : RTCDecl) (s : RTC) : Nat :=
  (s.port.sio &&& s.port.cs) <<< d.SIO

/-- The two assignments `data &= ~(1 << current_bit); data |= port.sio << current_bit;`
of `RTC::ReadSIO()` on the u8 `data` (lines 94-95). -/
def RTC.shiftBit (data current_bit sio : Nat) : Nat :=
  let data := data &&& (0xFF ^^^ ((1 <<< current_bit) % 256))
  (data ||| (sio <<< current_bit)) % 256

/-- The function `RTC::ReadSIO()`; `data` is a u8.  Returns the new state and
the `bool` result. -/
def RTC.ReadSIO (s : RTC) : RTC × Bool :=
  let s := { s with data := RTC.shiftBit s.data s.current_bit s.port.sio }
  if s.current_bit + 1 = 8 then
    ({ s with current_bit := 0 }, true)
  else
    ({ s with current_bit := s.current_bit + 1 }, false)

/-- The lambda `AdjustHour` of `RTC::ReadRegister`, as a function of the hour. -/
def RTC.AdjustHour (control : ControlRegister) (hour : Int) : Int :=
  if control.mode_24h = false ∧ hour ≥ 12 then
    (((hour - 12).toNat ||| 64 : Nat) : Int)
  else hour

/-- The function `RTC::ReadRegister()`; `time` is the broken-down local time the
host clock reports at the call. -/
def RTC.ReadRegister (d : RTCDecl) (time : Tm) (s : RTC) : RTC :=
  if s.reg = d.Control then
    let value :=
      (if s.control.unknown1 then 2 else 0) |||
      (if s.control.per_minute_irq then 8 else 0) |||
      (if s.control.unknown2 then 32 else 0) |||
      (if s.control.mode_24h then 64 else 0) |||
      (if s.control.poweroff then 128 else 0)
    { s with buffer := setBuffer s.buffer 0 value }
  else if s.reg = d.DateTime then
    let tm_hour := RTC.AdjustHour s.control time.tm_hour
    let buffer := setBuffer s.buffer 0 (ConvertDecimalToBCD (time.tm_year - 100))
    let buffer := setBuffer buffer 1 (ConvertDecimalToBCD (1 + time.tm_mon))
    let buffer := setBuffer buffer 2 (ConvertDecimalToBCD time.tm_mday)
    let buffer := setBuffer buffer 3 (ConvertDecimalToBCD time.tm_wday)
    let buffer := setBuffer buffer 4 (ConvertDecimalToBCD tm_hour)
    let buffer := setBuffer buffer 5 (ConvertDecimalToBCD time.tm_min)
    let buffer := setBuffer buffer 6 (ConvertDecimalToBCD time.tm_sec)
    { s with buffer := buffer }
  else if s.reg = d.Time then
    let tm_hour := RTC.AdjustHour s.control time.tm_hour
    let buffer := setBuffer s.buffer 0 (ConvertDecimalToBCD tm_hour)
    let buffer := setBuffer buffer 1 (ConvertDecimalToBCD time.tm_min)
    let buffer := setBuffer buffer 2 (ConvertDecimalToBCD time.tm_sec)
    { s with buffer := buffer }
  else s

/-- The function `RTC::WriteRegister()`. -/
def RTC.WriteRegister (d : RTCDecl) (s : RTC) : RTC :=
  if s.reg = d.Control then
    { s with control :=
        { s.control with
          unknown1 := s.buffer 0 &&& 2 != 0
          per_minute_irq := s.buffer 0 &&& 8 != 0
          unknown2 := s.buffer 0 &&& 32 != 0
          mode_24h := s.buffer 0 &&& 64 != 0 } }
  else if s.reg = d.ForceReset then
    { s with control := { unknown1 := false, per_minute_irq := false, unknown2 := false,
                          mode_24h := false, poweroff := false } }
  else if s.reg = d.ForceIRQ then
    { s with irq_raised := s.irq_raised + 1 }
  else s

/-- The three assignments of `RTC::ReceiveCommandSIO()` that reverse the bits of
the u8 `data` (lines 114-116). -/
def RTC.reverseData (data : Nat) : Nat :=
  let data := ((data <<< 4) ||| (data >>> 4)) % 256
  let data := (((data &&& 0x33) <<< 2) ||| ((data &&& 0xCC) >>> 2)) % 256
  (((data &&& 0x55) <<< 1) ||| ((data &&& 0xAA) >>> 1)) % 256

/-- Lines 123-143 of `RTC::ReceiveCommandSIO()`: with the accepted command byte
in `data`, select the register, clear the counters and start the transfer. -/
def RTC.startTransfer (d : RTCDecl) (time : Tm) (s : RTC) : RTC :=
  let s := { s with reg := (s.data >>> 4) &&& 7, current_bit := 0, current_byte := 0 }
  if s.data &&& 0x80 ≠ 0 then
    let s := RTC.ReadRegister d time s
    if d.s_argument_count s.reg > 0 then
      { s with state := RTCState.Sending }
    else
      { s with state := RTCState.Complete }
  else
    if d.s_argument_count s.reg > 0 then
      { s with state := RTCState.Receiving }
    else
      { (RTC.WriteRegister d s) with state := RTCState.Complete }

/-- The function `RTC::ReceiveCommandSIO()`. -/
def RTC.ReceiveCommandSIO (d : RTCDecl) (time : Tm) (s : RTC) : RTC :=
  let (s, completed) := RTC.ReadSIO s
  if completed = false then s
  else if s.data >>> 4 = 6 then
    RTC.startTransfer d time { s with data := RTC.reverseData s.data }
  else if s.data &&& 15 ≠ 6 then s
  else RTC.startTransfer d time s

/-- The function `RTC::ReceiveBufferSIO()`; `none` when `buffer[current_byte]`
would be written outside the 7-byte array. -/
def RTC.ReceiveBufferSIO (d : RTCDecl) (s : RTC) : Option RTC :=
  if s.current_byte < d.s_argument_count s.reg then
    let (s, completed) := RTC.ReadSIO s
    if completed then
      if s.current_byte < 7 then
        let s := { s with buffer := setBuffer s.buffer s.current_byte s.data }
        let s := { s with current_byte := s.current_byte + 1 }
        if s.current_byte = d.s_argument_count s.reg then
          some { (RTC.WriteRegister d s) with state := RTCState.Complete }
        else some s
      else none
    else some s
  else some s

/-- The function `RTC::TransmitBufferSIO()`; `none` when `buffer[current_byte]`
would be accessed outside the 7-byte array. -/
def RTC.TransmitBufferSIO (d : RTCDecl) (s : RTC) : Option RTC :=
  if s.current_byte < 7 then
    let s := { s with port := { s.port with sio := s.buffer s.current_byte &&& 1 } }
    let s := { s with buffer := setBuffer s.buffer s.current_byte (s.buffer s.current_byte >>> 1) }
    if s.current_bit + 1 = 8 then
      let s := { s with current_bit := 0, current_byte := s.current_byte + 1 }
      if s.current_byte = d.s_argument_count s.reg then
        some { s with state := RTCState.Complete }
      else some s
    else
      some { s with current_bit := s.current_bit + 1 }
  else none

/-- The `switch(state)` statement of `RTC::Write` (lines 75-88): what an SCK
rising edge with CS high does. -/
def RTC.onClock (d : RTCDecl) (time : Tm) (s : RTC) : Option RTC :=
  match s.state with
  | RTCState.Command => some (RTC.ReceiveCommandSIO d time s)
  | RTCState.Receiving => RTC.ReceiveBufferSIO d s
  | RTCState.Sending => RTC.TransmitBufferSIO d s
  | RTCState.Complete => some s

/-- The function `RTC::Write(value)`. -/
def RTC.Write (d : RTCDecl) (time : Tm) (value : Nat) (s : RTC) : Option RTC :=
  let old_sck := s.port.sck
  let old_cs := s.port.cs
  let s :=
    if s.port_direction d.CS = PortDirection.Out then
      { s with port := { s.port with cs := (value >>> d.CS) &&& 1 } }
    else s
  let s :=
    if s.port_direction d.SCK = PortDirection.Out then
      { s with port := { s.port with sck := (value >>> d.SCK) &&& 1 } }
    else s
  let s :=
    if s.port_direction d.SIO = PortDirection.Out then
      { s with port := { s.port with sio := (value >>> d.SIO) &&& 1 } }
    else s
  if s.port.cs ≠ 0 then
    if old_cs = 0 then
      some { s with state := RTCState.Command, current_bit := 0, current_byte := 0 }
    else if old_sck = 0 ∧ s.port.sck ≠ 0 then
      RTC.onClock d time s
    else some s
  else some s

/-! ## CRC-32 -/

/-- Modelled from the spec: one bit of the CRC-32 (reflected polynomial
0xEDB88320); `common/crc32.hpp` is not part of the sources at hand and the spec
names the function "CRC-32". -/
def crc32_bit (crc byte : Nat) : Nat :=
  if (crc ^^^ byte) &&& 1 ≠ 0 then (crc >>> 1) ^^^ 0xEDB88320 else crc >>> 1

/-- Modelled from the spec: the CRC-32 register after one more u8, least
significant bit first. -/
def crc32_byte (crc byte : Nat) : Nat :=
  let byte := byte % 256
  let crc := crc32_bit crc byte
  let crc := crc32_bit crc (byte >>> 1)
  let crc := crc32_bit crc (byte >>> 2)
  let crc := crc32_bit crc (byte >>> 3)
  let crc := crc32_bit crc (byte >>> 4)
  let crc := crc32_bit crc (byte >>> 5)
  let crc := crc32_bit crc (byte >>> 6)
  crc32_bit crc (byte >>> 7)

/-- Modelled from the spec: the standard CRC-32 of a byte sequence (initial
value and final inversion 0xFFFFFFFF), the function the spec calls CRC-32. -/
def crc32 (data : List Nat) : Nat :=
  (data.foldl crc32_byte 0xFFFFFFFF) ^^^ 0xFFFFFFFF

/-- A synthetic 48-byte block whose CRC-32 is `kSoundMainCRC32`. -/
def demoSignature : List Nat :=
  [0x03, 0x0A, 0x11, 0x18, 0x1F, 0x26, 0x2D, 0x34, 0x3B, 0x42, 0x49, 0x50,
   0x57, 0x5E, 0x65, 0x6C, 0x73, 0x7A, 0x81, 0x88, 0x8F, 0x96, 0x9D, 0xA4,
   0xAB, 0xB2, 0xB9, 0xC0, 0xC7, 0xCE, 0xD5, 0xDC, 0xE3, 0xEA, 0xF1, 0xF8,
   0xFF, 0x06, 0x0D, 0x14, 0x1B, 0x22, 0x29, 0x30, 0x6B, 0x3F, 0xA6, 0x47]

/-- The tail of the synthetic ROM: `demoSignature`, zero padding up to offset
0x74, and the pointer 0x080010A1 (little-endian). -/
def demoTail : List Nat :=
  demoSignature ++ List.replicate (0x74 - 48) 0 ++ [0xA1, 0x10, 0x00, 0x08]

/-- A synthetic ROM: 0x1000 zero bytes, then `demoTail`, so that the signature
sits at offset 0x1000 and the pointer at offset 0x1074. -/
def demoROM : List Nat :=
  List.replicate 0x1000 0 ++ demoTail

/-! ## A concrete instance of the absent components

Used to evaluate the embedding on concrete inputs. -/

/-- Modelled from the spec: a `bus.Step(cycles)` for a machine whose only
scheduled event is a timer overflowing at every multiple of 1000 cycles and
raising IRQ source Timer0 (IF bit 3): the clock moves forward by `cycles` and
the events reached on the way fire (sections 4.1, 4.2, 4.4). -/
def demoStep (n : Nat) (s : Core Unit) : Core Unit :=
  let target := s.timestamp_now + n
  if s.timestamp_now / 1000 < target / 1000 then
    { s with timestamp_now := target, irq_if := s.irq_if ||| 8 }
  else
    { s with timestamp_now := target }

/-- Modelled from the spec: an instance of the components for the machine of
`demoStep`.  Every CPU instruction takes 3 cycles and advances `r15` by 4, no
DMA is ever running, `SwitchMode` sets the mode, `cpu.Reset()` enters SVC mode
at address 0, and the CRC is the standard CRC-32 of `crc32`. -/
def demoComponents : Components Unit where
  scheduler_Reset := fun s => { s with timestamp_now := 0 }
  cpu_Reset := fun s =>
    { s with cpu := { mode := Mode.SVC, r13 := 0, r15 := 0, bank := fun _ _ => 0 } }
  irq_Reset := fun s => { s with irq_ie := 0, irq_if := 0 }
  dma_Reset := fun s => s
  timer_Reset := fun s => s
  apu_Reset := fun s => s
  ppu_Reset := fun s => s
  bus_Reset := fun s => { s with haltcnt := HaltControl.Run }
  keypad_Reset := fun s => s
  SwitchMode := fun m s => { s with cpu := { s.cpu with mode := m } }
  cpu_Run := fun s =>
    let s := demoStep 3 s
    { s with cpu := { s.cpu with r15 := (s.cpu.r15 + 4) % 2 ^ 32 } }
  dma_IsRunning := fun _ => false
  dma_Run := fun s => s
  GetRemainingCycleCount := fun s => 1000 - s.timestamp_now % 1000
  Step := demoStep
  sound_info_valid := fun _ => false
  SoundMainRAM := fun s => s
  crc32 := crc32

/-- A state of the demo machine: clock 0, the given halt state and IE word,
nothing pending, empty ROM. -/
def demoCore (haltcnt : HaltControl) (ie : Nat) : Core Unit where
  hle_audio_hook := 0xFFFFFFFF
  timestamp_now := 0
  haltcnt := haltcnt
  cpu := { mode := Mode.SVC, r13 := 0, r15 := 0x08000000, bank := fun _ _ => 0 }
  irq_ie := ie
  irq_if := 0
  rom := []
  mp2k_use_cubic_filter := false
  mp2k_force_reverb := false
  rest := ()

/-! ## RTC: driving the pins -/

/-- The GPIO value that holds CS high and puts `sck` on SCK and `sio` on SIO. -/
def RTCDecl.value (d : RTCDecl) (sck sio : Nat) : Nat :=
  (1 <<< d.CS) ||| (sck <<< d.SCK) ||| (sio <<< d.SIO)

/-- One clock pulse with CS held high: `Write` with SCK low, then `Write` with
SCK high (the rising edge), SIO driven with `sio` in both. -/
def RTC.pulse (d : RTCDecl) (time : Tm) (sio : Nat) (s : RTC) : Option RTC :=
  (RTC.Write d time (d.value 0 sio) s).bind (RTC.Write d time (d.value 1 sio))

/-- One clock pulse per element of the list, in order. -/
def RTC.pulses (d : RTCDecl) (time : Tm) : List Nat → RTC → Option RTC
  | [], s => some s
  | b :: bs, s => (RTC.pulse d time b s).bind (RTC.pulses d time bs)

/-- The pin values after the pulses of `RTC.pulses` in a state that receives. -/
def portAfter : RTCPort → List Nat → RTCPort
  | p, [] => p
  | _, b :: bs => portAfter { sck := 1, sio := b, cs := 1 } bs

/-- The u8 `data` after `RTC::ReadSIO()` has sampled the bits of the list,
starting at bit position `current_bit`. -/
def shiftIn : Nat → Nat → List Nat → Nat
  | data, _, [] => data
  | data, current_bit, b :: bs => shiftIn (RTC.shiftBit data current_bit b) (current_bit + 1) bs

/-- The number whose bit `i` is the `i`-th element of the list (first element
least significant). -/
def lsbFirst (bits : List Nat) : Nat :=
  bits.foldr (fun b acc => b + 2 * acc) 0

/-- The number read from the list with the first element most significant. -/
def msbFirst (bits : List Nat) : Nat :=
  bits.foldl (fun acc b => 2 * acc + b) 0

/-- The command decoding as the spec words it (section 4.11, step 2): a byte
whose top nibble is 6 is accepted as it is, a byte whose bottom nibble is 6 is
bit-reversed and then accepted, any other byte is rejected. -/
def specAcceptedCommand (byte : Nat) : Option Nat :=
  if byte >>> 4 = 6 then some byte
  else if byte &&& 15 = 6 then some (RTC.reverseData byte)
  else none

/-- An instance of the declarations of `rtc.hpp`: pins SCK, SIO, CS at bits 0,
1, 2 and the register numbering of the S-3511A command set, with the argument
counts of section 3 of the spec. -/
def demoDecl : RTCDecl where
  SCK := 0
  SIO := 1
  CS := 2
  ForceReset := 0
  DateTime := 2
  ForceIRQ := 3
  Control := 4
  Time := 6
  s_argument_count := fun r =>
    if r = 2 then 7 else if r = 4 then 1 else if r = 6 then 3 else 0

/-- An RTC right after `RTC::Reset()`, all three pins configured as outputs. -/
def demoRTC : RTC :=
  RTC.Reset
    { current_bit := 0, current_byte := 0, reg := 0, data := 0, buffer := fun _ => 0,
      port := { sck := 0, sio := 0, cs := 0 }, state := RTCState.Complete,
      control := { unknown1 := false, per_minute_irq := false, unknown2 := false,
                   mode_24h := false, poweroff := false },
      port_direction := fun _ => PortDirection.Out, irq_raised := 0 }

/-- The local time 2024-03-15 13:45:07, weekday 3, as a `struct tm`. -/
def demoTime : Tm :=
  { tm_sec := 7, tm_min := 45, tm_hour := 13, tm_mday := 15, tm_mon := 2, tm_year := 124,
    tm_wday := 3 }

/-- The wiring under which the RTC is driven: CS, SCK and SIO are distinct bits
of the GPIO value and all three are configured as outputs. -/
def RTC.Wired (d : RTCDecl) (s : RTC) : Prop :=
  d.CS ≠ d.SCK ∧ d.CS ≠ d.SIO ∧ d.SCK ≠ d.SIO ∧
  s.port_direction d.CS = PortDirection.Out ∧
  s.port_direction d.SCK = PortDirection.Out ∧
  s.port_direction d.SIO = PortDirection.Out

instance (d : RTCDecl) (s : RTC) : Decidable (RTC.Wired d s) := by
  unfold RTC.Wired
  infer_instance

/-- The RTC `demoRTC` after the host has raised CS: state Command, counters 0. -/
def demoRTCSelected : RTC :=
  { demoRTC with port := { sck := 0, sio := 0, cs := 1 }, state := RTCState.Command }

/-- The host drives the clock: the CS and SCK ports are configured as outputs.
Nothing is asked of the SIO port, which the host configures as an input to read
what the RTC sends. -/
def RTC.Clocked (d : RTCDecl) (s : RTC) : Prop :=
  s.port_direction d.CS = PortDirection.Out ∧ s.port_direction d.SCK = PortDirection.Out

instance (d : RTCDecl) (s : RTC) : Decidable (RTC.Clocked d s) := by
  unfold RTC.Clocked
  infer_instance

/-- A pair of GPIO values that makes one SCK rising edge with CS high: both
have the CS bit set, the first has the SCK bit clear and the second has it set.
The other bits, the SIO bit among them, are arbitrary. -/
def RTCDecl.IsEdge (d : RTCDecl) (w : Nat × Nat) : Prop :=
  (w.1 >>> d.CS) &&& 1 = 1 ∧ (w.1 >>> d.SCK) &&& 1 = 0 ∧
  (w.2 >>> d.CS) &&& 1 = 1 ∧ (w.2 >>> d.SCK) &&& 1 = 1

instance (d : RTCDecl) (w : Nat × Nat) : Decidable (d.IsEdge w) := by
  unfold RTCDecl.IsEdge
  infer_instance

/-- Two calls `Write(w.1)`, `Write(w.2)` in a row. -/
def RTC.edge (d : RTCDecl) (time : Tm) (w : Nat × Nat) (s : RTC) : Option RTC :=
  (RTC.Write d time w.1 s).bind (RTC.Write d time w.2)

/-- The pairs of writes of the list, in order. -/
def RTC.edges (d : RTCDecl) (time : Tm) : List (Nat × Nat) → RTC → Option RTC
  | [], s => some s
  | w :: ws, s => (RTC.edge d time w s).bind (RTC.edges d time ws)

/-- The RTC `t` is sending a buffer that held `B` and has `n` bytes to send,
`m` bits have gone out so far: the counters point at bit `m % 8` of byte
`m / 8`, the bytes before it are shifted out, the current byte is shifted by
`m % 8`, the bytes after it are untouched, and CS is high. -/
def RTC.SendingAfter (d : RTCDecl) (B : Nat → Nat) (n m : Nat) (t : RTC) : Prop :=
  RTC.Clocked d t ∧ t.port.cs = 1 ∧ t.state = RTCState.Sending ∧
  d.s_argument_count t.reg = n ∧
  t.current_bit = m % 8 ∧ t.current_byte = m / 8 ∧
  ∀ j < 7, t.buffer j =
    if j < m / 8 then B j >>> 8 else if j = m / 8 then B j >>> (m % 8) else B j

instance (d : RTCDecl) (B : Nat → Nat) (n m : Nat) (t : RTC) :
    Decidable (RTC.SendingAfter d B n m t) := by
  unfold RTC.SendingAfter
  infer_instance

/-! ## APU -/

/-- The values of `DMA::Occasion` that `apu.cpp` uses (`dma.hpp` is not part of
the sources at hand). -/
inductive Occasion where
  | FIFO0
  | FIFO1
  deriving DecidableEq, Repr

/-- The methods of `FIFO` that `apu.cpp` calls, over a type `φ` of FIFO states
(`fifo.hpp` is not part of the sources at hand). -/
structure FIFODecl (φ : Type) where
  /-- The method `fifo.Count()`. -/
  Count : φ → Int
  /-- The method `fifo.ReadWord()`: the word read and the FIFO after the read. -/
  ReadWord : φ → Nat × φ

/-- The struct `APU::Pipe`: `u32 word`, `int size`. -/
structure Pipe where
  word : Nat
  size : Int
  deriving DecidableEq, Repr

/-- The fields of `soundcnt.dma[fifo]` that `apu.cpp` reads. -/
structure SoundControlDMA where
  timer_id : Int
  volume : Nat
  enable : Nat → Bool

/-- The fields of `soundcnt.psg` that `apu.cpp` reads. -/
structure SoundControlPSG where
  volume : Nat
  master : Nat → Int
  enable : Nat → Nat → Bool

/-- The fields of `SoundControl` that `apu.cpp` reads. -/
structure SoundControl where
  master_enable : Bool
  psg : SoundControlPSG
  dma : Nat → SoundControlDMA

/-- The fields of `BIAS` that `apu.cpp` reads. -/
structure BIAS where
  level : Int
  resolution : Int

/-- The state of `struct APU` that `OnTimerOverflow` and the integer path of
`StepMixer` touch.  `psg_sample i` is what `GetSample()` of PSG channel `i + 1`
returns (an `s8`), `latch` holds `s8` values, and `dma_requests` records the
calls `dma.Request(occasion)` in order. -/
structure APU (φ : Type) where
  fifo : Nat → φ
  soundcnt : SoundControl
  bias : BIAS
  psg_sample : Nat → Int
  fifo_pipe : Nat → Pipe
  latch : Nat → Int
  dma_requests : List Occasion

/-- Assignment to one element of an array. -/
def setAt {α : Type} (f : Nat → α) (i : Nat) (v : α) : Nat → α :=
  fun j => if j = i then v else f j

/-- The conversion `(s8)(u8)x` of a `u32`. -/
def toS8 (x : Nat) : Int :=
  if x % 256 < 128 then ((x % 256 : Nat) : Int) else ((x % 256 : Nat) : Int) - 256

/-- The conversion of an `int` value to `s16`. -/
def wrap16 (x : Int) : Int :=
  (x + 32768) % 65536 - 32768

/-- The table `occasion[2]` of `OnTimerOverflow`. -/
def occasion (fifo_id : Nat) : Occasion :=
  if fifo_id = 0 then Occasion.FIFO0 else Occasion.FIFO1

/-- The body of the `if` inside the loop of `APU::OnTimerOverflow` (lines
99-118) for the FIFO `fifo_id`. -/
def APU.OnTimerOverflow.body {φ : Type} (F : FIFODecl φ) (fifo_id : Nat) (a : APU φ) : APU φ :=
  let a :=
    if F.Count (a.fifo fifo_id) ≤ 3 then
      { a with dma_requests := a.dma_requests ++ [occasion fifo_id] }
    else a
  let a :=
    if (a.fifo_pipe fifo_id).size = 0 ∧ F.Count (a.fifo fifo_id) > 0 then
      let r := F.ReadWord (a.fifo fifo_id)
      { a with fifo := setAt a.fifo fifo_id r.2,
               fifo_pipe := setAt a.fifo_pipe fifo_id { word := r.1 % 2 ^ 32, size := 4 } }
    else a
  let sample := toS8 (a.fifo_pipe fifo_id).word
  let a :=
    if (a.fifo_pipe fifo_id).size > 0 then
      let pipe := a.fifo_pipe fifo_id
      { a with fifo_pipe := setAt a.fifo_pipe fifo_id
                 { word := pipe.word >>> 8, size := pipe.size - 1 } }
    else a
  { a with latch := setAt a.latch fifo_id sample }

/-- One iteration of the loop of `APU::OnTimerOverflow` (lines 97-120). -/
def APU.OnTimerOverflow.iter {φ : Type} (F : FIFODecl φ) (timer_id : Int) (fifo_id : Nat)
    (a : APU φ) : APU φ :=
  if (a.soundcnt.dma fifo_id).timer_id = timer_id then APU.OnTimerOverflow.body F fifo_id a
  else a

set_option linter.unusedVariables false in
/-- The function `APU::OnTimerOverflow(timer_id, times)` (lines 88-121).  The
C++ body never reads `times`. -/
def APU.OnTimerOverflow {φ : Type} (F : FIFODecl φ) (timer_id times : Int) (a : APU φ) :
    APU φ :=
  if a.soundcnt.master_enable = false then a
  else
    APU.OnTimerOverflow.iter F timer_id 1 (APU.OnTimerOverflow.iter F timer_id 0 a)
/-- The table `psg_volume_tab[4]` of `StepMixer`; an index outside the table
has no value. -/
def psg_volume_tab : Nat → Option Int
  | 0 => some 1
  | 1 => some 2
  | 2 => some 4
  | 3 => some 0
  | _ => none

/-- The table `dma_volume_tab[2]` of `StepMixer`; an index outside the table
has no value. -/
def dma_volume_tab : Nat → Option Int
  | 0 => some 2
  | 1 => some 4
  | _ => none

/-- The call `std::clamp(v, lo, hi)`. -/
def clamp (v lo hi : Int) : Int :=
  if v < lo then lo else if hi < v then hi else v

/-- The statements `s16 psg_sample = 0; if(psg.enable[channel][i]) psg_sample +=
mmio.psgN.GetSample();` (lines 180-185). -/
def APU.StepMixer.psg_sample {φ : Type} (a : APU φ) (channel : Nat) : Int :=
  let enable := a.soundcnt.psg.enable channel
  let p : Int := 0
  let p := if enable 0 then wrap16 (p + a.psg_sample 0) else p
  let p := if enable 1 then wrap16 (p + a.psg_sample 1) else p
  let p := if enable 2 then wrap16 (p + a.psg_sample 2) else p
  let p := if enable 3 then wrap16 (p + a.psg_sample 3) else p
  p

/-- One iteration of the loop over the FIFOs (lines 189-193) on the `s16`
accumulator `sample[channel]`. -/
def APU.StepMixer.fifo {φ : Type} (a : APU φ) (channel fifo : Nat) (sample : Int) :
    Option Int :=
  if (a.soundcnt.dma fifo).enable channel then
    (dma_volume_tab (a.soundcnt.dma fifo).volume).map
      fun dma_volume => wrap16 (sample + a.latch fifo * dma_volume)
  else some sample

/-- One iteration of the loop over the channels in the integer path of
`APU::StepMixer` (lines 179-198): the value of `sample[channel]` after it,
starting from 0.  The products are computed in `int`, each assignment to the
`s16` accumulator wraps. -/
def APU.StepMixer.channel {φ : Type} (a : APU φ) (channel : Nat) : Option Int :=
  match psg_volume_tab a.soundcnt.psg.volume with
  | none => none
  | some psg_volume =>
    let psg_sample := APU.StepMixer.psg_sample a channel
    let sample : Int := 0
    let master := a.soundcnt.psg.master channel
    let sample := wrap16 (sample + ((psg_sample * psg_volume * (master + 1)) >>> (5 : Nat)))
    match APU.StepMixer.fifo a channel 0 sample with
    | none => none
    | some sample =>
      match APU.StepMixer.fifo a channel 1 sample with
      | none => none
      | some sample =>
        let sample := wrap16 (sample + a.bias.level)
        let sample := clamp sample 0 0x3FF
        some (wrap16 (sample - 0x200))

/-- The stereo sample that the integer path of `APU::StepMixer` hands to the
resampler (lines 170-203), before the division by `float(0x200)`. -/
def APU.StepMixer.sample {φ : Type} (a : APU φ) : Option (Int × Int) :=
  match APU.StepMixer.channel a 0, APU.StepMixer.channel a 1 with
  | some l, some r => if a.soundcnt.master_enable = false then some (0, 0) else some (l, r)
  | _, _ => none

/-- The delay with which `APU::StepMixer` reschedules the mixer event: line 168
when the MP2K mixer is engaged, lines 206-209 otherwise.  `sample_interval` is
the value of `mmio.bias.GetSampleInterval()`, taken positive, and `now` the
value of `scheduler.GetTimestampNow()`. -/
def APU.StepMixer.cycles (engaged : Bool) (sample_interval now : Nat) : Int :=
  if engaged then 256 - ((now &&& 255 : Nat) : Int)
  else (sample_interval : Int) - ((now &&& (sample_interval - 1) : Nat) : Int)

/-- The sum of the enabled PSG samples of a channel, as the spec words it,
computed without any wrapping. -/
def APU.specPsgSum {φ : Type} (a : APU φ) (channel : Nat) : Int :=
  let en := a.soundcnt.psg.enable channel
  (if en 0 then a.psg_sample 0 else 0) + (if en 1 then a.psg_sample 1 else 0)
    + (if en 2 then a.psg_sample 2 else 0) + (if en 3 then a.psg_sample 3 else 0)

/-- The PSG term of a channel as the spec words it: (sum of the enabled PSG
samples) * psg_volume * (master + 1) >> 5, with psg_volume 1, 2, 4, 0 for the
volume tiers 0, 1, 2, 3. -/
def APU.specPsgTerm {φ : Type} (a : APU φ) (channel : Nat) : Int :=
  let vol : Int :=
    if a.soundcnt.psg.volume = 0 then 1 else if a.soundcnt.psg.volume = 1 then 2
    else if a.soundcnt.psg.volume = 2 then 4 else 0
  (APU.specPsgSum a channel * vol * (a.soundcnt.psg.master channel + 1)) >>> (5 : Nat)

/-- The FIFO term of a channel as the spec words it: the latch times 2 (volume
tier 0) or 4 (volume tier 1) when the FIFO is enabled on the channel. -/
def APU.specFifoTerm {φ : Type} (a : APU φ) (channel fifo : Nat) : Int :=
  if (a.soundcnt.dma fifo).enable channel then
    a.latch fifo * (if (a.soundcnt.dma fifo).volume = 0 then 2 else 4)
  else 0

/-- The per-channel sum as the spec words it: the PSG term, the enabled FIFO
latches times 2 or 4, and the BIAS level, computed without any wrapping. -/
def APU.specMixerSum {φ : Type} (a : APU φ) (channel : Nat) : Int :=
  APU.specPsgTerm a channel + APU.specFifoTerm a channel 0 + APU.specFifoTerm a channel 1
    + a.bias.level

/-- Modelled from the spec: a FIFO as a queue of 32-bit words, `Count()` the
number of queued words and `ReadWord()` removing the oldest (0 when empty). -/
def listFIFO : FIFODecl (List Nat) where
  Count := fun q => (q.length : Int)
  ReadWord := fun q => (q.headD 0, q.tail)

/-- An APU with master sound enabled, both FIFOs linked to timer 0 with volume
tier 1 and enabled on both channels, PSG silent, BIAS level 0x200, FIFO 0
holding the given words, FIFO 1 empty, pipes empty, latches 0. -/
def demoAPU (words : List Nat) : APU (List Nat) where
  fifo := fun i => if i = 0 then words else []
  soundcnt :=
    { master_enable := true,
      psg := { volume := 2, master := fun _ => 7, enable := fun _ _ => true },
      dma := fun _ => { timer_id := 0, volume := 1, enable := fun _ => true } }
  bias := { level := 0x200, resolution := 0 }
  psg_sample := fun _ => 0
  fifo_pipe := fun _ => { word := 0, size := 0 }
  latch := fun _ => 0
  dma_requests := []

/-! ## A concrete instance that counts the HLE hook -/

/-- Modelled from the spec: components of a machine whose `rest` counts the
calls of `SoundMainRAM`.  Every CPU instruction takes 3 cycles and advances
`r15` by 4, `bus.Step` only moves the clock, no DMA is ever running, and the
sound-info pointer is valid or null as `valid` says. -/
def hookComponents (valid : Bool) : Components Nat where
  scheduler_Reset := fun s => { s with timestamp_now := 0 }
  cpu_Reset := fun s => s
  irq_Reset := fun s => { s with irq_ie := 0, irq_if := 0 }
  dma_Reset := fun s => s
  timer_Reset := fun s => s
  apu_Reset := fun s => s
  ppu_Reset := fun s => s
  bus_Reset := fun s => { s with haltcnt := HaltControl.Run }
  keypad_Reset := fun s => s
  SwitchMode := fun m s => { s with cpu := { s.cpu with mode := m } }
  cpu_Run := fun s =>
    { s with timestamp_now := s.timestamp_now + 3,
             cpu := { s.cpu with r15 := (s.cpu.r15 + 4) % 2 ^ 32 } }
  dma_IsRunning := fun _ => false
  dma_Run := fun s => s
  GetRemainingCycleCount := fun _ => 1
  Step := fun n s => { s with timestamp_now := s.timestamp_now + n }
  sound_info_valid := fun _ => valid
  SoundMainRAM := fun s => { s with rest := s.rest + 1 }
  crc32 := crc32

/-- A running core whose `r15` is at the HLE hook address, call counter 0. -/
def hookCore : Core Nat where
  hle_audio_hook := 0x080010A4
  timestamp_now := 0
  haltcnt := HaltControl.Run
  cpu := { mode := Mode.SYS, r13 := 0, r15 := 0x080010A4, bank := fun _ _ => 0 }
  irq_ie := 0
  irq_if := 0
  rom := []
  mp2k_use_cubic_filter := false
  mp2k_force_reverb := false
  rest := 0

/-! ## RTC: sequences of writes -/

/-- A sequence of calls `RTC::Write(value)`, each paired with the local time
the host clock reports during the call; `none` as soon as one of the calls
accesses `buffer` outside its 7 bytes. -/
def RTC.writes (d : RTCDecl) : List (Tm × Nat) → RTC → Option RTC
  | [], s => some s
  | w :: ws, s => (RTC.Write d w.1 w.2 s).bind (RTC.writes d ws)

/-- The bounds on the counters: the bit counter is below 8, and while the state
is Sending or Receiving the byte counter is below the argument count of the
selected register, which is at most 7. -/
def RTC.IndexInvariant (d : RTCDecl) (s : RTC) : Prop :=
  s.current_bit < 8 ∧
  (s.state = RTCState.Sending ∨ s.state = RTCState.Receiving →
    s.current_byte < d.s_argument_count s.reg ∧ d.s_argument_count s.reg ≤ 7)

instance (d : RTCDecl) (s : RTC) : Decidable (RTC.IndexInvariant d s) := by
  unfold RTC.IndexInvariant
  infer_instance

/-- The writes that raise CS and then clock in the command byte 0xA6 (read
DateTime) on the wiring of `demoDecl`, first bit least significant: for each
bit one write with SCK low and one with SCK high. -/
def demoWrites : List (Tm × Nat) :=
  (4 :: ([0, 1, 1, 0, 0, 1, 0, 1].flatMap fun b => [4 + 2 * b, 5 + 2 * b])).map
    fun v => (demoTime, v)

/-- The synthetic ROM `demoROM` cut off right before the pointer: the signature
sits at offset 0x1000 and the image ends at offset 0x1074. -/
def truncatedROM : List Nat :=
  demoROM.take 0x1074

/-! ## APU::Reset and sequences of timer overflows -/

/-- The `Reset()` methods of the members of `APU::MMIO` that `APU::Reset` calls
and that are not part of the sources at hand: of `FIFO`, of the four PSG
channels (seen through the samples they return afterwards), of `SoundControl`
and of `BIAS`. -/
structure APUResetDecl (φ : Type) where
  fifo_Reset : φ → φ
  psg_Reset : (Nat → Int) → (Nat → Int)
  soundcnt_Reset : SoundControl → SoundControl
  bias_Reset : BIAS → BIAS

/-- The function `APU::Reset()` on the state of the model (lines 37-54): the
resets of the two FIFOs, the PSG channels, the sound control and BIAS, and the
assignments `fifo_pipe[i] = {}`.  The function assigns nothing to `latch`; its
remaining statements (scheduler, MP2K, audio device, resampler) concern state
outside the model. -/
def APU.Reset {φ : Type} (R : APUResetDecl φ) (a : APU φ) : APU φ :=
  { a with
    fifo := fun i => if i < 2 then R.fifo_Reset (a.fifo i) else a.fifo i
    psg_sample := R.psg_Reset a.psg_sample
    soundcnt := R.soundcnt_Reset a.soundcnt
    bias := R.bias_Reset a.bias
    fifo_pipe := fun i => if i < 2 then { word := 0, size := 0 } else a.fifo_pipe i }

/-- A sequence of calls `OnTimerOverflow(timer_id, times)`. -/
def APU.overflows {φ : Type} (F : FIFODecl φ) : List (Int × Int) → APU φ → APU φ
  | [], a => a
  | c :: cs, a => APU.overflows F cs (APU.OnTimerOverflow F c.1 c.2 a)

/-- The bounds on the two pipes: `0 <= size <= 4` and `word < 2^(8 * size)`. -/
def APU.PipeInvariant {φ : Type} (a : APU φ) : Prop :=
  ∀ i < 2, 0 ≤ (a.fifo_pipe i).size ∧ (a.fifo_pipe i).size ≤ 4 ∧
    (a.fifo_pipe i).word < 2 ^ (8 * (a.fifo_pipe i).size.toNat)

/-- Modelled from the spec: resets for the queue FIFO of `listFIFO`: a reset
FIFO is empty, the PSG channels are silent, master sound is off and BIAS is at
its power-on level 0x200. -/
def listReset : APUResetDecl (List Nat) where
  fifo_Reset := fun _ => []
  psg_Reset := fun _ _ => 0
  soundcnt_Reset := fun c => { c with master_enable := false }
  bias_Reset := fun _ => { level := 0x200, resolution := 0 }

/-! ## PPU: background.cpp -/

/-- The conversion of an integer value to `int` / `s32` (two's complement). -/
def wrap32 (x : Int) : Int :=
  (x + 2147483648) % 4294967296 - 2147483648

/-- A reference point register `mmio.bgx[id]` / `mmio.bgy[id]`, by the fields
`background.cpp` uses (the PPU register header is not part of the sources at
hand): the value the CPU wrote, the internal value and the written flag. -/
structure ReferencePoint where
  initial : Int
  _current : Int
  written : Bool

/-- The fields of `mmio.mosaic.bg` that `background.cpp` uses. -/
structure MosaicBG where
  size_y : Int
  _counter_y : Int

/-- The fields of `PPU::mmio` that `background.cpp` uses: `dispcnt.mode`,
`dispcnt.hword`, `dispcnt_latch[]`, `vcount`, `mosaic.bg`,
`bgcnt[].mosaic_enable`, `bgx[]`, `bgy[]`, `bgpb[]`, `bgpd[]`. -/
structure PPUMMIO where
  dispcnt_mode : Nat
  dispcnt_hword : Nat
  dispcnt_latch : Nat → Nat
  vcount : Nat
  mosaic_bg : MosaicBG
  bgcnt_mosaic_enable : Nat → Bool
  bgx : Nat → ReferencePoint
  bgy : Nat → ReferencePoint
  bgpb : Nat → Int
  bgpd : Nat → Int

/-- The fields of the member `bg` of `PPU` that `background.cpp` uses;
`text_fetches i` is `bg.text[i].fetches`, `affine_x i` is `bg.affine[i].x`. -/
structure PPUBG where
  timestamp_init : Nat
  timestamp_last_sync : Nat
  cycle : Nat
  text_fetches : Nat → Nat
  affine_x : Nat → Int
  affine_y : Nat → Int

/-- State of `PPU` as far as `background.cpp` goes: `timestamp_now` is what
`scheduler.GetTimestampNow()` returns (a u64), `rest` stands for everything
else (VRAM, line buffers, the remaining registers). -/
structure PPU (ρ : Type) where
  timestamp_now : Nat
  mmio : PPUMMIO
  bg : PPUBG
  rest : ρ

/-- The render functions that `DrawBackgroundImpl` calls; they live in other
files of the PPU, which are not part of the sources at hand. -/
structure PPURender (ρ : Type) where
  /-- The call `RenderMode0BG(id, cycle)`. -/
  RenderMode0BG : Nat → Nat → PPU ρ → PPU ρ
  /-- The call `RenderMode2BG(id, cycle)`. -/
  RenderMode2BG : Nat → Nat → PPU ρ → PPU ρ
  /-- The call `RenderMode3BG(cycle)`. -/
  RenderMode3BG : Nat → PPU ρ → PPU ρ
  /-- The call `RenderMode4BG(cycle)`. -/
  RenderMode4BG : Nat → PPU ρ → PPU ρ
  /-- The call `RenderMode5BG(cycle)`. -/
  RenderMode5BG : Nat → PPU ρ → PPU ρ

/-- The function `PPU::InitBackground()`. -/
def PPU.InitBackground {ρ : Type} (s : PPU ρ) : PPU ρ :=
  let timestamp_now := s.timestamp_now
  let first_scanline := s.mmio.vcount = 0
  let latch := fun (r : ReferencePoint) =>
    if r.written = true ∨ first_scanline then
      { r with _current := r.initial, written := false }
    else r
  let bgx := fun id => if id < 2 then latch (s.mmio.bgx id) else s.mmio.bgx id
  let bgy := fun id => if id < 2 then latch (s.mmio.bgy id) else s.mmio.bgy id
  { s with
    mmio := { s.mmio with bgx := bgx, bgy := bgy }
    bg := { s.bg with
      timestamp_init := timestamp_now
      timestamp_last_sync := timestamp_now
      cycle := 0
      text_fetches := fun _ => 0
      affine_x := fun id => if id < 2 then (bgx id)._current else s.bg.affine_x id
      affine_y := fun id => if id < 2 then (bgy id)._current else s.bg.affine_y id } }

/-- The update of the mosaic row counter at cycle 1232 (lines 124-132); the
`int` counter wraps in two's complement, and `_counter_y &= 15` keeps its low
four bits, which is the remainder modulo 16 also for a negative value. -/
def PPU.stepMosaic (m : PPUMMIO) : PPUMMIO :=
  if m.vcount < 159 then
    let counter := wrap32 (m.mosaic_bg._counter_y + 1)
    if counter = m.mosaic_bg.size_y then
      { m with mosaic_bg := { m.mosaic_bg with _counter_y := 0 } }
    else
      { m with mosaic_bg := { m.mosaic_bg with _counter_y := counter % 16 } }
  else
    { m with mosaic_bg := { m.mosaic_bg with _counter_y := 0 } }

/-- The lambda `AdvanceBGXY(id)` (lines 139-156); `latched` is the constant
`latched_dispcnt_and_current_dispcnt`.  The `s32` sums wrap in two's
complement. -/
def PPU.AdvanceBGXY (latched : Nat) (id : Nat) (m : PPUMMIO) : PPUMMIO :=
  let bg_id := 2 + id
  if latched &&& (256 <<< bg_id) ≠ 0 then
    if m.bgcnt_mosaic_enable bg_id then
      if m.mosaic_bg._counter_y = 0 then
        let x := wrap32 ((m.bgx id)._current + m.mosaic_bg.size_y * m.bgpb id)
        let y := wrap32 ((m.bgy id)._current + m.mosaic_bg.size_y * m.bgpd id)
        { m with bgx := setAt m.bgx id { (m.bgx id) with _current := x },
                 bgy := setAt m.bgy id { (m.bgy id) with _current := y } }
      else m
    else
      let x := wrap32 ((m.bgx id)._current + m.bgpb id)
      let y := wrap32 ((m.bgy id)._current + m.bgpd id)
      { m with bgx := setAt m.bgx id { (m.bgx id) with _current := x },
               bgy := setAt m.bgy id { (m.bgy id) with _current := y } }
  else m
/-- The text-mode part of the loop body of `DrawBackgroundImpl<mode>` (lines
83-89) at the 1-based cycle `cycle`; `latched` is the constant
`latched_dispcnt_and_current_dispcnt`. -/
def PPU.DrawBackgroundImpl.renderText {ρ : Type} (R : PPURender ρ)
    (mode latched cycle : Nat) (s : PPU ρ) : PPU ρ :=
  if mode ≤ 1 then
    let id := cycle &&& 3
    if (id ≤ 1 ∨ mode = 0) ∧ latched &&& (256 <<< id) ≠ 0 then R.RenderMode0BG id cycle s
    else s
  else s

/-- The affine part of the loop body (lines 93-99). -/
def PPU.DrawBackgroundImpl.renderAffine {ρ : Type} (R : PPURender ρ)
    (mode latched cycle : Nat) (s : PPU ρ) : PPU ρ :=
  if mode = 1 ∨ mode = 2 then
    let id := ((cycle >>> 1) ^^^ 0xFFFFFFFF) &&& 1
    if (id = 0 ∨ mode = 2) ∧ latched &&& (1024 <<< id) ≠ 0 then R.RenderMode2BG id cycle s
    else s
  else s

/-- The bitmap part of the loop body (lines 101-117): modes 3, 4 and 5. -/
def PPU.DrawBackgroundImpl.renderBitmap {ρ : Type} (R : PPURender ρ)
    (mode latched cycle : Nat) (s : PPU ρ) : PPU ρ :=
  let s :=
    if mode = 3 then
      if latched &&& 1024 ≠ 0 then R.RenderMode3BG cycle s else s
    else s
  let s :=
    if mode = 4 then
      if latched &&& 1024 ≠ 0 then R.RenderMode4BG cycle s else s
    else s
  if mode = 5 then
    if latched &&& 1024 ≠ 0 then R.RenderMode5BG cycle s else s
  else s

/-- The render calls of the loop body of `DrawBackgroundImpl<mode>` (lines
82-118): the text-mode part, then below cycle 1007 the affine and the bitmap
part. -/
def PPU.DrawBackgroundImpl.render {ρ : Type} (R : PPURender ρ) (mode latched cycle : Nat)
    (s : PPU ρ) : PPU ρ :=
  let s := PPU.DrawBackgroundImpl.renderText R mode latched cycle s
  if cycle < 1007 then
    PPU.DrawBackgroundImpl.renderBitmap R mode latched cycle
      (PPU.DrawBackgroundImpl.renderAffine R mode latched cycle s)
  else s

/-- The statements executed when `cycle == 1232U` (lines 122-164), on the
registers: the mosaic row counter, then `AdvanceBGXY(0)` in modes 1 to 5 and
`AdvanceBGXY(1)` in mode 2. -/
def PPU.DrawBackgroundImpl.lineEnd (mode latched : Nat) (m : PPUMMIO) : PPUMMIO :=
  let m := PPU.stepMosaic m
  let m := if 1 ≤ mode ∧ mode ≤ 5 then PPU.AdvanceBGXY latched 0 m else m
  if mode = 2 then PPU.AdvanceBGXY latched 1 m else m

/-- The statements of the loop body of `DrawBackgroundImpl<mode>` before the
increment of `bg.cycle` (lines 80-165). -/
def PPU.DrawBackgroundImpl.body {ρ : Type} (R : PPURender ρ) (mode latched : Nat)
    (s : PPU ρ) : PPU ρ :=
  let cycle := (1 + s.bg.cycle) % 2 ^ 32
  let s := PPU.DrawBackgroundImpl.render R mode latched cycle s
  if cycle = 1232 then
    { s with mmio := PPU.DrawBackgroundImpl.lineEnd mode latched s.mmio }
  else s

/-- The `for` loop of `DrawBackgroundImpl<mode>` (lines 77-170) with `n`
iterations left: the body, then `if(++bg.cycle == 1232U) break;`. -/
def PPU.DrawBackgroundImpl.loop {ρ : Type} (R : PPURender ρ) (mode latched : Nat) :
    Nat → PPU ρ → PPU ρ
  | 0, s => s
  | n + 1, s =>
    let s := PPU.DrawBackgroundImpl.body R mode latched s
    let s := { s with bg := { s.bg with cycle := (s.bg.cycle + 1) % 2 ^ 32 } }
    if s.bg.cycle = 1232 then s
    else PPU.DrawBackgroundImpl.loop R mode latched n s

/-- The function template `PPU::DrawBackgroundImpl<mode>(int cycles)`. -/
def PPU.DrawBackgroundImpl {ρ : Type} (R : PPURender ρ) (mode : Nat) (cycles : Int)
    (s : PPU ρ) : PPU ρ :=
  let latched := (s.mmio.dispcnt_latch 0 &&& s.mmio.dispcnt_hword) % 2 ^ 16
  PPU.DrawBackgroundImpl.loop R mode latched cycles.toNat s

/-- The value `(int)(timestamp_now - bg.timestamp_last_sync)` (line 47): a u64
difference converted to `int`. -/
def PPU.elapsed {ρ : Type} (s : PPU ρ) : Int :=
  wrap32 (((s.timestamp_now : Int) - (s.bg.timestamp_last_sync : Int)) % 2 ^ 64)

/-- The function `PPU::DrawBackground()`. -/
def PPU.DrawBackground {ρ : Type} (R : PPURender ρ) (s : PPU ρ) : PPU ρ :=
  let timestamp_now := s.timestamp_now
  let cycles := PPU.elapsed s
  if cycles = 0 ∨ s.bg.cycle ≥ 1232 then s
  else
    let mode := s.mmio.dispcnt_mode
    let s :=
      if mode ≤ 5 then PPU.DrawBackgroundImpl R mode cycles s
      else if mode = 6 ∨ mode = 7 then PPU.DrawBackgroundImpl R 7 cycles s
      else s
    { s with bg := { s.bg with timestamp_last_sync := timestamp_now } }

/-- What the render functions are taken to leave alone: the registers in
`mmio`, the cycle counter and the two clocks. -/
def PPU.SameRegisters {ρ : Type} (t s : PPU ρ) : Prop :=
  t.mmio = s.mmio ∧ t.bg.cycle = s.bg.cycle ∧
  t.bg.timestamp_last_sync = s.bg.timestamp_last_sync ∧ t.timestamp_now = s.timestamp_now

/-- The contract of the render functions: each of them leaves the registers,
the cycle counter and the clocks as they are. -/
def PPURender.Frame {ρ : Type} (R : PPURender ρ) : Prop :=
  (∀ id cycle s, PPU.SameRegisters (R.RenderMode0BG id cycle s) s) ∧
  (∀ id cycle s, PPU.SameRegisters (R.RenderMode2BG id cycle s) s) ∧
  (∀ cycle s, PPU.SameRegisters (R.RenderMode3BG cycle s) s) ∧
  (∀ cycle s, PPU.SameRegisters (R.RenderMode4BG cycle s) s) ∧
  (∀ cycle s, PPU.SameRegisters (R.RenderMode5BG cycle s) s)

/-- Modelled from the spec: render functions that only count their calls in
`rest`. -/
def demoRender : PPURender Nat where
  RenderMode0BG := fun _ _ s => { s with rest := s.rest + 1 }
  RenderMode2BG := fun _ _ s => { s with rest := s.rest + 1 }
  RenderMode3BG := fun _ s => { s with rest := s.rest + 1 }
  RenderMode4BG := fun _ s => { s with rest := s.rest + 1 }
  RenderMode5BG := fun _ s => { s with rest := s.rest + 1 }

/-- A PPU in the given mode at scanline cycle `cycle`, `elapsed` cycles after
the last sync, on scanline 10: BG2 and BG3 enabled in the latched and the
current DISPCNT, mosaic off, reference points (100, 200) for BG2 and
(300, 400) for BG3, PB = 3 and PD = 5 for both. -/
def demoPPU (mode cycle elapsed : Nat) : PPU Nat where
  timestamp_now := 5000 + elapsed
  mmio :=
    { dispcnt_mode := mode, dispcnt_hword := 0x0C00 + mode, dispcnt_latch := fun _ => 0x0C00,
      vcount := 10, mosaic_bg := { size_y := 1, _counter_y := 0 },
      bgcnt_mosaic_enable := fun _ => false,
      bgx := fun id => { initial := 0, _current := if id = 0 then 100 else 300,
                         written := false },
      bgy := fun id => { initial := 0, _current := if id = 0 then 200 else 400,
                         written := false },
      bgpb := fun _ => 3, bgpd := fun _ => 5 }
  bg := { timestamp_init := 0, timestamp_last_sync := 5000, cycle := cycle,
          text_fetches := fun _ => 0, affine_x := fun _ => 0, affine_y := fun _ => 0 }
  rest := 0

/-- The internal reference point coordinate after the line end as the claim
words it: with the background enabled it advances by `step` when mosaic is off
and by `size_y * step` when mosaic is on and the mosaic row counter is 0; in
every other case it is unchanged.  The sums are `s32`. -/
def PPU.specAdvance (enabled mosaic : Bool) (counter size_y step x : Int) : Int :=
  if enabled then
    if mosaic then
      if counter = 0 then wrap32 (x + size_y * step) else x
    else wrap32 (x + step)
  else x

/-- Whether the internal reference point of background `bg_id` is advanced at
the line end, as the claim words it: BG2 in modes 1 to 5, BG3 in mode 2 only,
and the background's enable bit (bit `8 + bg_id`) set in both the latched and
the current DISPCNT. -/
def PPU.specEnabled (m : PPUMMIO) (bg_id : Nat) : Bool :=
  decide (((bg_id = 2 ∧ 1 ≤ m.dispcnt_mode ∧ m.dispcnt_mode ≤ 5) ∨
      (bg_id = 3 ∧ m.dispcnt_mode = 2)) ∧
    (m.dispcnt_latch 0).testBit (8 + bg_id) = true ∧
    m.dispcnt_hword.testBit (8 + bg_id) = true)

/-! ## Theorems -/

/-! ### Core::Run -/

theorem Core.fastForward_succ {ρ : Type} (hw : Components ρ) (k : Nat) (s : Core ρ) :
    Core.fastForward hw (k + 1) s
      = hw.Step (hw.GetRemainingCycleCount (Core.fastForward hw k s)) (Core.fastForward hw k s) := by
  induction k generalizing s with
  | zero => rfl
  | succ k ih =>
    show Core.fastForward hw (k + 1) (hw.Step (hw.GetRemainingCycleCount s) s) = _
    rw [ih]
    rfl

theorem Core.fastForward_mono {ρ : Type} (hw : Components ρ)
    (hStep : ∀ n t, (hw.Step n t).timestamp_now = t.timestamp_now + n)
    (j k : Nat) (hjk : j ≤ k) (s : Core ρ) :
    (Core.fastForward hw j s).timestamp_now ≤ (Core.fastForward hw k s).timestamp_now := by
  induction k with
  | zero =>
    have : j = 0 := Nat.le_zero.mp hjk
    subst this
    exact Nat.le_refl _
  | succ k ih =>
    rcases Nat.lt_or_ge j (k + 1) with h | h
    · have h1 := ih (Nat.lt_succ_iff.mp h)
      rw [Core.fastForward_succ, hStep]
      omega
    · have : j = k + 1 := Nat.le_antisymm hjk h
      subst this
      exact Nat.le_refl _

theorem Core.haltBody_of_idle {ρ : Type} (hw : Components ρ) (s : Core ρ)
    (hdma : hw.dma_IsRunning s = false) :
    Core.haltBody hw s = hw.Step (hw.GetRemainingCycleCount s) s := by
  simp [Core.haltBody, hdma]

theorem Core.haltLoop_step {ρ : Type} (hw : Components ρ) (limit fuel : Nat) (s : Core ρ)
    (hlim : s.timestamp_now < limit) (hirq : s.ShouldUnhaltCPU = false) :
    Core.haltLoop hw limit (fuel + 1) s = Core.haltLoop hw limit fuel (Core.haltBody hw s) := by
  simp [Core.haltLoop, hlim, hirq]

theorem Core.haltLoop_exit {ρ : Type} (hw : Components ρ) (limit fuel : Nat) (s : Core ρ)
    (h : limit ≤ s.timestamp_now ∨ s.ShouldUnhaltCPU = true) :
    Core.haltLoop hw limit (fuel + 1) s = some s := by
  rcases h with h | h
  · simp [Core.haltLoop, Nat.not_lt.mpr h]
  · simp [Core.haltLoop, h]

theorem Core.haltLoop_fastForward {ρ : Type} (hw : Components ρ) (limit : Nat)
    (k fuel : Nat) (s : Core ρ)
    (hquiet : ∀ j, j < k →
      (Core.fastForward hw j s).ShouldUnhaltCPU = false ∧
      hw.dma_IsRunning (Core.fastForward hw j s) = false ∧
      (Core.fastForward hw j s).timestamp_now < limit) :
    Core.haltLoop hw limit (fuel + k) s = Core.haltLoop hw limit fuel (Core.fastForward hw k s) := by
  induction k generalizing s with
  | zero => rfl
  | succ k ih =>
    obtain ⟨h0, h1, h2⟩ := hquiet 0 (Nat.succ_pos k)
    have e : fuel + (k + 1) = (fuel + k) + 1 := by omega
    rw [e, Core.haltLoop_step hw limit (fuel + k) s h2 h0, Core.haltBody_of_idle hw s h1]
    exact ih _ (fun j hj => hquiet (j + 1) (Nat.succ_lt_succ hj))

/-- C2: for a halted core with `ShouldUnhaltCPU()` false, no DMA running and the
clock below the limit, the halt loop of `Core::Run` performs one pass that is
exactly `bus.Step(scheduler.GetRemainingCycleCount())`; with a `bus.Step` that
moves the clock by the cycles passed, the clock advances by exactly the
remaining cycle count, that is to the timestamp of the next scheduled event. -/
theorem Core.halt_fast_forward {ρ : Type} (hw : Components ρ) (limit fuel : Nat) (s : Core ρ)
    (hStep : ∀ n t, (hw.Step n t).timestamp_now = t.timestamp_now + n)
    (hhalt : s.haltcnt ≠ HaltControl.Run)
    (hirq : s.ShouldUnhaltCPU = false)
    (hdma : hw.dma_IsRunning s = false)
    (hlim : s.timestamp_now < limit) :
    Core.RunLoop hw limit (fuel + 2) s
        = (Core.haltLoop hw limit fuel (Core.haltBody hw s)).bind
            (fun s1 => Core.RunLoop hw limit (fuel + 1) (Core.wake hw s1))
      ∧ Core.haltBody hw s = hw.Step (hw.GetRemainingCycleCount s) s
      ∧ (Core.haltBody hw s).timestamp_now = s.timestamp_now + hw.GetRemainingCycleCount s := by
  refine ⟨?_, Core.haltBody_of_idle hw s hdma, ?_⟩
  · show Core.RunLoop hw limit ((fuel + 1) + 1) s = _
    rw [Core.RunLoop]
    simp only [hlim, if_true, if_neg hhalt]
    rw [Core.haltLoop_step hw limit fuel s hlim hirq]
    cases Core.haltLoop hw limit fuel (Core.haltBody hw s) <;> simp
  · rw [Core.haltBody_of_idle hw s hdma, hStep]

/-- Witness for C2 on the demo machine: halted at clock 0 with nothing enabled,
the next event 1000 cycles away. -/
theorem Core.halt_fast_forward_witness :
    (Core.haltBody demoComponents (demoCore HaltControl.Halt 0)).timestamp_now
      = 0 + 1000 :=
  (Core.halt_fast_forward demoComponents 2000 0 (demoCore HaltControl.Halt 0)
    (fun _ _ => by simp only [demoComponents, demoStep]; split <;> rfl)
    (by decide) (by decide) rfl (by decide)).2.2

theorem Core.RunLoop_halt_wake {ρ : Type} (hw : Components ρ) (limit k fuel T : Nat)
    (s : Core ρ)
    (hStep : ∀ n t, (hw.Step n t).timestamp_now = t.timestamp_now + n)
    (hhalt : s.haltcnt ≠ HaltControl.Run)
    (hquiet : ∀ j, j < k →
      (Core.fastForward hw j s).ShouldUnhaltCPU = false ∧
      hw.dma_IsRunning (Core.fastForward hw j s) = false)
    (hwake : (Core.fastForward hw k s).ShouldUnhaltCPU = true)
    (hT : (Core.fastForward hw k s).timestamp_now = T)
    (hlim : T < limit) :
    Core.RunLoop hw limit (fuel + k + 2) s
        = Core.RunLoop hw limit (fuel + k + 1)
            { (hw.Step 1 (Core.fastForward hw k s)) with haltcnt := HaltControl.Run } := by
  have hs : s.timestamp_now < limit := by
    have := Core.fastForward_mono hw hStep 0 k (Nat.zero_le k) s
    simp only [Core.fastForward] at this
    omega
  show Core.RunLoop hw limit ((fuel + k + 1) + 1) s = _
  rw [Core.RunLoop]
  simp only [hs, if_true, if_neg hhalt]
  have e : fuel + k + 1 = (fuel + 1) + k := by omega
  have hq : ∀ j, j < k →
      (Core.fastForward hw j s).ShouldUnhaltCPU = false ∧
      hw.dma_IsRunning (Core.fastForward hw j s) = false ∧
      (Core.fastForward hw j s).timestamp_now < limit := by
    intro j hj
    have := Core.fastForward_mono hw hStep j k (Nat.le_of_lt hj) s
    exact ⟨(hquiet j hj).1, (hquiet j hj).2, by omega⟩
  rw [e, Core.haltLoop_fastForward hw limit k (fuel + 1) s hq,
    Core.haltLoop_exit hw limit fuel _ (Or.inr hwake)]
  simp only [Core.wake, hwake, if_true]

/-- C1: halt wake.  Let the core be halted and let `ShouldUnhaltCPU()` first
become true after `k` fast-forward steps of the halt loop, at clock `T` below
the limit of `Run(cycles)`, with no DMA running before.  Then `Core::Run`
reaches its next loop head in the state `bus.Step(1)` of that state with
`haltcnt = Run` (no CPU instruction has run in between): the clock is exactly
`T + 1`, and every IF bit that was set when the event fired is still set.
The contracts used are that `bus.Step` moves the clock by the cycles passed and
does not clear IF bits. -/
theorem Core.halt_wake {ρ : Type} (hw : Components ρ) (cycles : Int) (k fuel T bit : Nat)
    (s : Core ρ)
    (hStep : ∀ n t, (hw.Step n t).timestamp_now = t.timestamp_now + n)
    (hLatch : ∀ n t i, t.irq_if.testBit i = true → (hw.Step n t).irq_if.testBit i = true)
    (hhalt : s.haltcnt ≠ HaltControl.Run)
    (hquiet : ∀ j, j < k →
      (Core.fastForward hw j s).ShouldUnhaltCPU = false ∧
      hw.dma_IsRunning (Core.fastForward hw j s) = false)
    (hwake : (Core.fastForward hw k s).ShouldUnhaltCPU = true)
    (hT : (Core.fastForward hw k s).timestamp_now = T)
    (hlim : T < Core.runLimit s cycles)
    (hbit : (Core.fastForward hw k s).irq_if.testBit bit = true) :
    Core.Run hw (fuel + k + 2) cycles s
        = Core.RunLoop hw (Core.runLimit s cycles) (fuel + k + 1)
            { (hw.Step 1 (Core.fastForward hw k s)) with haltcnt := HaltControl.Run }
      ∧ (hw.Step 1 (Core.fastForward hw k s)).timestamp_now = T + 1
      ∧ (hw.Step 1 (Core.fastForward hw k s)).irq_if.testBit bit = true :=
  ⟨Core.RunLoop_halt_wake hw (Core.runLimit s cycles) k fuel T s hStep hhalt hquiet hwake hT hlim,
    by rw [hStep, hT], hLatch 1 _ bit hbit⟩

/-- Witness for C1 on the demo machine: halted at clock 0 with Timer0 enabled in
IE and the timer overflowing 1000 cycles later, `Run(2000)` resumes the CPU at
clock 1001 with IF bit 3 set. -/
theorem Core.halt_wake_witness :
    (demoComponents.Step 1
        (Core.fastForward demoComponents 1
          (demoCore HaltControl.Halt 8))).timestamp_now = 1000 + 1
    ∧ (demoComponents.Step 1
        (Core.fastForward demoComponents 1
          (demoCore HaltControl.Halt 8))).irq_if.testBit 3 = true :=
  (Core.halt_wake demoComponents 2000 1 0 1000 3 (demoCore HaltControl.Halt 8)
    (fun _ _ => by simp only [demoComponents, demoStep]; split <;> rfl)
    (fun n t i h => by
      simp only [demoComponents, demoStep]
      split
      · simp only [Nat.testBit_or, h, Bool.true_or]
      · exact h)
    (by decide)
    (fun j hj => by
      have : j = 0 := by omega
      subst this
      exact ⟨by decide, rfl⟩)
    (by decide) (by decide) (by decide) (by decide)).2

/-- Progress measure of the halt loop: twice the distance to the limit, plus one
while the CPU may not be woken yet. -/
theorem Core.haltBody_progress {ρ : Type} (hw : Components ρ) (limit : Nat) (t : Core ρ)
    (hStep : ∀ n t, (hw.Step n t).timestamp_now = t.timestamp_now + n)
    (hrem : ∀ t, 0 < hw.GetRemainingCycleCount t)
    (hdma : ∀ t, t.timestamp_now ≤ (hw.dma_Run t).timestamp_now)
    (hlim : t.timestamp_now < limit) :
    t.timestamp_now ≤ (Core.haltBody hw t).timestamp_now ∧
    2 * (limit - (Core.haltBody hw t).timestamp_now)
        + (if (Core.haltBody hw t).ShouldUnhaltCPU = true then 0 else 1)
      < 2 * (limit - t.timestamp_now) + 1 := by
  unfold Core.haltBody
  by_cases hd : hw.dma_IsRunning t = true
  · simp only [hd, if_true]
    by_cases hu : (hw.dma_Run t).ShouldUnhaltCPU = true
    · simp only [hu, if_true]
      have := hdma t
      constructor <;> omega
    · simp only [hu]
      have h1 := hdma t
      have h2 := hrem (hw.dma_Run t)
      have h3 := hStep (hw.GetRemainingCycleCount (hw.dma_Run t)) (hw.dma_Run t)
      simp only [Bool.false_eq_true, if_false]
      constructor
      · omega
      · split <;> omega
  · simp only [hd]
    have h2 := hrem t
    have h3 := hStep (hw.GetRemainingCycleCount t) t
    simp only [Bool.false_eq_true, if_false]
    constructor
    · omega
    · split <;> omega

theorem Core.haltLoop_total {ρ : Type} (hw : Components ρ) (limit M : Nat)
    (hStep : ∀ n t, (hw.Step n t).timestamp_now = t.timestamp_now + n)
    (hrem : ∀ t, 0 < hw.GetRemainingCycleCount t)
    (hdma : ∀ t, t.timestamp_now ≤ (hw.dma_Run t).timestamp_now)
    (hhaltM : ∀ t, (Core.haltBody hw t).timestamp_now + 1 ≤ t.timestamp_now + M)
    (fuel : Nat) (t : Core ρ)
    (hfuel : 2 * (limit - t.timestamp_now) + (if t.ShouldUnhaltCPU = true then 0 else 1) < fuel) :
    ∃ u, Core.haltLoop hw limit fuel t = some u ∧
      t.timestamp_now ≤ u.timestamp_now ∧
      (limit ≤ u.timestamp_now ∨ u.ShouldUnhaltCPU = true) ∧
      (u = t ∨ u.timestamp_now + 1 < limit + M) := by
  induction fuel generalizing t with
  | zero => omega
  | succ fuel ih =>
    by_cases hc : t.timestamp_now < limit ∧ t.ShouldUnhaltCPU = false
    · obtain ⟨hl, hu⟩ := hc
      rw [Core.haltLoop_step hw limit fuel t hl hu]
      obtain ⟨p1, p2⟩ := Core.haltBody_progress hw limit t hStep hrem hdma hl
      have hf : 2 * (limit - (Core.haltBody hw t).timestamp_now)
          + (if (Core.haltBody hw t).ShouldUnhaltCPU = true then 0 else 1) < fuel := by
        simp only [hu, Bool.false_eq_true, if_false] at hfuel
        omega
      obtain ⟨u, e1, e2, e3, e4⟩ := ih (Core.haltBody hw t) hf
      refine ⟨u, e1, by omega, e3, Or.inr ?_⟩
      have hb := hhaltM t
      rcases e4 with e4 | e4
      · subst e4
        omega
      · exact e4
    · have hx : limit ≤ t.timestamp_now ∨ t.ShouldUnhaltCPU = true := by
        by_cases hl : t.timestamp_now < limit
        · right
          by_contra hu
          exact hc ⟨hl, by simpa using hu⟩
        · left
          omega
      rw [Core.haltLoop_exit hw limit fuel t hx]
      exact ⟨t, rfl, Nat.le_refl _, hx, Or.inl rfl⟩

theorem Core.RunLoop_total {ρ : Type} (hw : Components ρ) (limit M : Nat)
    (hStep : ∀ n t, (hw.Step n t).timestamp_now = t.timestamp_now + n)
    (hrem : ∀ t, 0 < hw.GetRemainingCycleCount t)
    (hdma : ∀ t, t.timestamp_now ≤ (hw.dma_Run t).timestamp_now)
    (hcpu : ∀ t, t.timestamp_now < (Core.runCPU hw t).timestamp_now)
    (hcpuM : ∀ t, (Core.runCPU hw t).timestamp_now ≤ t.timestamp_now + M)
    (hhaltM : ∀ t, (Core.haltBody hw t).timestamp_now + 1 ≤ t.timestamp_now + M)
    (fuel : Nat) (t : Core ρ)
    (hfuel : 2 * (limit - t.timestamp_now) + 3 ≤ fuel) :
    ∃ u, Core.RunLoop hw limit fuel t = some u ∧
      limit ≤ u.timestamp_now ∧
      (u = t ∨ u.timestamp_now < limit + M) := by
  have hM : 0 < M := by
    have h1 := hcpu t
    have h2 := hcpuM t
    omega
  induction fuel generalizing t with
  | zero => omega
  | succ fuel ih =>
    rw [Core.RunLoop]
    by_cases hl : t.timestamp_now < limit
    · simp only [hl, if_true]
      by_cases hh : t.haltcnt = HaltControl.Run
      · simp only [hh, if_true]
        have h1 := hcpu t
        have h2 := hcpuM t
        obtain ⟨u, e1, e2, e3⟩ := ih (Core.runCPU hw t) (by omega)
        refine ⟨u, e1, e2, Or.inr ?_⟩
        rcases e3 with e3 | e3
        · subst e3
          omega
        · exact e3
      · simp only [hh, if_false]
        have hf : 2 * (limit - t.timestamp_now)
            + (if t.ShouldUnhaltCPU = true then 0 else 1) < fuel := by
          split <;> omega
        obtain ⟨t1, e1, e2, e3, e4⟩ :=
          Core.haltLoop_total hw limit M hStep hrem hdma hhaltM fuel t hf
        rw [e1]
        simp only
        by_cases hu : t1.ShouldUnhaltCPU = true
        · have hw1 : (Core.wake hw t1).timestamp_now = t1.timestamp_now + 1 := by
            simp only [Core.wake, hu, if_true]
            exact hStep 1 t1
          obtain ⟨u, f1, f2, f3⟩ := ih (Core.wake hw t1) (by omega)
          refine ⟨u, f1, f2, Or.inr ?_⟩
          rcases f3 with f3 | f3
          · subst f3
            rcases e4 with e4 | e4
            · subst e4
              omega
            · omega
          · exact f3
        · have hw1 : Core.wake hw t1 = t1 := by
            simp only [Core.wake, hu, Bool.false_eq_true, if_false]
          have hl1 : limit ≤ t1.timestamp_now := by
            rcases e3 with e3 | e3
            · exact e3
            · exact absurd e3 hu
          rw [hw1]
          obtain ⟨u, f1, f2, f3⟩ := ih t1 (by omega)
          refine ⟨u, f1, f2, Or.inr ?_⟩
          rcases f3 with f3 | f3
          · subst f3
            rcases e4 with e4 | e4
            · subst e4
              omega
            · omega
          · exact f3
    · simp only [hl, if_false]
      exact ⟨t, rfl, by omega, Or.inl rfl⟩

theorem Core.runLimit_of_nonneg {ρ : Type} (s : Core ρ) (cycles : Int) (h0 : 0 ≤ cycles)
    (h64 : (s.timestamp_now : Int) + cycles < 2 ^ 64) :
    Core.runLimit s cycles = s.timestamp_now + cycles.toNat := by
  unfold Core.runLimit
  have h1 : (0 : Int) ≤ (s.timestamp_now : Int) + cycles := by omega
  rw [Int.emod_eq_of_lt h1 h64]
  omega

/-- C3 (as stated) fails: on the demo machine, halted at clock 0 with no IRQ
enabled and the next event 1000 cycles away, `Run(10)` returns with the clock at
1000; and with the CPU running, `Run(1)` returns with the clock at 3, after one
3-cycle instruction. -/
theorem Core.run_at_most_counterexample :
    (∃ s1, Core.Run demoComponents 4 10 (demoCore HaltControl.Halt 0) = some s1
        ∧ s1.timestamp_now = 1000
        ∧ ¬ (s1.timestamp_now ≤ (demoCore HaltControl.Halt 0).timestamp_now + 10))
    ∧ (∃ s1, Core.Run demoComponents 4 1 (demoCore HaltControl.Run 0) = some s1
        ∧ s1.timestamp_now = 3
        ∧ ¬ (s1.timestamp_now ≤ (demoCore HaltControl.Run 0).timestamp_now + 1)) :=
  ⟨⟨_, rfl, rfl, by decide⟩, ⟨_, rfl, rfl, by decide⟩⟩

/-- C3 (amended): let `bus.Step` move the clock by the cycles passed, the next
event lie in the future, `dma.Run()` not move the clock back, every CPU step
(with its HLE hook) take between 1 and `M` cycles and a pass of the halt loop
take fewer than `M`.  Then for `cycles ≥ 0` (and no u64 overflow) `Core::Run`
returns, and on return the clock has advanced by at least `cycles` and by less
than `cycles + M`: the loop stops at the first loop head at or past the limit. -/
theorem Core.run_reaches_limit {ρ : Type} (hw : Components ρ) (M fuel : Nat) (cycles : Int)
    (s : Core ρ)
    (hStep : ∀ n t, (hw.Step n t).timestamp_now = t.timestamp_now + n)
    (hrem : ∀ t, 0 < hw.GetRemainingCycleCount t)
    (hdma : ∀ t, t.timestamp_now ≤ (hw.dma_Run t).timestamp_now)
    (hcpu : ∀ t, t.timestamp_now < (Core.runCPU hw t).timestamp_now)
    (hcpuM : ∀ t, (Core.runCPU hw t).timestamp_now ≤ t.timestamp_now + M)
    (hhaltM : ∀ t, (Core.haltBody hw t).timestamp_now + 1 ≤ t.timestamp_now + M)
    (h0 : 0 ≤ cycles)
    (h64 : (s.timestamp_now : Int) + cycles < 2 ^ 64)
    (hfuel : 2 * cycles.toNat + 3 ≤ fuel) :
    ∃ u, Core.Run hw fuel cycles s = some u ∧
      (s.timestamp_now : Int) + cycles ≤ u.timestamp_now ∧
      (u.timestamp_now : Int) < s.timestamp_now + cycles + M := by
  have hM : 0 < M := by
    have h1 := hcpu s
    have h2 := hcpuM s
    omega
  have hlimit := Core.runLimit_of_nonneg s cycles h0 h64
  obtain ⟨u, e1, e2, e3⟩ := Core.RunLoop_total hw (Core.runLimit s cycles) M hStep hrem hdma
    hcpu hcpuM hhaltM fuel s (by omega)
  refine ⟨u, e1, by omega, ?_⟩
  rcases e3 with e3 | e3
  · subst e3
    omega
  · omega

theorem demoComponents_Step (n : Nat) (t : Core Unit) :
    (demoComponents.Step n t).timestamp_now = t.timestamp_now + n := by
  simp only [demoComponents, demoStep]
  split <;> rfl

theorem demoComponents_runCPU (t : Core Unit) :
    (Core.runCPU demoComponents t).timestamp_now = t.timestamp_now + 3 := by
  have h : ∀ u : Core Unit,
      (demoComponents.cpu_Run u).timestamp_now = u.timestamp_now + 3 := by
    intro u
    simp only [demoComponents, demoStep]
    split <;> rfl
  unfold Core.runCPU
  rw [h]
  simp [demoComponents]

/-- Witness for C3 (amended) on the demo machine: halted at clock 0 with nothing
enabled, `Run(10)` with `M = 1001`. -/
theorem Core.run_reaches_limit_witness :
    ∃ u, Core.Run demoComponents 23 10 (demoCore HaltControl.Halt 0) = some u ∧
      (((demoCore HaltControl.Halt 0).timestamp_now : Nat) : Int) + 10 ≤ u.timestamp_now ∧
      (u.timestamp_now : Int) < (demoCore HaltControl.Halt 0).timestamp_now + 10 + (1001 : Nat) :=
  Core.run_reaches_limit demoComponents 1001 23 10 (demoCore HaltControl.Halt 0)
    demoComponents_Step
    (fun t => by
      show 0 < 1000 - t.timestamp_now % 1000
      omega)
    (fun t => Nat.le_refl _)
    (fun t => by
      have h := demoComponents_runCPU t
      omega)
    (fun t => by
      have h := demoComponents_runCPU t
      omega)
    (fun t => by
      have h : (Core.haltBody demoComponents t).timestamp_now
          = t.timestamp_now + (1000 - t.timestamp_now % 1000) := by
        rw [Core.haltBody_of_idle _ _ rfl]
        exact demoComponents_Step _ _
      omega)
    (by decide) (by decide) (by decide)

/-! ### Core::Reset, Core::SkipBootScreen -/

theorem Core.SkipBootScreen_cpu {ρ : Type} (hw : Components ρ) (s : Core ρ)
    (hmode : ∀ m t, (hw.SwitchMode m t).cpu.mode = m) :
    (Core.SkipBootScreen hw s).cpu.mode = Mode.SYS ∧
    (Core.SkipBootScreen hw s).cpu.bank Bank.SVC BankedRegister.R13 = 0x03007FE0 ∧
    (Core.SkipBootScreen hw s).cpu.bank Bank.IRQ BankedRegister.R13 = 0x03007FA0 ∧
    (Core.SkipBootScreen hw s).cpu.r13 = 0x03007F00 ∧
    (Core.SkipBootScreen hw s).cpu.r15 = 0x08000000 := by
  refine ⟨?_, ?_, ?_, ?_, ?_⟩
  · exact hmode Mode.SYS s
  · simp [Core.SkipBootScreen]
  · simp [Core.SkipBootScreen]
  · rfl
  · rfl

/-- C5: BIOS skip.  With `skip_bios = true`, whenever `Core::Reset()` returns
(it does unless the MP2K hook search reads outside the ROM), the CPU mode is
SYS, `bank[SVC].r13 = 0x03007FE0`, `bank[IRQ].r13 = 0x03007FA0`,
`r13 = 0x03007F00` and `r15 = 0x08000000`.  The contract used is that
`cpu.SwitchMode(mode)` leaves the CPU in the mode passed. -/
theorem Core.reset_skip_bios {ρ : Type} (hw : Components ρ) (config : Config) (s : Core ρ)
    (hskip : config.skip_bios = true)
    (hmode : ∀ m t, (hw.SwitchMode m t).cpu.mode = m)
    (hsearch : config.mp2k_hle_enable = true →
      Core.SearchSoundMainRAM hw.crc32
        (Core.SkipBootScreen hw (Core.resetComponents hw s)).rom ≠ none) :
    ∃ r, Core.Reset hw config s = some r ∧
      r.cpu.mode = Mode.SYS ∧
      r.cpu.bank Bank.SVC BankedRegister.R13 = 0x03007FE0 ∧
      r.cpu.bank Bank.IRQ BankedRegister.R13 = 0x03007FA0 ∧
      r.cpu.r13 = 0x03007F00 ∧
      r.cpu.r15 = 0x08000000 := by
  have hcpu := Core.SkipBootScreen_cpu hw (Core.resetComponents hw s) hmode
  unfold Core.Reset
  simp only [hskip, if_true]
  by_cases hle : config.mp2k_hle_enable = true
  · simp only [hle, if_true]
    cases hq : Core.SearchSoundMainRAM hw.crc32
        (Core.SkipBootScreen hw (Core.resetComponents hw s)).rom with
    | none => exact absurd hq (hsearch hle)
    | some a => exact ⟨_, rfl, hcpu⟩
  · simp only [hle]
    exact ⟨_, rfl, hcpu⟩

/-- Witness for C5 on the demo machine, HLE audio disabled. -/
theorem Core.reset_skip_bios_witness :
    ∃ r, Core.Reset demoComponents
        { skip_bios := true, mp2k_hle_enable := false, mp2k_hle_cubic := false,
          mp2k_hle_force_reverb := false } (demoCore HaltControl.Halt 0) = some r ∧
      r.cpu.mode = Mode.SYS ∧
      r.cpu.bank Bank.SVC BankedRegister.R13 = 0x03007FE0 ∧
      r.cpu.bank Bank.IRQ BankedRegister.R13 = 0x03007FA0 ∧
      r.cpu.r13 = 0x03007F00 ∧
      r.cpu.r15 = 0x08000000 :=
  Core.reset_skip_bios demoComponents _ (demoCore HaltControl.Halt 0) rfl
    (fun _ _ => rfl) (fun h => by simp at h)

/-! ### Core::SearchSoundMainRAM -/

theorem and_FFFFFFFE (p : Nat) (hp : p < 2 ^ 32) : p &&& 0xFFFFFFFE = p - p % 2 := by
  have h : p &&& 0xFFFFFFFE = 2 * (p / 2) := by
    apply Nat.eq_of_testBit_eq
    intro i
    rw [Nat.testBit_and]
    cases i with
    | zero => simp [Nat.testBit_zero]
    | succ i =>
      rw [Nat.testBit_succ, Nat.testBit_succ, Nat.testBit_succ]
      have e1 : (0xFFFFFFFE : Nat) / 2 = 2 ^ 31 - 1 := by norm_num
      have e2 : 2 * (p / 2) / 2 = p / 2 := by omega
      rw [e1, e2, Nat.testBit_two_pow_sub_one]
      by_cases hi : i < 31
      · simp [hi]
      · have : p / 2 < 2 ^ i := by
          have : 2 ^ 31 ≤ 2 ^ i := Nat.pow_le_pow_right (by norm_num) (by omega)
          omega
        simp [hi, Nat.testBit_lt_two_pow this]
  omega

theorem and_FFFFFFFC (p : Nat) (hp : p < 2 ^ 32) : p &&& 0xFFFFFFFC = p - p % 4 := by
  have h : p &&& 0xFFFFFFFC = 4 * (p / 4) := by
    apply Nat.eq_of_testBit_eq
    intro i
    rw [Nat.testBit_and]
    cases i with
    | zero =>
      simp [Nat.testBit_zero]
      omega
    | succ i =>
      cases i with
      | zero =>
        rw [Nat.testBit_succ, Nat.testBit_succ, Nat.testBit_succ]
        simp [Nat.testBit_zero]
        omega
      | succ i =>
        rw [Nat.testBit_succ, Nat.testBit_succ, Nat.testBit_succ, Nat.testBit_succ,
          Nat.testBit_succ, Nat.testBit_succ]
        have e1 : (0xFFFFFFFC : Nat) / 2 / 2 = 2 ^ 30 - 1 := by norm_num
        have e2 : 4 * (p / 4) / 2 / 2 = p / 2 / 2 := by omega
        rw [e1, e2, Nat.testBit_two_pow_sub_one]
        by_cases hi : i < 30
        · simp [hi]
        · have : p / 2 / 2 < 2 ^ i := by
            have : 2 ^ 30 ≤ 2 ^ i := Nat.pow_le_pow_right (by norm_num) (by omega)
            omega
          simp [hi, Nat.testBit_lt_two_pow this]
  omega

theorem adjustSoundMainRAM_eq (p : Nat) (hp : p < 2 ^ 32) :
    adjustSoundMainRAM p
      = if p % 2 = 1 then (p - 1 + 4) % 2 ^ 32 else (p - p % 4 + 8) % 2 ^ 32 := by
  unfold adjustSoundMainRAM
  rw [Nat.and_one_is_mod, and_FFFFFFFE p hp, and_FFFFFFFC p hp]
  by_cases h : p % 2 = 1
  · simp [h]
  · have h0 : p % 2 = 0 := by omega
    simp [h0]

theorem read_u32_some (rom : List Nat) (offset p : Nat) (h : read_u32 rom offset = some p) :
    offset + 4 ≤ rom.length ∧ p < 2 ^ 32 := by
  unfold read_u32 at h
  split at h
  · rename_i hb
    refine ⟨hb, ?_⟩
    simp only [Option.some.injEq] at h
    omega
  · exact absurd h (by simp)

theorem Core.SearchSoundMainRAM.loop_found (crc32 : List Nat → Nat) (rom : List Nat)
    (address_max a : Nat) (ham : a ≤ address_max) (h32 : a + 0x74 < 2 ^ 32)
    (heven : a % 2 = 0)
    (hmatch : crc32 ((rom.drop a).take 48) = 0x27EA7FCF)
    (hlow : ∀ b, b < a → b % 2 = 0 → crc32 ((rom.drop b).take 48) ≠ 0x27EA7FCF)
    (n fuel address : Nat) (hn : address + 2 * n = a) (hfuel : n < fuel) :
    Core.SearchSoundMainRAM.loop crc32 rom address_max fuel address
      = (read_u32 rom (a + 0x74)).map adjustSoundMainRAM := by
  induction n generalizing fuel address with
  | zero =>
    have ha : address = a := by omega
    subst ha
    obtain ⟨f, rfl⟩ : ∃ f, fuel = f + 1 := ⟨fuel - 1, by omega⟩
    rw [Core.SearchSoundMainRAM.loop]
    simp only [ham, if_true, kSoundMainLength, kSoundMainCRC32, hmatch, Nat.mod_eq_of_lt h32]
  | succ n ih =>
    obtain ⟨f, rfl⟩ : ∃ f, fuel = f + 1 := ⟨fuel - 1, by omega⟩
    have h1 : address ≤ address_max := by omega
    have h2 : crc32 ((rom.drop address).take 48) ≠ 0x27EA7FCF :=
      hlow address (by omega) (by omega)
    have h3 : (address + 2) % 2 ^ 32 = address + 2 := Nat.mod_eq_of_lt (by omega)
    rw [Core.SearchSoundMainRAM.loop]
    simp only [h1, if_true, kSoundMainLength, kSoundMainCRC32, h2, if_false, h3]
    exact ih f (address + 2) (by omega) (by omega)

/-- C4: let `a` be the lowest even offset whose 48-byte window has CRC-32
0x27EA7FCF, and let `p` be the little-endian 32-bit pointer stored at
`a + 0x74`.  Then `SearchSoundMainRAM()` returns `(p with bit 0 cleared) + 4`
when `p` is odd and `(p with the low two bits cleared) + 8` when `p` is even,
in u32 arithmetic.  This holds for every CRC function. -/
theorem Core.search_pointer_adjustment (crc32 : List Nat → Nat) (rom : List Nat) (a p : Nat)
    (hsize : rom.length < 2 ^ 32)
    (heven : a % 2 = 0)
    (hmatch : crc32 ((rom.drop a).take 48) = 0x27EA7FCF)
    (hlow : ∀ b, b < a → b % 2 = 0 → crc32 ((rom.drop b).take 48) ≠ 0x27EA7FCF)
    (hp : read_u32 rom (a + 0x74) = some p) :
    Core.SearchSoundMainRAM crc32 rom
      = some (if p % 2 = 1 then (p - 1 + 4) % 2 ^ 32 else (p - p % 4 + 8) % 2 ^ 32) := by
  obtain ⟨hb, hp32⟩ := read_u32_some rom (a + 0x74) p hp
  unfold Core.SearchSoundMainRAM
  have h48 : ¬ rom.length < kSoundMainLength := by
    simp only [kSoundMainLength]
    omega
  simp only [h48, if_false]
  have ham : (rom.length - kSoundMainLength) % 2 ^ 32 = rom.length - 48 := by
    simp only [kSoundMainLength]
    exact Nat.mod_eq_of_lt (by omega)
  rw [ham, Core.SearchSoundMainRAM.loop_found crc32 rom (rom.length - 48) a (by omega) (by omega)
    heven hmatch hlow (a / 2) ((rom.length - 48) / 2 + 2) 0 (by omega) (by omega), hp]
  simp only [Option.map_some', adjustSoundMainRAM_eq p hp32]

theorem crc32_demoSignature : crc32 demoSignature = 0x27EA7FCF := by
  simp [crc32, crc32_byte, crc32_bit, demoSignature]

theorem demoROM_drop (b : Nat) (hb : b ≤ 0x1000) :
    demoROM.drop b = List.replicate (0x1000 - b) 0 ++ demoTail := by
  unfold demoROM
  rw [List.drop_append_of_le_length (by rw [List.length_replicate]; exact hb),
    List.drop_replicate]

theorem demoROM_window_zero (b : Nat) (hb : b + 48 ≤ 0x1000) :
    (demoROM.drop b).take 48 = List.replicate 48 0 := by
  rw [demoROM_drop b (by omega),
    List.take_append_of_le_length (by rw [List.length_replicate]; omega),
    List.take_replicate]
  congr 1
  omega

theorem crc32_zero_window : crc32 (List.replicate 48 0) = 0xF288B395 := by
  simp [crc32, crc32_byte, crc32_bit, List.replicate]

set_option maxHeartbeats 4000000 in
theorem demoROM_window_overlap (j : Nat) (hj : 1 ≤ j ∧ j ≤ 23) :
    crc32 ((List.replicate (2 * j) 0 ++ demoTail).take 48) ≠ 0x27EA7FCF := by
  obtain ⟨h1, h2⟩ := hj
  interval_cases j <;>
    simp [crc32, crc32_byte, crc32_bit, List.replicate, demoTail, demoSignature]

theorem demoROM_getD (i : Nat) : demoROM.getD (0x1000 + i) 0 = demoTail.getD i 0 := by
  have h := List.getD_append_right (List.replicate 0x1000 0) demoTail 0 (0x1000 + i)
    (by rw [List.length_replicate]; omega)
  rw [List.length_replicate, Nat.add_sub_cancel_left] at h
  exact h

theorem demoROM_read (k : Nat) : read_u32 demoROM (0x1000 + k) = read_u32 demoTail k := by
  have hl : demoROM.length = 0x1000 + demoTail.length := by
    unfold demoROM
    rw [List.length_append, List.length_replicate]
  have e1 : 0x1000 + k + 1 = 0x1000 + (k + 1) := by omega
  have e2 : 0x1000 + k + 2 = 0x1000 + (k + 2) := by omega
  have e3 : 0x1000 + k + 3 = 0x1000 + (k + 3) := by omega
  unfold read_u32
  rw [hl, e1, e2, e3, demoROM_getD, demoROM_getD, demoROM_getD, demoROM_getD]
  by_cases h : k + 4 ≤ demoTail.length
  · rw [if_pos h, if_pos (by omega)]
  · rw [if_neg h, if_neg (by omega)]

set_option maxRecDepth 8000 in
/-- Witness for C4: in `demoROM` the signature sits at offset 0x1000 (no earlier
window has its CRC), the pointer 0x080010A1 is stored at 0x1074, and the search
returns 0x080010A0 + 4. -/
theorem Core.search_pointer_adjustment_witness :
    Core.SearchSoundMainRAM crc32 demoROM = some 0x080010A4 :=
  Core.search_pointer_adjustment crc32 demoROM 0x1000 0x080010A1
    (by
      unfold demoROM
      rw [List.length_append, List.length_replicate]
      have : demoTail.length = 0x78 := by decide
      omega)
    (by decide)
    (by
      rw [demoROM_drop 0x1000 (Nat.le_refl _)]
      simp [crc32, crc32_byte, crc32_bit, demoTail, demoSignature])
    (fun b hb he => by
      by_cases hz : b + 48 ≤ 0x1000
      · rw [demoROM_window_zero b hz, crc32_zero_window]
        decide
      · rw [demoROM_drop b (by omega)]
        have e : 0x1000 - b = 2 * ((0x1000 - b) / 2) := by omega
        rw [e]
        exact demoROM_window_overlap ((0x1000 - b) / 2) (by omega))
    (by
      rw [show (0x1000 + 0x74 : Nat) = 0x1000 + 0x74 from rfl, demoROM_read 0x74]
      decide)

/-! ### RTC: pins -/

theorem shiftRight_and_one (v k : Nat) : (v >>> k) &&& 1 = (v.testBit k).toNat := by
  rw [Nat.and_one_is_mod, Nat.shiftRight_eq_div_pow, Nat.toNat_testBit]

theorem testBit_bit_shiftLeft (x k i : Nat) (hx : x ≤ 1) :
    (x <<< k).testBit i = (decide (i = k) && decide (x = 1)) := by
  rw [Nat.testBit_shiftLeft]
  have hx2 : x = 0 ∨ x = 1 := by omega
  rcases hx2 with rfl | rfl
  · simp
  · by_cases h : i = k
    · subst h
      simp
    · by_cases h2 : k ≤ i
      · have h3 : Nat.testBit 1 (i - k) = false := by
          have h4 := @Nat.testBit_two_pow 0 (i - k)
          simp only [Nat.pow_zero] at h4
          rw [h4]
          simp only [decide_eq_false_iff_not]
          omega
        simp [h, h2, h3]
      · simp [h, h2]

theorem RTCDecl.value_pins (d : RTCDecl) (sck sio : Nat) (hsck : sck ≤ 1) (hsio : sio ≤ 1)
    (h1 : d.CS ≠ d.SCK) (h2 : d.CS ≠ d.SIO) (h3 : d.SCK ≠ d.SIO) :
    (d.value sck sio >>> d.CS) &&& 1 = 1 ∧
    (d.value sck sio >>> d.SCK) &&& 1 = sck ∧
    (d.value sck sio >>> d.SIO) &&& 1 = sio := by
  simp only [shiftRight_and_one, RTCDecl.value, Nat.testBit_or,
    testBit_bit_shiftLeft _ _ _ hsck, testBit_bit_shiftLeft _ _ _ hsio,
    testBit_bit_shiftLeft 1 _ _ (Nat.le_refl 1)]
  have hsck2 : sck = 0 ∨ sck = 1 := by omega
  have hsio2 : sio = 0 ∨ sio = 1 := by omega
  rcases hsck2 with rfl | rfl <;> rcases hsio2 with rfl | rfl <;>
    simp [h1, h2, h3, Ne.symm h1, Ne.symm h2, Ne.symm h3]
theorem RTC.Write_low (d : RTCDecl) (time : Tm) (sio : Nat) (s : RTC)
    (hw : RTC.Wired d s) (hcs : s.port.cs ≠ 0) (hsio : sio ≤ 1) :
    RTC.Write d time (d.value 0 sio) s
      = some { s with port := { sck := 0, sio := sio, cs := 1 } } := by
  obtain ⟨h1, h2, h3, d1, d2, d3⟩ := hw
  obtain ⟨p1, p2, p3⟩ := d.value_pins 0 sio (Nat.zero_le 1) hsio h1 h2 h3
  unfold RTC.Write
  simp only [d1, d2, d3, p1, p2, p3, if_true, hcs]
  simp

theorem RTC.Write_high (d : RTCDecl) (time : Tm) (sio : Nat) (s : RTC)
    (hw : RTC.Wired d s) (hcs : s.port.cs ≠ 0) (hsck : s.port.sck = 0) (hsio : sio ≤ 1) :
    RTC.Write d time (d.value 1 sio) s
      = RTC.onClock d time { s with port := { sck := 1, sio := sio, cs := 1 } } := by
  obtain ⟨h1, h2, h3, d1, d2, d3⟩ := hw
  obtain ⟨p1, p2, p3⟩ := d.value_pins 1 sio (Nat.le_refl 1) hsio h1 h2 h3
  unfold RTC.Write
  simp only [d1, d2, d3, p1, p2, p3, if_true, hcs, hsck]
  simp

theorem RTC.pulse_eq (d : RTCDecl) (time : Tm) (sio : Nat) (s : RTC)
    (hw : RTC.Wired d s) (hcs : s.port.cs ≠ 0) (hsio : sio ≤ 1) :
    RTC.pulse d time sio s
      = RTC.onClock d time { s with port := { sck := 1, sio := sio, cs := 1 } } := by
  unfold RTC.pulse
  rw [RTC.Write_low d time sio s hw hcs hsio]
  simp only [Option.some_bind]
  exact RTC.Write_high d time sio { s with port := { sck := 0, sio := sio, cs := 1 } }
    hw (by simp) rfl hsio
/-! ### RTC: receiving bits -/

theorem and_mod_256 (x m : Nat) (hm : m < 256) : x &&& m = (x % 256) &&& m := by
  apply Nat.eq_of_testBit_eq
  intro i
  have e : (256 : Nat) = 2 ^ 8 := by norm_num
  rw [Nat.testBit_and, Nat.testBit_and, e, Nat.testBit_mod_two_pow]
  by_cases hi : i < 8
  · simp [hi]
  · have : m < 2 ^ i := by
      have : 2 ^ 8 ≤ 2 ^ i := Nat.pow_le_pow_right (by norm_num) (by omega)
      omega
    simp [hi, Nat.testBit_lt_two_pow this]

theorem RTC.shiftBit_mod_256 (data cb b : Nat) :
    RTC.shiftBit data cb b = RTC.shiftBit (data % 256) cb b := by
  unfold RTC.shiftBit
  have hm : 0xFF ^^^ ((1 <<< cb) % 256) < 256 := by
    have h1 : (0xFF : Nat) < 2 ^ 8 := by norm_num
    have h2 : (1 <<< cb) % 256 < 2 ^ 8 := by
      have := Nat.mod_lt (1 <<< cb) (show 0 < 256 by norm_num)
      omega
    have := Nat.xor_lt_two_pow h1 h2
    omega
  simp only
  rw [and_mod_256 data _ hm]

set_option maxRecDepth 100000 in
theorem RTC.shiftBit_small : ∀ cb < 8, ∀ b < 2, ∀ data < 256,
    RTC.shiftBit data cb b % 2 ^ (cb + 1) = data % 2 ^ cb + b * 2 ^ cb := by
  decide

theorem RTC.shiftBit_lt (data cb b : Nat) : RTC.shiftBit data cb b < 256 := by
  unfold RTC.shiftBit
  exact Nat.mod_lt _ (by norm_num)

theorem RTC.shiftBit_spec (data cb b : Nat) (hcb : cb < 8) (hb : b ≤ 1) :
    RTC.shiftBit data cb b % 2 ^ (cb + 1) = data % 2 ^ cb + b * 2 ^ cb := by
  rw [RTC.shiftBit_mod_256, RTC.shiftBit_small cb hcb b (by omega) (data % 256)
    (Nat.mod_lt _ (by norm_num))]
  have e : (256 : Nat) = 2 ^ 8 := by norm_num
  rw [e, Nat.mod_mod_of_dvd _ (Nat.pow_dvd_pow 2 (by omega : cb ≤ 8))]

theorem shiftIn_spec (bits : List Nat) (data cb : Nat) (hlen : cb + bits.length ≤ 8)
    (hbits : ∀ b ∈ bits, b ≤ 1) :
    shiftIn data cb bits % 2 ^ (cb + bits.length) = data % 2 ^ cb + 2 ^ cb * lsbFirst bits ∧
    (bits ≠ [] → shiftIn data cb bits < 256) := by
  induction bits generalizing data cb with
  | nil => simp [shiftIn, lsbFirst]
  | cons b bs ih =>
    have hb : b ≤ 1 := hbits b (List.mem_cons_self b bs)
    have hbs : ∀ x ∈ bs, x ≤ 1 := fun x hx => hbits x (List.mem_cons_of_mem b hx)
    simp only [List.length_cons] at hlen
    obtain ⟨i1, i2⟩ := ih (RTC.shiftBit data cb b) (cb + 1) (by omega) hbs
    have hs := RTC.shiftBit_spec data cb b (by omega) hb
    constructor
    · have e : cb + (b :: bs).length = cb + 1 + bs.length := by
        simp only [List.length_cons]
        omega
      have e2 : lsbFirst (b :: bs) = b + 2 * lsbFirst bs := rfl
      rw [e, shiftIn, i1, hs, e2, Nat.pow_succ]
      ring
    · intro _
      rw [shiftIn]
      by_cases hnil : bs = []
      · subst hnil
        exact RTC.shiftBit_lt data cb b
      · exact i2 hnil

theorem shiftIn_eight (bits : List Nat) (data : Nat) (hlen : bits.length = 8)
    (hbits : ∀ b ∈ bits, b ≤ 1) :
    shiftIn data 0 bits = lsbFirst bits := by
  obtain ⟨h1, h2⟩ := shiftIn_spec bits data 0 (by omega) hbits
  have hne : bits ≠ [] := by
    intro h
    rw [h] at hlen
    simp at hlen
  have h3 := h2 hne
  rw [hlen] at h1
  simp only [Nat.zero_add, Nat.pow_zero, Nat.mod_one, Nat.one_mul] at h1
  rw [← h1]
  exact (Nat.mod_eq_of_lt (by omega)).symm

theorem shiftIn_append (bits : List Nat) (data cb b : Nat) :
    shiftIn data cb (bits ++ [b]) = RTC.shiftBit (shiftIn data cb bits) (cb + bits.length) b := by
  induction bits generalizing data cb with
  | nil => simp [shiftIn]
  | cons x xs ih =>
    show shiftIn (RTC.shiftBit data cb x) (cb + 1) (xs ++ [b]) = _
    rw [ih]
    simp only [shiftIn, List.length_cons]
    congr 1
    omega

theorem RTC.reverseData_lsbFirst (bits : List Nat) (hlen : bits.length = 8)
    (hbits : ∀ b ∈ bits, b ≤ 1) :
    RTC.reverseData (lsbFirst bits) = msbFirst bits := by
  match bits, hlen with
  | [b0, b1, b2, b3, b4, b5, b6, b7], _ =>
    have h0 : b0 = 0 ∨ b0 = 1 := by have := hbits b0 (by simp); omega
    have h1 : b1 = 0 ∨ b1 = 1 := by have := hbits b1 (by simp); omega
    have h2 : b2 = 0 ∨ b2 = 1 := by have := hbits b2 (by simp); omega
    have h3 : b3 = 0 ∨ b3 = 1 := by have := hbits b3 (by simp); omega
    have h4 : b4 = 0 ∨ b4 = 1 := by have := hbits b4 (by simp); omega
    have h5 : b5 = 0 ∨ b5 = 1 := by have := hbits b5 (by simp); omega
    have h6 : b6 = 0 ∨ b6 = 1 := by have := hbits b6 (by simp); omega
    have h7 : b7 = 0 ∨ b7 = 1 := by have := hbits b7 (by simp); omega
    clear hbits
    rcases h0 with rfl | rfl <;> rcases h1 with rfl | rfl <;> rcases h2 with rfl | rfl <;>
      rcases h3 with rfl | rfl <;> rcases h4 with rfl | rfl <;> rcases h5 with rfl | rfl <;>
      rcases h6 with rfl | rfl <;> rcases h7 with rfl | rfl <;> rfl
/-! ### RTC: command reception -/

theorem RTC.ReadRegister_frame (d : RTCDecl) (time : Tm) (s : RTC) :
    (RTC.ReadRegister d time s).reg = s.reg ∧
    (RTC.ReadRegister d time s).data = s.data ∧
    (RTC.ReadRegister d time s).state = s.state ∧
    (RTC.ReadRegister d time s).current_bit = s.current_bit ∧
    (RTC.ReadRegister d time s).current_byte = s.current_byte ∧
    (RTC.ReadRegister d time s).control = s.control ∧
    (RTC.ReadRegister d time s).port = s.port ∧
    (RTC.ReadRegister d time s).port_direction = s.port_direction ∧
    (RTC.ReadRegister d time s).irq_raised = s.irq_raised := by
  unfold RTC.ReadRegister
  split
  · simp
  · split
    · simp
    · split <;> simp

theorem RTC.WriteRegister_frame (d : RTCDecl) (s : RTC) :
    (RTC.WriteRegister d s).reg = s.reg ∧
    (RTC.WriteRegister d s).data = s.data ∧
    (RTC.WriteRegister d s).state = s.state ∧
    (RTC.WriteRegister d s).current_bit = s.current_bit ∧
    (RTC.WriteRegister d s).current_byte = s.current_byte ∧
    (RTC.WriteRegister d s).buffer = s.buffer ∧
    (RTC.WriteRegister d s).port = s.port ∧
    (RTC.WriteRegister d s).port_direction = s.port_direction := by
  unfold RTC.WriteRegister
  split
  · simp
  · split
    · simp
    · split <;> simp

theorem RTC.startTransfer_fields (d : RTCDecl) (time : Tm) (t : RTC) :
    (RTC.startTransfer d time t).reg = (t.data >>> 4) &&& 7 ∧
    (RTC.startTransfer d time t).data = t.data ∧
    (RTC.startTransfer d time t).current_bit = 0 ∧
    (RTC.startTransfer d time t).current_byte = 0 ∧
    ((RTC.startTransfer d time t).state = RTCState.Sending ↔
      t.data &&& 0x80 ≠ 0 ∧ 0 < d.s_argument_count ((t.data >>> 4) &&& 7)) ∧
    ((RTC.startTransfer d time t).state = RTCState.Receiving ↔
      t.data &&& 0x80 = 0 ∧ 0 < d.s_argument_count ((t.data >>> 4) &&& 7)) ∧
    (d.s_argument_count ((t.data >>> 4) &&& 7) = 0 →
      (RTC.startTransfer d time t).state = RTCState.Complete) := by
  obtain ⟨f1, f2, -, f4, f5, -⟩ := RTC.ReadRegister_frame d time
    { t with reg := (t.data >>> 4) &&& 7, current_bit := 0, current_byte := 0 }
  obtain ⟨g1, g2, -, g4, g5, -⟩ := RTC.WriteRegister_frame d
    { t with reg := (t.data >>> 4) &&& 7, current_bit := 0, current_byte := 0 }
  simp only at f1 f2 f4 f5 g1 g2 g4 g5
  unfold RTC.startTransfer
  by_cases hdir : t.data &&& 0x80 = 0
  · by_cases hc : 0 < d.s_argument_count ((t.data >>> 4) &&& 7)
    · simp [hdir, hc]
      omega
    · have hc0 : d.s_argument_count ((t.data >>> 4) &&& 7) = 0 := by omega
      simp [hdir, hc0, g1, g2, g4, g5]
  · by_cases hc : 0 < d.s_argument_count ((t.data >>> 4) &&& 7)
    · simp [hdir, hc, f1, f2, f4, f5]
      omega
    · have hc0 : d.s_argument_count ((t.data >>> 4) &&& 7) = 0 := by omega
      simp [hdir, hc0, f1, f2, f4, f5]

theorem RTC.ReceiveCommandSIO_shift (d : RTCDecl) (time : Tm) (s : RTC)
    (hcb : s.current_bit < 7) :
    RTC.ReceiveCommandSIO d time s
      = { s with data := RTC.shiftBit s.data s.current_bit s.port.sio,
                 current_bit := s.current_bit + 1 } := by
  have h : ¬ (s.current_bit + 1 = 8) := by omega
  simp [RTC.ReceiveCommandSIO, RTC.ReadSIO, h]

theorem RTC.ReceiveCommandSIO_last (d : RTCDecl) (time : Tm) (s : RTC)
    (hcb : s.current_bit = 7) :
    RTC.ReceiveCommandSIO d time s
      = if RTC.shiftBit s.data 7 s.port.sio >>> 4 = 6 then
          RTC.startTransfer d time
            { s with data := RTC.reverseData (RTC.shiftBit s.data 7 s.port.sio),
                     current_bit := 0 }
        else if RTC.shiftBit s.data 7 s.port.sio &&& 15 ≠ 6 then
          { s with data := RTC.shiftBit s.data 7 s.port.sio, current_bit := 0 }
        else
          RTC.startTransfer d time
            { s with data := RTC.shiftBit s.data 7 s.port.sio, current_bit := 0 } := by
  simp [RTC.ReceiveCommandSIO, RTC.ReadSIO, hcb]

theorem RTC.pulses_append (d : RTCDecl) (time : Tm) (xs ys : List Nat) (s : RTC) :
    RTC.pulses d time (xs ++ ys) s = (RTC.pulses d time xs s).bind (RTC.pulses d time ys) := by
  induction xs generalizing s with
  | nil => simp [RTC.pulses]
  | cons x xs ih =>
    simp only [List.cons_append, RTC.pulses]
    cases RTC.pulse d time x s with
    | none => rfl
    | some s1 => exact ih s1

theorem RTC.pulses_command_shift (d : RTCDecl) (time : Tm) (bits : List Nat) (s : RTC)
    (hw : RTC.Wired d s) (hcs : s.port.cs ≠ 0) (hst : s.state = RTCState.Command)
    (hlen : s.current_bit + bits.length ≤ 7) (hbits : ∀ b ∈ bits, b ≤ 1) :
    RTC.pulses d time bits s
      = some { s with port := portAfter s.port bits,
                      data := shiftIn s.data s.current_bit bits,
                      current_bit := s.current_bit + bits.length } := by
  induction bits generalizing s with
  | nil => simp [RTC.pulses, portAfter, shiftIn]
  | cons b bs ih =>
    have hb : b ≤ 1 := hbits b (List.mem_cons_self b bs)
    have hbs : ∀ x ∈ bs, x ≤ 1 := fun x hx => hbits x (List.mem_cons_of_mem b hx)
    simp only [List.length_cons] at hlen
    have h1 : RTC.onClock d time { s with port := { sck := 1, sio := b, cs := 1 } }
        = some { s with port := { sck := 1, sio := b, cs := 1 },
                        data := RTC.shiftBit s.data s.current_bit b,
                        current_bit := s.current_bit + 1 } := by
      simp only [RTC.onClock, hst]
      rw [RTC.ReceiveCommandSIO_shift d time _ (by simp only; omega)]
    rw [RTC.pulses, RTC.pulse_eq d time b s hw hcs hb, h1, Option.some_bind]
    rw [ih { s with port := { sck := 1, sio := b, cs := 1 },
                    data := RTC.shiftBit s.data s.current_bit b,
                    current_bit := s.current_bit + 1 } hw (by simp) hst
      (by simp only; omega) hbs]
    simp only [portAfter, shiftIn, List.length_cons, Option.some.injEq]
    congr 1
    omega

theorem portAfter_concat (p : RTCPort) (bs : List Nat) (b : Nat) :
    portAfter p (bs ++ [b]) = { sck := 1, sio := b, cs := 1 } := by
  induction bs generalizing p with
  | nil => rfl
  | cons x xs ih => exact ih _

theorem portAfter_cs (p : RTCPort) (bs : List Nat) (hp : p.cs ≠ 0) :
    (portAfter p bs).cs ≠ 0 := by
  induction bs generalizing p with
  | nil => exact hp
  | cons x xs ih => exact ih _ (by simp)

theorem RTC.pulses_command_byte (d : RTCDecl) (time : Tm) (bits : List Nat) (s : RTC)
    (hw : RTC.Wired d s) (hcs : s.port.cs ≠ 0) (hst : s.state = RTCState.Command)
    (hcb : s.current_bit = 0) (hlen : bits.length = 8) (hbits : ∀ b ∈ bits, b ≤ 1) :
    RTC.pulses d time bits s
      = some (if lsbFirst bits >>> 4 = 6 then
          RTC.startTransfer d time
            { s with port := portAfter s.port bits,
                     data := RTC.reverseData (lsbFirst bits), current_bit := 0 }
        else if lsbFirst bits &&& 15 ≠ 6 then
          { s with port := portAfter s.port bits, data := lsbFirst bits, current_bit := 0 }
        else
          RTC.startTransfer d time
            { s with port := portAfter s.port bits, data := lsbFirst bits,
                     current_bit := 0 }) := by
  have hne : bits ≠ [] := by
    intro h
    rw [h] at hlen
    simp at hlen
  have hdecomp := List.dropLast_append_getLast hne
  generalize bits.dropLast = bs at hdecomp
  generalize bits.getLast hne = b7 at hdecomp
  subst hdecomp
  have hlen7 : bs.length = 7 := by
    simp only [List.length_append, List.length_singleton] at hlen
    omega
  have hb7 : b7 ≤ 1 := hbits b7 (by simp)
  have hbs : ∀ x ∈ bs, x ≤ 1 := fun x hx => hbits x (by simp [hx])
  have e8 := shiftIn_eight (bs ++ [b7]) s.data hlen hbits
  rw [shiftIn_append, hlen7] at e8
  have hcs7 : (portAfter s.port bs).cs ≠ 0 := portAfter_cs s.port bs hcs
  rw [RTC.pulses_append, RTC.pulses_command_shift d time bs s hw hcs hst (by omega) hbs,
    Option.some_bind, RTC.pulses,
    RTC.pulse_eq d time b7
      { s with port := portAfter s.port bs, data := shiftIn s.data s.current_bit bs,
               current_bit := s.current_bit + bs.length } hw hcs7 hb7]
  simp only [RTC.onClock, hst, Option.some_bind, RTC.pulses]
  rw [RTC.ReceiveCommandSIO_last d time _ (by simp only; omega)]
  simp only [hcb, e8, portAfter_concat]

/-- C6 (amended): in state Command the 8 SIO bits sampled on successive SCK rising
edges are shifted into the command byte LSB-first (the first bit received is
bit 0).  Once 8 bits are in, a byte whose top nibble is 6 is bit-reversed (so
that it reads the bits MSB-first) and then accepted; otherwise a byte whose
bottom nibble is 6 is accepted as it is; otherwise the byte is left in `data`
and nothing else changes.  The register is bits 4..6 and the direction is
bit 7 of the accepted byte. -/
theorem RTC.command_lsb_first (d : RTCDecl) (time : Tm) (bits : List Nat) (s : RTC)
    (hw : RTC.Wired d s) (hcs : s.port.cs ≠ 0) (hst : s.state = RTCState.Command)
    (hcb : s.current_bit = 0) (hlen : bits.length = 8) (hbits : ∀ b ∈ bits, b ≤ 1) :
    (lsbFirst bits >>> 4 = 6 →
      RTC.pulses d time bits s = some (RTC.startTransfer d time
        { s with port := portAfter s.port bits, data := msbFirst bits, current_bit := 0 })) ∧
    (lsbFirst bits >>> 4 ≠ 6 → lsbFirst bits &&& 15 = 6 →
      RTC.pulses d time bits s = some (RTC.startTransfer d time
        { s with port := portAfter s.port bits, data := lsbFirst bits, current_bit := 0 })) ∧
    (lsbFirst bits >>> 4 ≠ 6 → lsbFirst bits &&& 15 ≠ 6 →
      RTC.pulses d time bits s = some
        { s with port := portAfter s.port bits, data := lsbFirst bits, current_bit := 0 }) ∧
    (∀ t : RTC,
      (RTC.startTransfer d time t).data = t.data ∧
      (RTC.startTransfer d time t).reg = (t.data >>> 4) &&& 7 ∧
      ((RTC.startTransfer d time t).state = RTCState.Sending → t.data &&& 0x80 ≠ 0) ∧
      ((RTC.startTransfer d time t).state = RTCState.Receiving → t.data &&& 0x80 = 0)) := by
  have h := RTC.pulses_command_byte d time bits s hw hcs hst hcb hlen hbits
  refine ⟨?_, ?_, ?_, ?_⟩
  · intro h6
    rw [h, if_pos h6, RTC.reverseData_lsbFirst bits hlen hbits]
  · intro h6 h15
    rw [h, if_neg h6, if_neg (not_not.mpr h15)]
  · intro h6 h15
    rw [h, if_neg h6, if_pos h15]
  · intro t
    obtain ⟨f1, f2, -, -, f5, f6, -⟩ := RTC.startTransfer_fields d time t
    exact ⟨f2, f1, fun hs => (f5.mp hs).1, fun hs => (f6.mp hs).1⟩

/-- Witness for C6 (amended): the bits 0,1,1,0,0,0,1,0 clocked into the selected
demo RTC give the byte 0x46 (bottom nibble 6), accepted as it is. -/
theorem RTC.command_lsb_first_witness :
    RTC.pulses demoDecl demoTime [0, 1, 1, 0, 0, 0, 1, 0] demoRTCSelected
      = some (RTC.startTransfer demoDecl demoTime
        { demoRTCSelected with
          port := portAfter demoRTCSelected.port [0, 1, 1, 0, 0, 0, 1, 0],
          data := lsbFirst [0, 1, 1, 0, 0, 0, 1, 0], current_bit := 0 }) :=
  (RTC.command_lsb_first demoDecl demoTime [0, 1, 1, 0, 0, 0, 1, 0] demoRTCSelected
    (by decide) (by decide) rfl rfl rfl (by decide)).2.1 (by decide) (by decide)

/-- C6 (as stated) fails: from `demoRTC`, raise CS and clock in the bits
0,1,1,0,0,0,1,0.  After the first four bits `data` is 6: the first bit received
is bit 0, not bit 7.  After the eighth bit the code has accepted 0x46 and
selected register 4, whereas the byte read MSB-first is 0x62, which the claim
accepts as it is, with register field 6. -/
theorem RTC.command_msb_first_counterexample :
    (∃ s4, (RTC.Write demoDecl demoTime (demoDecl.value 0 0) demoRTC).bind
          (RTC.pulses demoDecl demoTime [0, 1, 1, 0]) = some s4 ∧
        s4.data = 6 ∧ s4.data ≠ msbFirst [0, 1, 1, 0, 0, 0, 0, 0]) ∧
    (∃ s8, (RTC.Write demoDecl demoTime (demoDecl.value 0 0) demoRTC).bind
          (RTC.pulses demoDecl demoTime [0, 1, 1, 0, 0, 0, 1, 0]) = some s8 ∧
        s8.data = 0x46 ∧ s8.reg = 4 ∧
        specAcceptedCommand (msbFirst [0, 1, 1, 0, 0, 0, 1, 0]) = some 0x62 ∧
        s8.data ≠ 0x62 ∧ s8.reg ≠ (0x62 >>> 4) &&& 7) :=
  ⟨⟨_, rfl, rfl, by decide⟩, ⟨_, rfl, rfl, rfl, rfl, by decide, by decide⟩⟩

/-- C7: when the eighth command bit completes an accepted command byte `acc`
(the byte `c` just assembled, bit-reversed if its top nibble is 6) with
register `r = acc[4..6]`, the next state is Sending iff bit 7 of `acc` is set
(read) and the argument count of `r` is positive, Receiving iff bit 7 is clear
(write) and the count is positive, and Complete when the count is 0; the
selected register is `r` and the bit and byte counters are 0 afterwards. -/
theorem RTC.command_next_state (d : RTCDecl) (time : Tm) (s : RTC) (c acc : Nat)
    (hcb : s.current_bit = 7)
    (hc : RTC.shiftBit s.data 7 s.port.sio = c)
    (hacc : (c >>> 4 = 6 ∧ acc = RTC.reverseData c) ∨
      (c >>> 4 ≠ 6 ∧ c &&& 15 = 6 ∧ acc = c)) :
    (RTC.ReceiveCommandSIO d time s).reg = (acc >>> 4) &&& 7 ∧
    ((RTC.ReceiveCommandSIO d time s).state = RTCState.Sending ↔
      acc &&& 0x80 ≠ 0 ∧ 0 < d.s_argument_count ((acc >>> 4) &&& 7)) ∧
    ((RTC.ReceiveCommandSIO d time s).state = RTCState.Receiving ↔
      acc &&& 0x80 = 0 ∧ 0 < d.s_argument_count ((acc >>> 4) &&& 7)) ∧
    (d.s_argument_count ((acc >>> 4) &&& 7) = 0 →
      (RTC.ReceiveCommandSIO d time s).state = RTCState.Complete) ∧
    (RTC.ReceiveCommandSIO d time s).current_bit = 0 ∧
    (RTC.ReceiveCommandSIO d time s).current_byte = 0 := by
  rw [RTC.ReceiveCommandSIO_last d time s hcb, hc]
  rcases hacc with ⟨h6, rfl⟩ | ⟨h6, h15, rfl⟩
  · rw [if_pos h6]
    obtain ⟨f1, -, f3, f4, f5, f6, f7⟩ := RTC.startTransfer_fields d time
      { s with data := RTC.reverseData c, current_bit := 0 }
    exact ⟨f1, f5, f6, f7, f3, f4⟩
  · rw [if_neg h6, if_neg (not_not.mpr h15)]
    obtain ⟨f1, -, f3, f4, f5, f6, f7⟩ := RTC.startTransfer_fields d time
      { s with data := acc, current_bit := 0 }
    exact ⟨f1, f5, f6, f7, f3, f4⟩

/-- Witness for C7: the selected demo RTC with seven command bits in (`data` =
0x26) samples a final 1: the byte is 0xA6, a read of register 2 (DateTime, 7
argument bytes), and the state becomes Sending. -/
theorem RTC.command_next_state_witness :
    (RTC.ReceiveCommandSIO demoDecl demoTime
        { demoRTCSelected with current_bit := 7, data := 0x26,
                               port := { sck := 1, sio := 1, cs := 1 } }).state
      = RTCState.Sending :=
  (RTC.command_next_state demoDecl demoTime
    { demoRTCSelected with current_bit := 7, data := 0x26,
                           port := { sck := 1, sio := 1, cs := 1 } } 0xA6 0xA6 rfl (by decide)
    (Or.inr ⟨by decide, by decide, rfl⟩)).2.1.mpr ⟨by decide, by decide⟩

/-! ### RTC: register reads -/

theorem ConvertDecimalToBCD_lt (n : Nat) (hn : n ≤ 99) :
    ConvertDecimalToBCD (n : Int) < 256 := by
  have h : ∀ m < 100, ((m / 10) <<< 4) ||| (m % 10) < 256 := by decide
  simp only [ConvertDecimalToBCD, Int.toNat_ofNat]
  exact h n (by omega)

/-- C8: in 24-hour mode, for a broken-down local time with year in 2000..2099
(and month 1..12, day 1..31, weekday 0..6, hour 0..23, minute 0..59, second
0..60), `RTC::ReadRegister()` on register DateTime fills `buffer[0..6]` with
the BCD encodings of year - 2000, month, day of month, weekday, hour, minute
and second, in that order. -/
theorem RTC.read_datetime_24h (d : RTCDecl) (s : RTC)
    (year month day wday hour minute second : Nat)
    (hreg : s.reg = d.DateTime) (hne : d.DateTime ≠ d.Control)
    (h24 : s.control.mode_24h = true)
    (hyear : 2000 ≤ year ∧ year ≤ 2099) (hmonth : 1 ≤ month ∧ month ≤ 12)
    (hday : 1 ≤ day ∧ day ≤ 31) (hwday : wday ≤ 6) (hhour : hour ≤ 23)
    (hminute : minute ≤ 59) (hsecond : second ≤ 60) :
    List.map
        (RTC.ReadRegister d
          { tm_sec := second, tm_min := minute, tm_hour := hour, tm_mday := day,
            tm_mon := (month : Int) - 1, tm_year := (year : Int) - 1900, tm_wday := wday }
          s).buffer [0, 1, 2, 3, 4, 5, 6]
      = [ConvertDecimalToBCD ((year - 2000 : Nat) : Int), ConvertDecimalToBCD (month : Int),
         ConvertDecimalToBCD (day : Int), ConvertDecimalToBCD (wday : Int),
         ConvertDecimalToBCD (hour : Int), ConvertDecimalToBCD (minute : Int),
         ConvertDecimalToBCD (second : Int)] := by
  have hc : ¬ (s.reg = d.Control) := by
    rw [hreg]
    exact hne
  have e1 : (year : Int) - 1900 - 100 = ((year - 2000 : Nat) : Int) := by omega
  have e2 : 1 + ((month : Int) - 1) = (month : Int) := by omega
  have m0 := Nat.mod_eq_of_lt (ConvertDecimalToBCD_lt (year - 2000) (by omega))
  have m1 := Nat.mod_eq_of_lt (ConvertDecimalToBCD_lt month (by omega))
  have m2 := Nat.mod_eq_of_lt (ConvertDecimalToBCD_lt day (by omega))
  have m3 := Nat.mod_eq_of_lt (ConvertDecimalToBCD_lt wday (by omega))
  have m4 := Nat.mod_eq_of_lt (ConvertDecimalToBCD_lt hour (by omega))
  have m5 := Nat.mod_eq_of_lt (ConvertDecimalToBCD_lt minute (by omega))
  have m6 := Nat.mod_eq_of_lt (ConvertDecimalToBCD_lt second (by omega))
  unfold RTC.ReadRegister
  rw [if_neg hc, if_pos hreg]
  simp [RTC.AdjustHour, h24, setBuffer, e1, e2, m0, m1, m2, m3, m4, m5, m6]

/-- Witness for C8: 2024-03-15 13:45:07, weekday 3, gives
0x24, 0x03, 0x15, 0x03, 0x13, 0x45, 0x07. -/
theorem RTC.read_datetime_24h_witness :
    List.map
        (RTC.ReadRegister demoDecl
          { tm_sec := (7 : Nat), tm_min := (45 : Nat), tm_hour := (13 : Nat),
            tm_mday := (15 : Nat), tm_mon := ((3 : Nat) : Int) - 1,
            tm_year := ((2024 : Nat) : Int) - 1900, tm_wday := (3 : Nat) }
          { demoRTC with reg := 2 }).buffer [0, 1, 2, 3, 4, 5, 6]
      = [0x24, 0x03, 0x15, 0x03, 0x13, 0x45, 0x07] :=
  RTC.read_datetime_24h demoDecl { demoRTC with reg := 2 } 2024 3 15 3 13 45 7 rfl
    (by decide) rfl (by decide) (by decide) (by decide) (by decide) (by decide) (by decide)
    (by decide)
/-! ### RTC: receiving argument bytes -/

theorem RTC.onClock_receiving (d : RTCDecl) (time : Tm) (t : RTC)
    (h : t.state = RTCState.Receiving) : RTC.onClock d time t = RTC.ReceiveBufferSIO d t := by
  simp only [RTC.onClock, h]

theorem RTC.onClock_sending (d : RTCDecl) (time : Tm) (t : RTC)
    (h : t.state = RTCState.Sending) : RTC.onClock d time t = RTC.TransmitBufferSIO d t := by
  simp only [RTC.onClock, h]

theorem RTC.ReceiveBufferSIO_shift (d : RTCDecl) (s : RTC)
    (hbyte : s.current_byte < d.s_argument_count s.reg) (hcb : s.current_bit < 7) :
    RTC.ReceiveBufferSIO d s
      = some { s with data := RTC.shiftBit s.data s.current_bit s.port.sio,
                      current_bit := s.current_bit + 1 } := by
  have h : ¬ (s.current_bit + 1 = 8) := by omega
  simp [RTC.ReceiveBufferSIO, RTC.ReadSIO, h, hbyte]

theorem RTC.ReceiveBufferSIO_last (d : RTCDecl) (s : RTC)
    (hbyte : s.current_byte < d.s_argument_count s.reg) (h7 : s.current_byte < 7)
    (hcb : s.current_bit = 7) :
    RTC.ReceiveBufferSIO d s
      = if s.current_byte + 1 = d.s_argument_count s.reg then
          some { (RTC.WriteRegister d
              { s with data := RTC.shiftBit s.data 7 s.port.sio, current_bit := 0,
                       buffer := setBuffer s.buffer s.current_byte
                         (RTC.shiftBit s.data 7 s.port.sio),
                       current_byte := s.current_byte + 1 }) with state := RTCState.Complete }
        else
          some { s with data := RTC.shiftBit s.data 7 s.port.sio, current_bit := 0,
                        buffer := setBuffer s.buffer s.current_byte
                          (RTC.shiftBit s.data 7 s.port.sio),
                        current_byte := s.current_byte + 1 } := by
  simp [RTC.ReceiveBufferSIO, RTC.ReadSIO, hbyte, h7, hcb]

theorem RTC.pulses_receiving_shift (d : RTCDecl) (time : Tm) (bits : List Nat) (s : RTC)
    (hw : RTC.Wired d s) (hcs : s.port.cs ≠ 0) (hst : s.state = RTCState.Receiving)
    (hbyte : s.current_byte < d.s_argument_count s.reg)
    (hlen : s.current_bit + bits.length ≤ 7) (hbits : ∀ b ∈ bits, b ≤ 1) :
    RTC.pulses d time bits s
      = some { s with port := portAfter s.port bits,
                      data := shiftIn s.data s.current_bit bits,
                      current_bit := s.current_bit + bits.length } := by
  induction bits generalizing s with
  | nil => simp [RTC.pulses, portAfter, shiftIn]
  | cons b bs ih =>
    have hb : b ≤ 1 := hbits b (List.mem_cons_self b bs)
    have hbs : ∀ x ∈ bs, x ≤ 1 := fun x hx => hbits x (List.mem_cons_of_mem b hx)
    simp only [List.length_cons] at hlen
    have h1 : RTC.onClock d time { s with port := { sck := 1, sio := b, cs := 1 } }
        = some { s with port := { sck := 1, sio := b, cs := 1 },
                        data := RTC.shiftBit s.data s.current_bit b,
                        current_bit := s.current_bit + 1 } := by
      rw [RTC.onClock_receiving d time { s with port := { sck := 1, sio := b, cs := 1 } } hst,
        RTC.ReceiveBufferSIO_shift d { s with port := { sck := 1, sio := b, cs := 1 } } hbyte
          (by simp only; omega)]
    rw [RTC.pulses, RTC.pulse_eq d time b s hw hcs hb, h1, Option.some_bind]
    rw [ih { s with port := { sck := 1, sio := b, cs := 1 },
                    data := RTC.shiftBit s.data s.current_bit b,
                    current_bit := s.current_bit + 1 } hw (by simp) hst hbyte
      (by simp only; omega) hbs]
    simp only [portAfter, shiftIn, List.length_cons, Option.some.injEq]
    congr 1
    omega

theorem RTC.pulses_receiving_byte (d : RTCDecl) (time : Tm) (bits : List Nat) (s : RTC)
    (hw : RTC.Wired d s) (hcs : s.port.cs ≠ 0) (hst : s.state = RTCState.Receiving)
    (hbyte : s.current_byte < d.s_argument_count s.reg) (h7 : s.current_byte < 7)
    (hcb : s.current_bit = 0) (hlen : bits.length = 8) (hbits : ∀ b ∈ bits, b ≤ 1) :
    RTC.pulses d time bits s
      = if s.current_byte + 1 = d.s_argument_count s.reg then
          some { (RTC.WriteRegister d
              { s with port := portAfter s.port bits, data := lsbFirst bits, current_bit := 0,
                       buffer := setBuffer s.buffer s.current_byte (lsbFirst bits),
                       current_byte := s.current_byte + 1 }) with state := RTCState.Complete }
        else
          some { s with port := portAfter s.port bits, data := lsbFirst bits, current_bit := 0,
                        buffer := setBuffer s.buffer s.current_byte (lsbFirst bits),
                        current_byte := s.current_byte + 1 } := by
  have hne : bits ≠ [] := by
    intro h
    rw [h] at hlen
    simp at hlen
  have hdecomp := List.dropLast_append_getLast hne
  generalize bits.dropLast = bs at hdecomp
  generalize bits.getLast hne = b7 at hdecomp
  subst hdecomp
  have hlen7 : bs.length = 7 := by
    simp only [List.length_append, List.length_singleton] at hlen
    omega
  have hb7 : b7 ≤ 1 := hbits b7 (by simp)
  have hbs : ∀ x ∈ bs, x ≤ 1 := fun x hx => hbits x (by simp [hx])
  have e8 := shiftIn_eight (bs ++ [b7]) s.data hlen hbits
  rw [shiftIn_append, hlen7] at e8
  have hcs7 : (portAfter s.port bs).cs ≠ 0 := portAfter_cs s.port bs hcs
  rw [RTC.pulses_append,
    RTC.pulses_receiving_shift d time bs s hw hcs hst hbyte (by omega) hbs,
    Option.some_bind, RTC.pulses,
    RTC.pulse_eq d time b7
      { s with port := portAfter s.port bs, data := shiftIn s.data s.current_bit bs,
               current_bit := s.current_bit + bs.length } hw hcs7 hb7]
  rw [RTC.onClock_receiving d time
      { s with port := { sck := 1, sio := b7, cs := 1 },
               data := shiftIn s.data s.current_bit bs,
               current_bit := s.current_bit + bs.length } hst,
    RTC.ReceiveBufferSIO_last d
      { s with port := { sck := 1, sio := b7, cs := 1 },
               data := shiftIn s.data s.current_bit bs,
               current_bit := s.current_bit + bs.length } hbyte h7 (by simp only; omega)]
  simp only [hcb, e8, portAfter_concat]
  split <;> simp [RTC.pulses]
/-! ### RTC: Control register round trip -/

theorem lsbFirst_lt (bits : List Nat) (hlen : bits.length = 8) (hbits : ∀ b ∈ bits, b ≤ 1) :
    lsbFirst bits < 256 := by
  have hne : bits ≠ [] := by
    intro h
    rw [h] at hlen
    simp at hlen
  rw [← shiftIn_eight bits 0 hlen hbits]
  exact (shiftIn_spec bits 0 0 (by omega) hbits).2 hne

theorem RTC.Write_deselect (d : RTCDecl) (time : Tm) (s : RTC) (hw : RTC.Wired d s) :
    RTC.Write d time 0 s = some { s with port := { sck := 0, sio := 0, cs := 0 } } := by
  obtain ⟨-, -, -, d1, d2, d3⟩ := hw
  unfold RTC.Write
  simp [d1, d2, d3]

theorem RTC.Write_select (d : RTCDecl) (time : Tm) (s : RTC) (hw : RTC.Wired d s)
    (hcs : s.port.cs = 0) :
    RTC.Write d time (d.value 0 0) s
      = some { s with port := { sck := 0, sio := 0, cs := 1 }, state := RTCState.Command,
                      current_bit := 0, current_byte := 0 } := by
  obtain ⟨h1, h2, h3, d1, d2, d3⟩ := hw
  obtain ⟨p1, p2, p3⟩ := d.value_pins 0 0 (Nat.zero_le 1) (Nat.zero_le 1) h1 h2 h3
  unfold RTC.Write
  simp only [d1, d2, d3, p1, p2, p3, if_true, hcs]
  simp

set_option maxRecDepth 100000 in
theorem control_flags_mask : ∀ b < 256, ∀ p : Bool,
    ((if (b &&& 2 != 0) = true then 2 else 0) ||| (if (b &&& 8 != 0) = true then 8 else 0) |||
      (if (b &&& 32 != 0) = true then 32 else 0) ||| (if (b &&& 64 != 0) = true then 64 else 0) |||
      (if p = true then 128 else 0)) % 256
      = (b &&& 0x6A) ||| (if p = true then 0x80 else 0) := by
  decide

theorem RTC.pulses_write_control (d : RTCDecl) (time : Tm) (bits : List Nat) (s : RTC)
    (hw : RTC.Wired d s) (hcs : s.port.cs ≠ 0)
    (hst : s.state = RTCState.Receiving) (hreg : s.reg = d.Control)
    (hargc : d.s_argument_count d.Control = 1)
    (hcb : s.current_bit = 0) (hbyte : s.current_byte = 0)
    (hlen : bits.length = 8) (hbits : ∀ b ∈ bits, b ≤ 1) :
    ∃ s1, RTC.pulses d time bits s = some s1 ∧
      s1.state = RTCState.Complete ∧
      s1.port_direction = s.port_direction ∧
      s1.control =
        { s.control with
          unknown1 := lsbFirst bits &&& 2 != 0
          per_minute_irq := lsbFirst bits &&& 8 != 0
          unknown2 := lsbFirst bits &&& 32 != 0
          mode_24h := lsbFirst bits &&& 64 != 0 } := by
  have hb256 := lsbFirst_lt bits hlen hbits
  have h1 := RTC.pulses_receiving_byte d time bits s hw hcs hst
    (by rw [hreg, hargc, hbyte]; omega) (by omega) hcb hlen hbits
  rw [if_pos (by rw [hreg, hargc, hbyte])] at h1
  refine ⟨_, h1, rfl, ?_, ?_⟩
  · simp [RTC.WriteRegister, hreg]
  · simp [RTC.WriteRegister, hreg, setBuffer, hbyte, Nat.mod_eq_of_lt hb256]

theorem RTC.Write_reselect (d : RTCDecl) (time : Tm) (s : RTC) (hw : RTC.Wired d s) :
    (RTC.Write d time 0 s).bind (RTC.Write d time (d.value 0 0))
      = some { s with port := { sck := 0, sio := 0, cs := 1 }, state := RTCState.Command,
                      current_bit := 0, current_byte := 0 } := by
  rw [RTC.Write_deselect d time s hw, Option.some_bind,
    RTC.Write_select d time { s with port := { sck := 0, sio := 0, cs := 0 } } hw rfl]

theorem RTC.pulses_read_control (d : RTCDecl) (time : Tm) (cmd : List Nat) (s : RTC)
    (hw : RTC.Wired d s) (hcs : s.port.cs ≠ 0)
    (hst : s.state = RTCState.Command) (hcb : s.current_bit = 0)
    (hargc : d.s_argument_count d.Control = 1)
    (hclen : cmd.length = 8) (hcbits : ∀ b ∈ cmd, b ≤ 1)
    (hc6 : lsbFirst cmd >>> 4 ≠ 6) (hc15 : lsbFirst cmd &&& 15 = 6)
    (hcreg : (lsbFirst cmd >>> 4) &&& 7 = d.Control)
    (hcread : lsbFirst cmd &&& 0x80 ≠ 0) :
    ∃ s4, RTC.pulses d time cmd s = some s4 ∧
      s4.state = RTCState.Sending ∧
      s4.buffer 0 =
        ((if s.control.unknown1 then 2 else 0) |||
         (if s.control.per_minute_irq then 8 else 0) |||
         (if s.control.unknown2 then 32 else 0) |||
         (if s.control.mode_24h then 64 else 0) |||
         (if s.control.poweroff then 128 else 0)) % 256 := by
  have h := RTC.pulses_command_byte d time cmd s hw hcs hst hcb hclen hcbits
  rw [if_neg hc6, if_neg (not_not.mpr hc15)] at h
  refine ⟨_, h, ?_, ?_⟩
  · exact (RTC.startTransfer_fields d time
      { s with port := portAfter s.port cmd, data := lsbFirst cmd,
               current_bit := 0 }).2.2.2.2.1.mpr
      ⟨hcread, by simp only [hcreg, hargc]; omega⟩
  · simp [RTC.startTransfer, hcread, hcreg, hargc, RTC.ReadRegister, setBuffer]

/-- C10: Control write/read round trip.  Start in state Receiving for register
Control (argument count 1) with CS high; clock in the 8 bits of the argument
`b` (least significant first), which completes the write and leaves the
power-off flag as it was; drop CS; raise CS; clock in the 8 bits of a command
byte that reads Control.  Then `buffer[0]` is `(b AND 0x6A) OR 0x80` if the
power-off flag was set before the write, and `b AND 0x6A` otherwise. -/
theorem RTC.control_round_trip (d : RTCDecl) (time : Tm) (bits cmd : List Nat) (s : RTC)
    (hw : RTC.Wired d s) (hcs : s.port.cs ≠ 0)
    (hst : s.state = RTCState.Receiving) (hreg : s.reg = d.Control)
    (hargc : d.s_argument_count d.Control = 1)
    (hcb : s.current_bit = 0) (hbyte : s.current_byte = 0)
    (hlen : bits.length = 8) (hbits : ∀ b ∈ bits, b ≤ 1)
    (hclen : cmd.length = 8) (hcbits : ∀ b ∈ cmd, b ≤ 1)
    (hc6 : lsbFirst cmd >>> 4 ≠ 6) (hc15 : lsbFirst cmd &&& 15 = 6)
    (hcreg : (lsbFirst cmd >>> 4) &&& 7 = d.Control)
    (hcread : lsbFirst cmd &&& 0x80 ≠ 0) :
    ∃ s1 s4,
      RTC.pulses d time bits s = some s1 ∧
      s1.state = RTCState.Complete ∧
      s1.control.poweroff = s.control.poweroff ∧
      ((RTC.Write d time 0 s1).bind (RTC.Write d time (d.value 0 0))).bind
          (RTC.pulses d time cmd) = some s4 ∧
      s4.state = RTCState.Sending ∧
      s4.buffer 0 = (lsbFirst bits &&& 0x6A) ||| (if s.control.poweroff then 0x80 else 0) := by
  have hb256 := lsbFirst_lt bits hlen hbits
  obtain ⟨s1, e1, e2, e3, e4⟩ :=
    RTC.pulses_write_control d time bits s hw hcs hst hreg hargc hcb hbyte hlen hbits
  have hw1 : RTC.Wired d s1 := by
    unfold RTC.Wired
    rw [e3]
    exact hw
  obtain ⟨s4, g1, g2, g3⟩ := RTC.pulses_read_control d time cmd
    { s1 with port := { sck := 0, sio := 0, cs := 1 }, state := RTCState.Command,
              current_bit := 0, current_byte := 0 }
    hw1 (by simp) rfl rfl hargc hclen hcbits hc6 hc15 hcreg hcread
  refine ⟨s1, s4, e1, e2, by rw [e4], ?_, g2, ?_⟩
  · rw [RTC.Write_reselect d time s1 hw1, Option.some_bind, g1]
  · rw [g3]
    simp only [e4]
    exact control_flags_mask (lsbFirst bits) hb256 s.control.poweroff

/-- Witness for C10 on the demo RTC: after a Control write command, the argument
0xFF (all bits 1) is clocked in, then the command 0xC6 (read register 4), bits
0,1,1,0,0,0,1,1. -/
theorem RTC.control_round_trip_witness :
    ∃ s1 s4,
      RTC.pulses demoDecl demoTime [1, 1, 1, 1, 1, 1, 1, 1]
        { demoRTCSelected with state := RTCState.Receiving, reg := 4 } = some s1 ∧
      s1.state = RTCState.Complete ∧
      s1.control.poweroff = false ∧
      ((RTC.Write demoDecl demoTime 0 s1).bind
          (RTC.Write demoDecl demoTime (demoDecl.value 0 0))).bind
          (RTC.pulses demoDecl demoTime [0, 1, 1, 0, 0, 0, 1, 1]) = some s4 ∧
      s4.state = RTCState.Sending ∧
      s4.buffer 0 = (lsbFirst [1, 1, 1, 1, 1, 1, 1, 1] &&& 0x6A) ||| 0 :=
  RTC.control_round_trip demoDecl demoTime [1, 1, 1, 1, 1, 1, 1, 1] [0, 1, 1, 0, 0, 0, 1, 1]
    { demoRTCSelected with state := RTCState.Receiving, reg := 4 }
    (by decide) (by decide) rfl rfl rfl rfl rfl rfl (by decide) rfl (by decide)
    (by decide) (by decide) (by decide) (by decide)

/-! ### RTC: sending the buffer -/

theorem shiftRight_succ_mod_256 (x i : Nat) (hx : x < 256) :
    ((x >>> i) >>> 1) % 256 = x >>> (i + 1) := by
  rw [← Nat.shiftRight_add]
  apply Nat.mod_eq_of_lt
  have h : x >>> (i + 1) ≤ x := by
    rw [Nat.shiftRight_eq_div_pow]
    exact Nat.div_le_self x _
  omega

/-- One SCK rising edge with CS high, made by two writes: with the CS and SCK
ports as outputs and CS high before, the pair of writes is the `switch` of
`RTC::Write` on the state with SCK and CS high; SIO holds the SIO bit of the
second value when the SIO port is an output and is untouched when it is an
input. -/
theorem RTC.edge_eq (d : RTCDecl) (time : Tm) (w : Nat × Nat) (s : RTC)
    (hd : RTC.Clocked d s) (hcs : s.port.cs ≠ 0) (hw : d.IsEdge w) :
    RTC.edge d time w s
      = RTC.onClock d time
          { s with port :=
              { sck := 1,
                sio := if s.port_direction d.SIO = PortDirection.Out
                  then (w.2 >>> d.SIO) &&& 1 else s.port.sio,
                cs := 1 } } := by
  obtain ⟨d1, d2⟩ := hd
  obtain ⟨w1, w2, w3, w4⟩ := hw
  unfold RTC.edge RTC.Write
  by_cases d3 : s.port_direction d.SIO = PortDirection.Out <;>
    simp [d1, d2, d3, w1, w2, w3, w4, hcs]

theorem RTC.edge_sending (d : RTCDecl) (time : Tm) (B : Nat → Nat) (n m : Nat)
    (w : Nat × Nat) (t : RTC)
    (hinv : RTC.SendingAfter d B n m t) (hn7 : n ≤ 7) (hm : m < 8 * n)
    (hB : ∀ j < n, B j < 256) (hw : d.IsEdge w) :
    ∃ u, RTC.edge d time w t = some u ∧
      u.port.sio = (B (m / 8) >>> (m % 8)) &&& 1 ∧
      u.port.cs = 1 ∧
      u.port_direction = t.port_direction ∧
      (m + 1 < 8 * n → RTC.SendingAfter d B n (m + 1) u) ∧
      (m + 1 = 8 * n → u.state = RTCState.Complete) := by
  obtain ⟨hd, hcs, hst, hn, hcb, hbyte, hbuf⟩ := hinv
  have hbyte7 : t.current_byte < 7 := by omega
  have hBm : B (m / 8) < 256 := hB (m / 8) (by omega)
  have hcur : t.buffer t.current_byte = B (m / 8) >>> (m % 8) := by
    rw [hbuf t.current_byte hbyte7, hbyte]
    simp
  rw [RTC.edge_eq d time w t hd (by omega) hw,
    RTC.onClock_sending d time
      { t with port :=
          { sck := 1,
            sio := if t.port_direction d.SIO = PortDirection.Out
              then (w.2 >>> d.SIO) &&& 1 else t.port.sio,
            cs := 1 } } hst]
  unfold RTC.TransmitBufferSIO
  simp only [hbyte7, if_true, hcur]
  by_cases h7 : m % 8 = 7
  · have e1 : t.current_bit + 1 = 8 := by omega
    simp only [e1, if_true]
    by_cases hlast : m + 1 = 8 * n
    · have e2 : t.current_byte + 1 = d.s_argument_count t.reg := by omega
      simp only [e2, if_true]
      refine ⟨_, rfl, rfl, rfl, rfl, fun h => by omega, fun _ => rfl⟩
    · have e2 : ¬ (t.current_byte + 1 = d.s_argument_count t.reg) := by omega
      simp only [e2, if_false]
      refine ⟨_, rfl, rfl, rfl, rfl, fun _ => ?_, fun h => absurd h hlast⟩
      refine ⟨hd, rfl, hst, hn, ?_, ?_, ?_⟩
      · show 0 = (m + 1) % 8
        omega
      · show t.current_byte + 1 = (m + 1) / 8
        omega
      · intro j hj
        show setBuffer t.buffer t.current_byte ((B (m / 8) >>> (m % 8)) >>> 1) j = _
        unfold setBuffer
        by_cases hjc : j = t.current_byte
        · have hj1 : j < (m + 1) / 8 := by omega
          have hj2 : j = m / 8 := by omega
          rw [if_pos hjc, if_pos hj1, shiftRight_succ_mod_256 _ _ hBm, h7, hj2]
        · rw [if_neg hjc, hbuf j hj]
          by_cases hlt : j < m / 8
          · have hj1 : j < (m + 1) / 8 := by omega
            rw [if_pos hlt, if_pos hj1]
          · have hj0 : ¬ j = m / 8 := by omega
            have hj1 : ¬ j < (m + 1) / 8 := by omega
            rw [if_neg hlt, if_neg hj0, if_neg hj1]
            by_cases hj2 : j = (m + 1) / 8
            · have e0 : (m + 1) % 8 = 0 := by omega
              rw [if_pos hj2, e0]
              rfl
            · rw [if_neg hj2]
  · have e1 : ¬ (t.current_bit + 1 = 8) := by omega
    have hlast : ¬ (m + 1 = 8 * n) := by omega
    simp only [e1, if_false]
    refine ⟨_, rfl, rfl, rfl, rfl, fun _ => ?_, fun h => absurd h hlast⟩
    refine ⟨hd, rfl, hst, hn, ?_, ?_, ?_⟩
    · show t.current_bit + 1 = (m + 1) % 8
      omega
    · show t.current_byte = (m + 1) / 8
      omega
    · intro j hj
      show setBuffer t.buffer t.current_byte ((B (m / 8) >>> (m % 8)) >>> 1) j = _
      unfold setBuffer
      have ediv : (m + 1) / 8 = m / 8 := by omega
      have emod : (m + 1) % 8 = m % 8 + 1 := by omega
      rw [ediv, emod]
      by_cases hjc : j = t.current_byte
      · have hj1 : ¬ j < m / 8 := by omega
        have hj2 : j = m / 8 := by omega
        rw [if_pos hjc, if_neg hj1, if_pos hj2, shiftRight_succ_mod_256 _ _ hBm, hj2]
      · have hj2 : ¬ j = m / 8 := by omega
        rw [if_neg hjc, hbuf j hj, if_neg hj2, if_neg hj2]

theorem RTC.edges_sending (d : RTCDecl) (time : Tm) (B : Nat → Nat) (n : Nat)
    (hn7 : n ≤ 7) (hB : ∀ j < n, B j < 256) (ws : List (Nat × Nat)) (m : Nat) (t : RTC)
    (hinv : RTC.SendingAfter d B n m t) (hne : ws ≠ [])
    (hlen : m + ws.length ≤ 8 * n) (hws : ∀ w ∈ ws, d.IsEdge w) :
    ∃ u, RTC.edges d time ws t = some u ∧
      u.port.sio = (B ((m + ws.length - 1) / 8) >>> ((m + ws.length - 1) % 8)) &&& 1 ∧
      u.port.cs = 1 ∧
      u.port_direction = t.port_direction ∧
      (m + ws.length < 8 * n → u.state = RTCState.Sending) ∧
      (m + ws.length = 8 * n → u.state = RTCState.Complete) := by
  induction ws generalizing m t with
  | nil => exact absurd rfl hne
  | cons w rest ih =>
    have hw : d.IsEdge w := hws w (List.mem_cons_self w rest)
    have hrest : ∀ x ∈ rest, d.IsEdge x := fun x hx => hws x (List.mem_cons_of_mem w hx)
    simp only [List.length_cons] at hlen ⊢
    obtain ⟨u, e1, e2, e3, e6, e4, e5⟩ :=
      RTC.edge_sending d time B n m w t hinv hn7 (by omega) hB hw
    rw [RTC.edges, e1, Option.some_bind]
    by_cases hnil : rest = []
    · subst hnil
      simp only [List.length_nil, Nat.zero_add, Nat.add_sub_cancel]
      refine ⟨u, rfl, e2, e3, e6, fun h => ?_, fun h => e5 h⟩
      exact (e4 h).2.2.1
    · have hpos : 0 < rest.length := List.length_pos.mpr hnil
      obtain ⟨x, g1, g2, g3, g6, g4, g5⟩ :=
        ih (m + 1) u (e4 (by omega)) hnil (by omega) hrest
      have ea : m + 1 + rest.length - 1 = m + (rest.length + 1) - 1 := by omega
      have eb : m + 1 + rest.length = m + (rest.length + 1) := by omega
      rw [ea] at g2
      rw [eb] at g4 g5
      exact ⟨x, g1, g2, g3, g6.trans e6, g4, g5⟩

/-- C9: RTC sending order.  Let the RTC be in state Sending for a register with
`n > 0` argument bytes (at most 7), counters 0, CS high, the buffer holding the
u8 values `B[0..n-1]`, and let the host drive CS and SCK; the SIO port may be
an input, as it is when the host reads, or an output, and the SIO bits of the
written values are arbitrary.  After the `(k+1)`-th following SCK rising edge
with CS high (`k < 8n`), the SIO pin holds bit `k mod 8` of `B[k div 8]`,
`RTC::Read()` returns that bit at the SIO pin position, and the state is
Complete if `k + 1 = 8n` and still Sending otherwise. -/
theorem RTC.sending_order (d : RTCDecl) (time : Tm) (n k : Nat) (ws : List (Nat × Nat))
    (s : RTC)
    (hd : RTC.Clocked d s) (hcs : s.port.cs = 1) (hst : s.state = RTCState.Sending)
    (hcb : s.current_bit = 0) (hbyte : s.current_byte = 0)
    (hn : d.s_argument_count s.reg = n) (hn7 : n ≤ 7)
    (hB : ∀ j < n, s.buffer j < 256)
    (hk : k < 8 * n) (hlen : ws.length = k + 1) (hws : ∀ w ∈ ws, d.IsEdge w) :
    ∃ t, RTC.edges d time ws s = some t ∧
      t.port.sio = (s.buffer (k / 8) >>> (k % 8)) &&& 1 ∧
      RTC.Read d t = ((s.buffer (k / 8) >>> (k % 8)) &&& 1) <<< d.SIO ∧
      (t.state = RTCState.Complete ↔ k + 1 = 8 * n) ∧
      (t.state = RTCState.Sending ↔ k + 1 < 8 * n) := by
  have hinv : RTC.SendingAfter d s.buffer n 0 s := by
    refine ⟨hd, hcs, hst, hn, hcb, hbyte, ?_⟩
    intro j _
    by_cases hj : j = 0
    · subst hj
      simp
    · have : ¬ j < 0 / 8 := by omega
      simp [hj]
  have hne : ws ≠ [] := by
    intro h
    rw [h] at hlen
    simp at hlen
  obtain ⟨t, e1, e2, e3, -, e4, e5⟩ :=
    RTC.edges_sending d time s.buffer n hn7 hB ws 0 s hinv hne (by omega) hws
  have ek : 0 + ws.length - 1 = k := by omega
  rw [ek] at e2
  refine ⟨t, e1, e2, ?_, ?_, ?_⟩
  · unfold RTC.Read
    rw [e2, e3, Nat.and_assoc]
    rfl
  · constructor
    · intro hc
      by_contra hlt
      have := e4 (by omega)
      rw [this] at hc
      exact absurd hc (by decide)
    · intro h
      exact e5 (by omega)
  · constructor
    · intro hc
      by_contra hlt
      have := e5 (by omega)
      rw [this] at hc
      exact absurd hc (by decide)
    · intro h
      exact e4 (by omega)

/-- Witness for C9 on the demo RTC with the SIO port configured as an input:
sending the one byte 0x45 of register 4, the third SCK rising edge puts bit 2
of 0x45 on SIO and `RTC::Read()` returns it at the SIO position. -/
theorem RTC.sending_order_witness :
    ∃ t, RTC.edges demoDecl demoTime [(4, 5), (4, 5), (4, 5)]
        { demoRTCSelected with
          state := RTCState.Sending, reg := 4,
          buffer := fun j => if j = 0 then 0x45 else 0,
          port_direction := fun p => if p = 1 then PortDirection.In else PortDirection.Out }
        = some t ∧
      t.port.sio = ((if 2 / 8 = 0 then 0x45 else 0) >>> (2 % 8)) &&& 1 ∧
      RTC.Read demoDecl t
        = (((if 2 / 8 = 0 then 0x45 else 0) >>> (2 % 8)) &&& 1) <<< demoDecl.SIO ∧
      (t.state = RTCState.Complete ↔ 2 + 1 = 8 * 1) ∧
      (t.state = RTCState.Sending ↔ 2 + 1 < 8 * 1) :=
  RTC.sending_order demoDecl demoTime 1 2 [(4, 5), (4, 5), (4, 5)]
    { demoRTCSelected with
      state := RTCState.Sending, reg := 4,
      buffer := fun j => if j = 0 then 0x45 else 0,
      port_direction := fun p => if p = 1 then PortDirection.In else PortDirection.Out }
    (by decide) rfl rfl rfl rfl rfl (by decide) (by decide) (by decide) rfl (by decide)

/-! ### RTC: ForceIRQ, unknown commands, chip select -/

theorem RTC.startTransfer_write_force_irq (d : RTCDecl) (time : Tm) (t : RTC)
    (hreg : (t.data >>> 4) &&& 7 = d.ForceIRQ)
    (hargc : d.s_argument_count d.ForceIRQ = 0)
    (hne1 : d.ForceIRQ ≠ d.Control) (hne2 : d.ForceIRQ ≠ d.ForceReset)
    (hdir : t.data &&& 0x80 = 0) :
    (RTC.startTransfer d time t).irq_raised = t.irq_raised + 1 ∧
    (RTC.startTransfer d time t).control = t.control ∧
    (RTC.startTransfer d time t).state = RTCState.Complete := by
  simp [RTC.startTransfer, hdir, hreg, hargc, RTC.WriteRegister, hne1, hne2]

theorem RTC.startTransfer_read_no_irq (d : RTCDecl) (time : Tm) (t : RTC)
    (hdir : t.data &&& 0x80 ≠ 0) :
    (RTC.startTransfer d time t).irq_raised = t.irq_raised ∧
    (RTC.startTransfer d time t).control = t.control := by
  obtain ⟨-, -, -, -, -, f6, -, -, f9⟩ := RTC.ReadRegister_frame d time
    { t with reg := (t.data >>> 4) &&& 7, current_bit := 0, current_byte := 0 }
  unfold RTC.startTransfer
  simp only [hdir, ne_eq, not_false_eq_true, if_true]
  split <;> exact ⟨f9, f6⟩

/-- C11: RTC ForceIRQ.  Let the 8 command bits clocked in from state Command form
an accepted command byte `acc` that selects register ForceIRQ (argument count
0).  The first seven bits raise no IRQ.  On the eighth bit the state becomes
Complete and the control register is unchanged; IRQ source ROM has been raised
exactly once if bit 7 of `acc` is clear (write) and not at all if it is set
(read). -/
theorem RTC.force_irq (d : RTCDecl) (time : Tm) (bits : List Nat) (s : RTC) (acc : Nat)
    (hw : RTC.Wired d s) (hcs : s.port.cs ≠ 0) (hst : s.state = RTCState.Command)
    (hcb : s.current_bit = 0) (hlen : bits.length = 8) (hbits : ∀ b ∈ bits, b ≤ 1)
    (hacc : (lsbFirst bits >>> 4 = 6 ∧ acc = msbFirst bits) ∨
      (lsbFirst bits >>> 4 ≠ 6 ∧ lsbFirst bits &&& 15 = 6 ∧ acc = lsbFirst bits))
    (hreg : (acc >>> 4) &&& 7 = d.ForceIRQ)
    (hargc : d.s_argument_count d.ForceIRQ = 0)
    (hne1 : d.ForceIRQ ≠ d.Control) (hne2 : d.ForceIRQ ≠ d.ForceReset) :
    (∃ s7, RTC.pulses d time (bits.take 7) s = some s7 ∧ s7.irq_raised = s.irq_raised) ∧
    (∃ s8, RTC.pulses d time bits s = some s8 ∧
      s8.state = RTCState.Complete ∧
      s8.control = s.control ∧
      s8.irq_raised = if acc &&& 0x80 = 0 then s.irq_raised + 1 else s.irq_raised) := by
  constructor
  · have h7 := RTC.pulses_command_shift d time (bits.take 7) s hw hcs hst
      (by rw [hcb, List.length_take, hlen]; decide)
      (fun b hb => hbits b (List.mem_of_mem_take hb))
    exact ⟨_, h7, rfl⟩
  · have h := RTC.pulses_command_byte d time bits s hw hcs hst hcb hlen hbits
    have key : ∀ t : RTC, t.data = acc → t.irq_raised = s.irq_raised →
        t.control = s.control →
        (RTC.startTransfer d time t).state = RTCState.Complete ∧
        (RTC.startTransfer d time t).control = s.control ∧
        (RTC.startTransfer d time t).irq_raised
          = if acc &&& 0x80 = 0 then s.irq_raised + 1 else s.irq_raised := by
      intro t hd hi hc
      have hreg' : (t.data >>> 4) &&& 7 = d.ForceIRQ := by rw [hd]; exact hreg
      by_cases hdir : acc &&& 0x80 = 0
      · obtain ⟨g1, g2, g3⟩ := RTC.startTransfer_write_force_irq d time t hreg' hargc hne1 hne2
          (by rw [hd]; exact hdir)
        rw [if_pos hdir, g1, g2, hi, hc]
        exact ⟨g3, rfl, rfl⟩
      · obtain ⟨g1, g2⟩ := RTC.startTransfer_read_no_irq d time t (by rw [hd]; exact hdir)
        have g3 := (RTC.startTransfer_fields d time t).2.2.2.2.2.2 (by rw [hreg', hargc])
        rw [if_neg hdir, g1, g2, hi, hc]
        exact ⟨g3, rfl, rfl⟩
    rcases hacc with ⟨h6, rfl⟩ | ⟨h6, h15, rfl⟩
    · rw [if_pos h6, RTC.reverseData_lsbFirst bits hlen hbits] at h
      exact ⟨_, h, key _ rfl rfl rfl⟩
    · rw [if_neg h6, if_neg (not_not.mpr h15)] at h
      exact ⟨_, h, key _ rfl rfl rfl⟩

/-- Witness for C11 on the selected demo RTC: the bits 0,1,1,0,1,1,0,0 form the
byte 0x36, a write to register 3 (ForceIRQ). -/
theorem RTC.force_irq_witness :
    (∃ s7, RTC.pulses demoDecl demoTime (List.take 7 [0, 1, 1, 0, 1, 1, 0, 0]) demoRTCSelected
        = some s7 ∧ s7.irq_raised = demoRTCSelected.irq_raised) ∧
    (∃ s8, RTC.pulses demoDecl demoTime [0, 1, 1, 0, 1, 1, 0, 0] demoRTCSelected = some s8 ∧
      s8.state = RTCState.Complete ∧
      s8.control = demoRTCSelected.control ∧
      s8.irq_raised
        = if 0x36 &&& 0x80 = 0 then demoRTCSelected.irq_raised + 1
          else demoRTCSelected.irq_raised) :=
  RTC.force_irq demoDecl demoTime [0, 1, 1, 0, 1, 1, 0, 0] demoRTCSelected 0x36
    (by decide) (by decide) rfl rfl rfl (by decide)
    (Or.inr ⟨by decide, by decide, by decide⟩) (by decide) rfl (by decide) (by decide)

theorem nibbles_msbFirst_lsbFirst (bits : List Nat) (hlen : bits.length = 8)
    (hbits : ∀ b ∈ bits, b ≤ 1) :
    (msbFirst bits >>> 4 = 6 ↔ lsbFirst bits &&& 15 = 6) ∧
    (msbFirst bits &&& 15 = 6 ↔ lsbFirst bits >>> 4 = 6) := by
  match bits, hlen with
  | [b0, b1, b2, b3, b4, b5, b6, b7], _ =>
    have h0 : b0 = 0 ∨ b0 = 1 := by have := hbits b0 (by simp); omega
    have h1 : b1 = 0 ∨ b1 = 1 := by have := hbits b1 (by simp); omega
    have h2 : b2 = 0 ∨ b2 = 1 := by have := hbits b2 (by simp); omega
    have h3 : b3 = 0 ∨ b3 = 1 := by have := hbits b3 (by simp); omega
    have h4 : b4 = 0 ∨ b4 = 1 := by have := hbits b4 (by simp); omega
    have h5 : b5 = 0 ∨ b5 = 1 := by have := hbits b5 (by simp); omega
    have h6 : b6 = 0 ∨ b6 = 1 := by have := hbits b6 (by simp); omega
    have h7 : b7 = 0 ∨ b7 = 1 := by have := hbits b7 (by simp); omega
    clear hbits
    rcases h0 with rfl | rfl <;> rcases h1 with rfl | rfl <;> rcases h2 with rfl | rfl <;>
      rcases h3 with rfl | rfl <;> rcases h4 with rfl | rfl <;> rcases h5 with rfl | rfl <;>
      rcases h6 with rfl | rfl <;> rcases h7 with rfl | rfl <;> decide

/-- C12: RTC unknown command.  Let 8 command bits be clocked in from state
Command, and let neither nibble of the byte they form equal 6 (read with the
first bit least significant or most significant: the two readings have the
same nibbles equal to 6).  After the eighth bit the state is still Command, the
selected register, the control register and the buffer are unchanged, and no
IRQ has been raised. -/
theorem RTC.unknown_command (d : RTCDecl) (time : Tm) (bits : List Nat) (s : RTC)
    (hw : RTC.Wired d s) (hcs : s.port.cs ≠ 0) (hst : s.state = RTCState.Command)
    (hcb : s.current_bit = 0) (hlen : bits.length = 8) (hbits : ∀ b ∈ bits, b ≤ 1)
    (hunk : (lsbFirst bits >>> 4 ≠ 6 ∧ lsbFirst bits &&& 15 ≠ 6) ∨
      (msbFirst bits >>> 4 ≠ 6 ∧ msbFirst bits &&& 15 ≠ 6)) :
    ∃ t, RTC.pulses d time bits s = some t ∧
      t.state = RTCState.Command ∧
      t.reg = s.reg ∧
      t.control = s.control ∧
      t.buffer = s.buffer ∧
      t.irq_raised = s.irq_raised := by
  have h := RTC.pulses_command_byte d time bits s hw hcs hst hcb hlen hbits
  obtain ⟨e1, e2⟩ := nibbles_msbFirst_lsbFirst bits hlen hbits
  have hl : lsbFirst bits >>> 4 ≠ 6 ∧ lsbFirst bits &&& 15 ≠ 6 := by
    rcases hunk with hl | ⟨m1, m2⟩
    · exact hl
    · exact ⟨fun h6 => m2 (e2.mpr h6), fun h6 => m1 (e1.mpr h6)⟩
  rw [if_neg hl.1, if_pos hl.2] at h
  exact ⟨_, h, hst, rfl, rfl, rfl, rfl⟩

/-- Witness for C12 on the selected demo RTC: the bits 1,0,1,0,0,1,0,1 form the
byte 0xA5, neither nibble of which is 6. -/
theorem RTC.unknown_command_witness :
    ∃ t, RTC.pulses demoDecl demoTime [1, 0, 1, 0, 0, 1, 0, 1] demoRTCSelected = some t ∧
      t.state = RTCState.Command ∧
      t.reg = demoRTCSelected.reg ∧
      t.control = demoRTCSelected.control ∧
      t.buffer = demoRTCSelected.buffer ∧
      t.irq_raised = demoRTCSelected.irq_raised :=
  RTC.unknown_command demoDecl demoTime [1, 0, 1, 0, 0, 1, 0, 1] demoRTCSelected
    (by decide) (by decide) rfl rfl rfl (by decide) (Or.inl ⟨by decide, by decide⟩)

/-- C13: RTC chip-select rising edge.  In every RTC state with CS low and the
CS port configured as output, a Write whose CS bit is 1 sets the state to
Command and the bit and byte counters to 0.  Nothing else changes except the
latched pins: the shift register, the selected register, the buffer and the
control register are as before and no IRQ is raised, whatever the SCK bit of
the written value is, so an SCK rising edge carried by the same write is not
processed. -/
theorem RTC.chip_select_rising (d : RTCDecl) (time : Tm) (value : Nat) (s : RTC)
    (hdir : s.port_direction d.CS = PortDirection.Out)
    (hold : s.port.cs = 0)
    (hnew : (value >>> d.CS) &&& 1 = 1) :
    ∃ t, RTC.Write d time value s = some t ∧
      t.state = RTCState.Command ∧ t.current_bit = 0 ∧ t.current_byte = 0 ∧
      t.port.cs = 1 ∧
      t.port.sck = (if s.port_direction d.SCK = PortDirection.Out
        then (value >>> d.SCK) &&& 1 else s.port.sck) ∧
      t.port.sio = (if s.port_direction d.SIO = PortDirection.Out
        then (value >>> d.SIO) &&& 1 else s.port.sio) ∧
      t.data = s.data ∧ t.reg = s.reg ∧ t.buffer = s.buffer ∧
      t.control = s.control ∧ t.irq_raised = s.irq_raised ∧
      t.port_direction = s.port_direction := by
  unfold RTC.Write
  by_cases h1 : s.port_direction d.SCK = PortDirection.Out <;>
    by_cases h2 : s.port_direction d.SIO = PortDirection.Out <;>
    simp [hdir, hold, hnew, h1, h2]

/-- Witness for C13: the demo RTC deselected in the middle of a command (state
Command, bit counter 3, CS and SCK low); the value 5 raises CS (bit 2) and SCK
(bit 0) in the same write. -/
theorem RTC.chip_select_rising_witness :
    ∃ t, RTC.Write demoDecl demoTime 5 { demoRTC with state := RTCState.Command, current_bit := 3 }
        = some t ∧
      t.state = RTCState.Command ∧ t.current_bit = 0 ∧ t.current_byte = 0 ∧
      t.port.cs = 1 ∧
      t.port.sck = (if demoRTC.port_direction demoDecl.SCK = PortDirection.Out
        then (5 >>> demoDecl.SCK) &&& 1 else demoRTC.port.sck) ∧
      t.port.sio = (if demoRTC.port_direction demoDecl.SIO = PortDirection.Out
        then (5 >>> demoDecl.SIO) &&& 1 else demoRTC.port.sio) ∧
      t.data = demoRTC.data ∧ t.reg = demoRTC.reg ∧ t.buffer = demoRTC.buffer ∧
      t.control = demoRTC.control ∧ t.irq_raised = demoRTC.irq_raised ∧
      t.port_direction = demoRTC.port_direction :=
  RTC.chip_select_rising demoDecl demoTime 5
    { demoRTC with state := RTCState.Command, current_bit := 3 } rfl rfl (by decide)

set_option maxRecDepth 100000 in
/-- C14: BCD encoding.  For every h in 0..99, ConvertDecimalToBCD(h) is
((h / 10) << 4) | (h % 10), and 10 * (high nibble) + (low nibble) of that value
is h again. -/
theorem ConvertDecimalToBCD_round_trip (h : Nat) (hh : h ≤ 99) :
    ConvertDecimalToBCD (h : Int) = ((h / 10) <<< 4) ||| (h % 10) ∧
    10 * (ConvertDecimalToBCD (h : Int) >>> 4) + (ConvertDecimalToBCD (h : Int) &&& 15) = h := by
  have e : ConvertDecimalToBCD (h : Int) = ((h / 10) <<< 4) ||| (h % 10) := by
    simp [ConvertDecimalToBCD]
  refine ⟨e, ?_⟩
  rw [e]
  have all : ∀ n < 100, 10 * ((((n / 10) <<< 4) ||| (n % 10)) >>> 4)
      + ((((n / 10) <<< 4) ||| (n % 10)) &&& 15) = n := by decide
  exact all h (by omega)

/-- Witness for C14 at h = 59: the encoding is 0x59. -/
theorem ConvertDecimalToBCD_round_trip_witness :
    ConvertDecimalToBCD ((59 : Nat) : Int) = ((59 / 10) <<< 4) ||| (59 % 10) ∧
    10 * (ConvertDecimalToBCD ((59 : Nat) : Int) >>> 4)
      + (ConvertDecimalToBCD ((59 : Nat) : Int) &&& 15) = 59 :=
  ConvertDecimalToBCD_round_trip 59 (by decide)

/-! ### APU: timer overflow -/

theorem setAt_same {α : Type} (f : Nat → α) (i : Nat) (v : α) : setAt f i v i = v := by
  simp [setAt]

theorem setAt_other {α : Type} (f : Nat → α) (i j : Nat) (v : α) (h : j ≠ i) :
    setAt f i v j = f j := by
  simp [setAt, h]

/-- The body for FIFO `i` leaves the sound control and everything that belongs
to another FIFO alone. -/
theorem APU.OnTimerOverflow.body_frame {φ : Type} (F : FIFODecl φ) (i j : Nat) (a : APU φ)
    (h : j ≠ i) :
    (APU.OnTimerOverflow.body F i a).soundcnt = a.soundcnt ∧
    (APU.OnTimerOverflow.body F i a).fifo j = a.fifo j ∧
    (APU.OnTimerOverflow.body F i a).fifo_pipe j = a.fifo_pipe j ∧
    (APU.OnTimerOverflow.body F i a).latch j = a.latch j := by
  unfold APU.OnTimerOverflow.body
  refine ⟨?_, ?_, ?_, ?_⟩ <;> simp only [] <;> (repeat' split) <;> simp [setAt, h]

/-- The DMA requests of the body for FIFO `i`. -/
theorem APU.OnTimerOverflow.body_dma_requests {φ : Type} (F : FIFODecl φ) (i : Nat)
    (a : APU φ) :
    (APU.OnTimerOverflow.body F i a).dma_requests
      = a.dma_requests ++ (if F.Count (a.fifo i) ≤ 3 then [occasion i] else []) := by
  unfold APU.OnTimerOverflow.body
  simp only []
  (repeat' split) <;> simp_all

/-- What the body for FIFO `i` does to FIFO `i` depends only on the FIFO and
the pipe `i`. -/
theorem APU.OnTimerOverflow.body_congr {φ : Type} (F : FIFODecl φ) (i : Nat) (a b : APU φ)
    (hf : a.fifo i = b.fifo i) (hp : a.fifo_pipe i = b.fifo_pipe i) :
    (APU.OnTimerOverflow.body F i a).fifo i = (APU.OnTimerOverflow.body F i b).fifo i ∧
    (APU.OnTimerOverflow.body F i a).fifo_pipe i
      = (APU.OnTimerOverflow.body F i b).fifo_pipe i ∧
    (APU.OnTimerOverflow.body F i a).latch i = (APU.OnTimerOverflow.body F i b).latch i := by
  unfold APU.OnTimerOverflow.body
  simp only [hf, hp]
  refine ⟨?_, ?_, ?_⟩ <;> (repeat' split) <;> simp_all [setAt]

/-- The body when the pipe is empty and the FIFO holds a word: the word is
moved to the pipe, its low byte goes to the latch. -/
theorem APU.OnTimerOverflow.body_load {φ : Type} (F : FIFODecl φ) (i : Nat) (a : APU φ)
    (hsize : (a.fifo_pipe i).size = 0) (hcount : F.Count (a.fifo i) > 0) :
    (APU.OnTimerOverflow.body F i a).fifo i = (F.ReadWord (a.fifo i)).2 ∧
    (APU.OnTimerOverflow.body F i a).fifo_pipe i
      = { word := ((F.ReadWord (a.fifo i)).1 % 2 ^ 32) >>> 8, size := 3 } ∧
    (APU.OnTimerOverflow.body F i a).latch i = toS8 ((F.ReadWord (a.fifo i)).1 % 2 ^ 32) := by
  unfold APU.OnTimerOverflow.body
  simp only []
  refine ⟨?_, ?_, ?_⟩ <;> (repeat' split) <;> simp_all [setAt]

/-- The body when the pipe holds bytes: the low byte of the pipe goes to the
latch, the FIFO is not read. -/
theorem APU.OnTimerOverflow.body_drain {φ : Type} (F : FIFODecl φ) (i : Nat) (a : APU φ)
    (hsize : (a.fifo_pipe i).size > 0) :
    (APU.OnTimerOverflow.body F i a).fifo i = a.fifo i ∧
    (APU.OnTimerOverflow.body F i a).fifo_pipe i
      = { word := (a.fifo_pipe i).word >>> 8, size := (a.fifo_pipe i).size - 1 } ∧
    (APU.OnTimerOverflow.body F i a).latch i = toS8 (a.fifo_pipe i).word := by
  have hne : (a.fifo_pipe i).size ≠ 0 := by omega
  unfold APU.OnTimerOverflow.body
  simp only []
  refine ⟨?_, ?_, ?_⟩ <;> (repeat' split) <;> simp_all [setAt]
theorem APU.OnTimerOverflow.iter_eq {φ : Type} (F : FIFODecl φ) (n : Int) (i : Nat)
    (a : APU φ) :
    APU.OnTimerOverflow.iter F n i a
      = if (a.soundcnt.dma i).timer_id = n then APU.OnTimerOverflow.body F i a else a := rfl

theorem APU.OnTimerOverflow.iter_frame {φ : Type} (F : FIFODecl φ) (n : Int) (i j : Nat)
    (a : APU φ) (h : j ≠ i) :
    (APU.OnTimerOverflow.iter F n i a).soundcnt = a.soundcnt ∧
    (APU.OnTimerOverflow.iter F n i a).fifo j = a.fifo j ∧
    (APU.OnTimerOverflow.iter F n i a).fifo_pipe j = a.fifo_pipe j ∧
    (APU.OnTimerOverflow.iter F n i a).latch j = a.latch j := by
  unfold APU.OnTimerOverflow.iter
  split
  · exact APU.OnTimerOverflow.body_frame F i j a h
  · exact ⟨rfl, rfl, rfl, rfl⟩

/-- With master sound enabled, a call of `OnTimerOverflow` does to a FIFO linked
to the timer what the loop body for that FIFO does. -/
theorem APU.OnTimerOverflow_linked {φ : Type} (F : FIFODecl φ) (n times : Int) (a : APU φ)
    (i : Nat) (hi : i < 2) (hen : a.soundcnt.master_enable = true)
    (hlink : (a.soundcnt.dma i).timer_id = n) :
    (APU.OnTimerOverflow F n times a).soundcnt = a.soundcnt ∧
    (APU.OnTimerOverflow F n times a).fifo i = (APU.OnTimerOverflow.body F i a).fifo i ∧
    (APU.OnTimerOverflow F n times a).fifo_pipe i
      = (APU.OnTimerOverflow.body F i a).fifo_pipe i ∧
    (APU.OnTimerOverflow F n times a).latch i = (APU.OnTimerOverflow.body F i a).latch i := by
  have hi2 : i = 0 ∨ i = 1 := by omega
  unfold APU.OnTimerOverflow
  rw [if_neg (by simp [hen])]
  rcases hi2 with rfl | rfl
  · obtain ⟨f1, f2, f3, f4⟩ := APU.OnTimerOverflow.iter_frame F n 1 0
      (APU.OnTimerOverflow.iter F n 0 a) (by decide)
    rw [f1, f2, f3, f4]
    unfold APU.OnTimerOverflow.iter
    rw [if_pos hlink]
    exact ⟨(APU.OnTimerOverflow.body_frame F 0 1 a (by decide)).1, rfl, rfl, rfl⟩
  · obtain ⟨f1, f2, f3, _⟩ := APU.OnTimerOverflow.iter_frame F n 0 1 a (by decide)
    have hlink1 : ((APU.OnTimerOverflow.iter F n 0 a).soundcnt.dma 1).timer_id = n := by
      rw [f1]; exact hlink
    have e : APU.OnTimerOverflow.iter F n 1 (APU.OnTimerOverflow.iter F n 0 a)
        = APU.OnTimerOverflow.body F 1 (APU.OnTimerOverflow.iter F n 0 a) := by
      rw [APU.OnTimerOverflow.iter_eq F n 1 (APU.OnTimerOverflow.iter F n 0 a), if_pos hlink1]
    rw [e]
    obtain ⟨c1, c2, c3⟩ := APU.OnTimerOverflow.body_congr F 1
      (APU.OnTimerOverflow.iter F n 0 a) a f2 f3
    exact ⟨by rw [(APU.OnTimerOverflow.body_frame F 1 0 _ (by decide)).1, f1], c1, c2, c3⟩

/-- The DMA requests of a call of `OnTimerOverflow` with master sound enabled:
one for each FIFO that is linked to the timer and holds at most 3 words. -/
theorem APU.OnTimerOverflow_dma_requests {φ : Type} (F : FIFODecl φ) (n times : Int)
    (a : APU φ) (hen : a.soundcnt.master_enable = true) :
    (APU.OnTimerOverflow F n times a).dma_requests
      = a.dma_requests
        ++ (if (a.soundcnt.dma 0).timer_id = n ∧ F.Count (a.fifo 0) ≤ 3
            then [Occasion.FIFO0] else [])
        ++ (if (a.soundcnt.dma 1).timer_id = n ∧ F.Count (a.fifo 1) ≤ 3
            then [Occasion.FIFO1] else []) := by
  obtain ⟨f1, f2, _, _⟩ := APU.OnTimerOverflow.iter_frame F n 0 1 a (by decide)
  unfold APU.OnTimerOverflow
  rw [if_neg (by simp [hen])]
  have s1 : (APU.OnTimerOverflow.iter F n 1 (APU.OnTimerOverflow.iter F n 0 a)).dma_requests
      = (APU.OnTimerOverflow.iter F n 0 a).dma_requests
        ++ (if (a.soundcnt.dma 1).timer_id = n ∧ F.Count (a.fifo 1) ≤ 3
            then [Occasion.FIFO1] else []) := by
    rw [APU.OnTimerOverflow.iter_eq F n 1 (APU.OnTimerOverflow.iter F n 0 a), f1]
    by_cases h1 : (a.soundcnt.dma 1).timer_id = n
    · rw [if_pos h1, APU.OnTimerOverflow.body_dma_requests, f2]
      by_cases c : F.Count (a.fifo 1) ≤ 3 <;> simp [h1, c, occasion]
    · rw [if_neg h1]; simp [h1]
  have s0 : (APU.OnTimerOverflow.iter F n 0 a).dma_requests
      = a.dma_requests
        ++ (if (a.soundcnt.dma 0).timer_id = n ∧ F.Count (a.fifo 0) ≤ 3
            then [Occasion.FIFO0] else []) := by
    unfold APU.OnTimerOverflow.iter
    by_cases h0 : (a.soundcnt.dma 0).timer_id = n
    · rw [if_pos h0, APU.OnTimerOverflow.body_dma_requests]
      by_cases c : F.Count (a.fifo 0) ≤ 3 <;> simp [h0, c, occasion]
    · rw [if_neg h0]; simp [h0]
  rw [s1, s0]

/-- C15 (as stated, refuted): FIFO 0 of `demoAPU` is linked to timer 0, master
sound is enabled and the FIFO holds 4 words, so its count is <= 4; the call
`OnTimerOverflow(0, 1)` requests no DMA refill. -/
theorem APU.fifo_dma_refill_counterexample :
    (demoAPU [1, 2, 3, 4]).soundcnt.master_enable = true ∧
    ((demoAPU [1, 2, 3, 4]).soundcnt.dma 0).timer_id = 0 ∧
    listFIFO.Count ((demoAPU [1, 2, 3, 4]).fifo 0) ≤ 4 ∧
    (demoAPU [1, 2, 3, 4]).dma_requests = [] ∧
    Occasion.FIFO0 ∉ (APU.OnTimerOverflow listFIFO 0 1 (demoAPU [1, 2, 3, 4])).dma_requests := by
  refine ⟨rfl, rfl, by decide, rfl, ?_⟩
  rw [APU.OnTimerOverflow_dma_requests listFIFO 0 1 _ rfl]
  decide

/-- C15 (amended): for every call OnTimerOverflow(n, times) with master sound
enabled and FIFO `i` linked to timer n, the call adds to the DMA requests
exactly one refill request for that FIFO (occasion FIFO0 / FIFO1) when its
count is <= 3, and none for it otherwise. -/
theorem APU.fifo_dma_refill {φ : Type} (F : FIFODecl φ) (n times : Int) (a : APU φ)
    (i : Nat) (hi : i < 2) (hen : a.soundcnt.master_enable = true)
    (hlink : (a.soundcnt.dma i).timer_id = n) :
    ∃ new, (APU.OnTimerOverflow F n times a).dma_requests = a.dma_requests ++ new ∧
      new.count (occasion i) = if F.Count (a.fifo i) ≤ 3 then 1 else 0 := by
  have hi2 : i = 0 ∨ i = 1 := by omega
  refine ⟨_, by rw [APU.OnTimerOverflow_dma_requests F n times a hen, List.append_assoc], ?_⟩
  rcases hi2 with rfl | rfl
  · by_cases c : F.Count (a.fifo 0) ≤ 3 <;>
      by_cases h1 : (a.soundcnt.dma 1).timer_id = n ∧ F.Count (a.fifo 1) ≤ 3 <;>
      simp [hlink, c, h1, occasion]
  · by_cases c : F.Count (a.fifo 1) ≤ 3 <;>
      by_cases h0 : (a.soundcnt.dma 0).timer_id = n ∧ F.Count (a.fifo 0) ≤ 3 <;>
      simp [hlink, c, h0, occasion]

/-- Witness for C15 (amended): FIFO 0 of `demoAPU` with 3 words queued. -/
theorem APU.fifo_dma_refill_witness :
    ∃ new, (APU.OnTimerOverflow listFIFO 0 1 (demoAPU [1, 2, 3])).dma_requests
        = (demoAPU [1, 2, 3]).dma_requests ++ new ∧
      new.count (occasion 0)
        = if listFIFO.Count ((demoAPU [1, 2, 3]).fifo 0) ≤ 3 then 1 else 0 :=
  APU.fifo_dma_refill listFIFO 0 1 (demoAPU [1, 2, 3]) 0 (by decide) rfl rfl

theorem toS8_byte (x b : Nat) (h : x % 256 = b) : toS8 x = toS8 b := by
  have hb : b % 256 = b := by rw [← h, Nat.mod_mod]
  unfold toS8
  rw [h, hb]

/-- A call of `OnTimerOverflow` for a linked FIFO whose pipe is empty while the
FIFO holds a word. -/
theorem APU.OnTimerOverflow_load {φ : Type} (F : FIFODecl φ) (n times : Int) (a : APU φ)
    (i : Nat) (hi : i < 2) (hen : a.soundcnt.master_enable = true)
    (hlink : (a.soundcnt.dma i).timer_id = n)
    (hsize : (a.fifo_pipe i).size = 0) (hcount : F.Count (a.fifo i) > 0) :
    (APU.OnTimerOverflow F n times a).soundcnt = a.soundcnt ∧
    (APU.OnTimerOverflow F n times a).fifo_pipe i
      = { word := ((F.ReadWord (a.fifo i)).1 % 2 ^ 32) >>> 8, size := 3 } ∧
    (APU.OnTimerOverflow F n times a).latch i = toS8 ((F.ReadWord (a.fifo i)).1 % 2 ^ 32) := by
  obtain ⟨l1, _, l3, l4⟩ := APU.OnTimerOverflow_linked F n times a i hi hen hlink
  obtain ⟨_, b2, b3⟩ := APU.OnTimerOverflow.body_load F i a hsize hcount
  exact ⟨l1, l3.trans b2, l4.trans b3⟩

/-- A call of `OnTimerOverflow` for a linked FIFO whose pipe holds bytes. -/
theorem APU.OnTimerOverflow_drain {φ : Type} (F : FIFODecl φ) (n times : Int) (a : APU φ)
    (i : Nat) (hi : i < 2) (hen : a.soundcnt.master_enable = true)
    (hlink : (a.soundcnt.dma i).timer_id = n)
    (hsize : (a.fifo_pipe i).size > 0) :
    (APU.OnTimerOverflow F n times a).soundcnt = a.soundcnt ∧
    (APU.OnTimerOverflow F n times a).fifo_pipe i
      = { word := (a.fifo_pipe i).word >>> 8, size := (a.fifo_pipe i).size - 1 } ∧
    (APU.OnTimerOverflow F n times a).latch i = toS8 (a.fifo_pipe i).word := by
  obtain ⟨l1, _, l3, l4⟩ := APU.OnTimerOverflow_linked F n times a i hi hen hlink
  obtain ⟨_, b2, b3⟩ := APU.OnTimerOverflow.body_drain F i a hsize
  exact ⟨l1, l3.trans b2, l4.trans b3⟩

/-- C16: FIFO latch order.  With master sound enabled, FIFO `i` linked to timer
n, its pipe empty and a word queued whose bytes are b0, b1, b2, b3 (b0 least
significant), the first, second, third and fourth following call of
OnTimerOverflow for timer n set `latch[i]` to b0, b1, b2 and b3, each read as a
signed 8-bit value. -/
theorem APU.fifo_latch_order {φ : Type} (F : FIFODecl φ) (n t1 t2 t3 t4 : Int) (a : APU φ)
    (i : Nat) (b0 b1 b2 b3 : Nat)
    (hi : i < 2) (hen : a.soundcnt.master_enable = true)
    (hlink : (a.soundcnt.dma i).timer_id = n)
    (hsize : (a.fifo_pipe i).size = 0) (hcount : F.Count (a.fifo i) > 0)
    (h0 : b0 < 256) (h1 : b1 < 256) (h2 : b2 < 256) (h3 : b3 < 256)
    (hword : (F.ReadWord (a.fifo i)).1 = b0 + 256 * b1 + 65536 * b2 + 16777216 * b3) :
    (APU.OnTimerOverflow F n t1 a).latch i = toS8 b0 ∧
    (APU.OnTimerOverflow F n t2 (APU.OnTimerOverflow F n t1 a)).latch i = toS8 b1 ∧
    (APU.OnTimerOverflow F n t3 (APU.OnTimerOverflow F n t2
      (APU.OnTimerOverflow F n t1 a))).latch i = toS8 b2 ∧
    (APU.OnTimerOverflow F n t4 (APU.OnTimerOverflow F n t3 (APU.OnTimerOverflow F n t2
      (APU.OnTimerOverflow F n t1 a)))).latch i = toS8 b3 := by
  obtain ⟨c1, p1, l1⟩ := APU.OnTimerOverflow_load F n t1 a i hi hen hlink hsize hcount
  rw [hword] at p1 l1
  obtain ⟨c2, p2, l2⟩ := APU.OnTimerOverflow_drain F n t2 _ i hi (by rw [c1]; exact hen)
    (by rw [c1]; exact hlink) (by rw [p1]; simp)
  rw [p1] at p2 l2
  obtain ⟨c3, p3, l3⟩ := APU.OnTimerOverflow_drain F n t3 _ i hi
    (by rw [c2, c1]; exact hen) (by rw [c2, c1]; exact hlink) (by rw [p2]; simp)
  rw [p2] at p3 l3
  obtain ⟨_, _, l4⟩ := APU.OnTimerOverflow_drain F n t4 _ i hi
    (by rw [c3, c2, c1]; exact hen) (by rw [c3, c2, c1]; exact hlink) (by rw [p3]; simp)
  rw [p3] at l4
  simp only [Nat.shiftRight_eq_div_pow] at l2 l3 l4
  refine ⟨l1.trans (toS8_byte _ _ ?_), l2.trans (toS8_byte _ _ ?_),
    l3.trans (toS8_byte _ _ ?_), l4.trans (toS8_byte _ _ ?_)⟩ <;> omega

/-- Witness for C16: the bytes 0x01, 0x02, 0x03, 0x04 queued in FIFO 0 of
`demoAPU` give latch[0] = 1, 2, 3, 4 after the first four overflows of timer 0. -/
theorem APU.fifo_latch_order_witness :
    (APU.OnTimerOverflow listFIFO 0 1 (demoAPU [0x04030201])).latch 0 = 1 ∧
    (APU.OnTimerOverflow listFIFO 0 1
      (APU.OnTimerOverflow listFIFO 0 1 (demoAPU [0x04030201]))).latch 0 = 2 ∧
    (APU.OnTimerOverflow listFIFO 0 1 (APU.OnTimerOverflow listFIFO 0 1
      (APU.OnTimerOverflow listFIFO 0 1 (demoAPU [0x04030201])))).latch 0 = 3 ∧
    (APU.OnTimerOverflow listFIFO 0 1 (APU.OnTimerOverflow listFIFO 0 1
      (APU.OnTimerOverflow listFIFO 0 1
        (APU.OnTimerOverflow listFIFO 0 1 (demoAPU [0x04030201]))))).latch 0 = 4 :=
  APU.fifo_latch_order listFIFO 0 1 1 1 1 (demoAPU [0x04030201]) 0 1 2 3 4
    (by decide) rfl rfl rfl (by decide) (by decide) (by decide) (by decide) (by decide) rfl

/-- C17 (as stated, refuted): FIFO 0 of `demoAPU` holds the bytes 1, 2, 3, 4.
After the single call OnTimerOverflow(0, 2) the latch holds 1 and the pipe
holds 3 bytes; after two successive calls OnTimerOverflow(0, 1) the latch holds
2 and the pipe holds 2 bytes. -/
theorem APU.overflow_times_counterexample :
    (APU.OnTimerOverflow listFIFO 0 2 (demoAPU [0x04030201])).latch 0 = 1 ∧
    ((APU.OnTimerOverflow listFIFO 0 2 (demoAPU [0x04030201])).fifo_pipe 0).size = 3 ∧
    (APU.OnTimerOverflow listFIFO 0 1
      (APU.OnTimerOverflow listFIFO 0 1 (demoAPU [0x04030201]))).latch 0 = 2 ∧
    ((APU.OnTimerOverflow listFIFO 0 1
      (APU.OnTimerOverflow listFIFO 0 1 (demoAPU [0x04030201]))).fifo_pipe 0).size = 2 := by
  decide

/-- C17 (amended): for every APU state, timer id n and value of `times`,
OnTimerOverflow(n, times) has the same effect on the FIFOs, pipes, latches and
DMA requests as one call OnTimerOverflow(n, 1): the overflow multiplicity
passed in `times` is not propagated to the sound FIFOs. -/
theorem APU.overflow_times_ignored {φ : Type} (F : FIFODecl φ) (n times : Int) (a : APU φ) :
    APU.OnTimerOverflow F n times a = APU.OnTimerOverflow F n 1 a := rfl

/-! ### APU: mixer -/

theorem wrap16_eq (x : Int) (h1 : -32768 ≤ x) (h2 : x ≤ 32767) : wrap16 x = x := by
  unfold wrap16
  omega

theorem APU.StepMixer.psg_sample_eq {φ : Type} (a : APU φ) (channel : Nat)
    (hpsg : ∀ i < 4, -128 ≤ a.psg_sample i ∧ a.psg_sample i ≤ 127) :
    APU.StepMixer.psg_sample a channel = APU.specPsgSum a channel ∧
    -512 ≤ APU.specPsgSum a channel ∧ APU.specPsgSum a channel ≤ 508 := by
  have p0 := hpsg 0 (by decide)
  have p1 := hpsg 1 (by decide)
  have p2 := hpsg 2 (by decide)
  have p3 := hpsg 3 (by decide)
  unfold APU.StepMixer.psg_sample APU.specPsgSum wrap16
  simp only []
  by_cases e0 : a.soundcnt.psg.enable channel 0 = true <;>
    by_cases e1 : a.soundcnt.psg.enable channel 1 = true <;>
    by_cases e2 : a.soundcnt.psg.enable channel 2 = true <;>
    by_cases e3 : a.soundcnt.psg.enable channel 3 = true <;>
    simp only [e0, e1, e2, e3, if_true, if_false, Bool.false_eq_true] <;>
    omega

theorem shiftRight5_bounds (q : Int) (h1 : -16384 ≤ q) (h2 : q ≤ 16256) :
    -512 ≤ q >>> (5 : Nat) ∧ q >>> (5 : Nat) ≤ 508 := by
  have e : ((2 ^ 5 : Nat) : Int) = 32 := by norm_num
  rw [Int.shiftRight_eq_div_pow, e]
  omega

theorem APU.specPsgTerm_bounds {φ : Type} (a : APU φ) (channel : Nat)
    (hvol : a.soundcnt.psg.volume ≤ 3)
    (hmaster : 0 ≤ a.soundcnt.psg.master channel ∧ a.soundcnt.psg.master channel ≤ 7)
    (hpsg : ∀ i < 4, -128 ≤ a.psg_sample i ∧ a.psg_sample i ≤ 127) :
    -512 ≤ APU.specPsgTerm a channel ∧ APU.specPsgTerm a channel ≤ 508 := by
  obtain ⟨_, l, u⟩ := APU.StepMixer.psg_sample_eq a channel hpsg
  obtain ⟨m0, m7⟩ := hmaster
  unfold APU.specPsgTerm
  generalize APU.specPsgSum a channel = p at l u
  generalize a.soundcnt.psg.master channel = m at m0 m7
  generalize a.soundcnt.psg.volume = v at hvol
  apply shiftRight5_bounds <;>
    interval_cases v <;> interval_cases m <;> norm_num <;> omega

theorem psg_volume_tab_eq (v : Nat) (hv : v ≤ 3) :
    psg_volume_tab v = some (if v = 0 then 1 else if v = 1 then 2 else if v = 2 then 4 else 0) := by
  interval_cases v <;> rfl

theorem APU.specFifoTerm_bounds {φ : Type} (a : APU φ) (channel fifo : Nat)
    (hlatch : -128 ≤ a.latch fifo ∧ a.latch fifo ≤ 127) :
    -512 ≤ APU.specFifoTerm a channel fifo ∧ APU.specFifoTerm a channel fifo ≤ 508 := by
  unfold APU.specFifoTerm
  split
  · split <;> omega
  · omega

theorem APU.StepMixer.fifo_eq {φ : Type} (a : APU φ) (channel fifo : Nat) (sample : Int)
    (hdv : (a.soundcnt.dma fifo).volume ≤ 1)
    (hlatch : -128 ≤ a.latch fifo ∧ a.latch fifo ≤ 127)
    (h1 : -16384 ≤ sample) (h2 : sample ≤ 16384) :
    APU.StepMixer.fifo a channel fifo sample
      = some (sample + APU.specFifoTerm a channel fifo) := by
  unfold APU.StepMixer.fifo APU.specFifoTerm
  generalize (a.soundcnt.dma fifo).volume = v at hdv
  by_cases e : (a.soundcnt.dma fifo).enable channel = true
  · have w2 := wrap16_eq (sample + a.latch fifo * 2) (by omega) (by omega)
    have w4 := wrap16_eq (sample + a.latch fifo * 4) (by omega) (by omega)
    interval_cases v <;> simp [e, dma_volume_tab, w2, w4]
  · simp [e]

theorem clamp_bounds (v : Int) : 0 ≤ clamp v 0 0x3FF ∧ clamp v 0 0x3FF ≤ 0x3FF := by
  unfold clamp
  split
  · decide
  · split <;> omega

/-- The value of `sample[channel]` after the loop body of the integer path, for
register values in their ranges. -/
theorem APU.StepMixer.channel_eq {φ : Type} (a : APU φ) (channel : Nat)
    (hvol : a.soundcnt.psg.volume ≤ 3)
    (hmaster : 0 ≤ a.soundcnt.psg.master channel ∧ a.soundcnt.psg.master channel ≤ 7)
    (hdv : ∀ f < 2, (a.soundcnt.dma f).volume ≤ 1)
    (hbias : 0 ≤ a.bias.level ∧ a.bias.level ≤ 0x3FF)
    (hpsg : ∀ i < 4, -128 ≤ a.psg_sample i ∧ a.psg_sample i ≤ 127)
    (hlatch : ∀ f < 2, -128 ≤ a.latch f ∧ a.latch f ≤ 127) :
    APU.StepMixer.channel a channel
      = some (clamp (APU.specMixerSum a channel) 0 0x3FF - 0x200) ∧
    -1536 ≤ APU.specMixerSum a channel ∧ APU.specMixerSum a channel ≤ 2547 := by
  obtain ⟨ep, _, _⟩ := APU.StepMixer.psg_sample_eq a channel hpsg
  obtain ⟨t1, t2⟩ := APU.specPsgTerm_bounds a channel hvol hmaster hpsg
  obtain ⟨a1, a2⟩ := APU.specFifoTerm_bounds a channel 0 (hlatch 0 (by decide))
  obtain ⟨b1, b2⟩ := APU.specFifoTerm_bounds a channel 1 (hlatch 1 (by decide))
  obtain ⟨c1, c2⟩ := clamp_bounds (APU.specMixerSum a channel)
  have e0 : wrap16 (0 + ((APU.StepMixer.psg_sample a channel
      * (if a.soundcnt.psg.volume = 0 then 1 else if a.soundcnt.psg.volume = 1 then 2
          else if a.soundcnt.psg.volume = 2 then 4 else 0)
      * (a.soundcnt.psg.master channel + 1)) >>> (5 : Nat))) = APU.specPsgTerm a channel := by
    rw [ep, Int.zero_add]
    exact wrap16_eq (APU.specPsgTerm a channel) (by omega) (by omega)
  have e1 := APU.StepMixer.fifo_eq a channel 0 (APU.specPsgTerm a channel)
    (hdv 0 (by decide)) (hlatch 0 (by decide)) (by omega) (by omega)
  have e2 := APU.StepMixer.fifo_eq a channel 1
    (APU.specPsgTerm a channel + APU.specFifoTerm a channel 0)
    (hdv 1 (by decide)) (hlatch 1 (by decide)) (by omega) (by omega)
  have e3 : wrap16 (APU.specPsgTerm a channel + APU.specFifoTerm a channel 0
      + APU.specFifoTerm a channel 1 + a.bias.level) = APU.specMixerSum a channel :=
    wrap16_eq _ (by omega) (by omega)
  have e4 : wrap16 (clamp (APU.specMixerSum a channel) 0 0x3FF - 0x200)
      = clamp (APU.specMixerSum a channel) 0 0x3FF - 0x200 :=
    wrap16_eq _ (by omega) (by omega)
  refine ⟨?_, by unfold APU.specMixerSum; omega, by unfold APU.specMixerSum; omega⟩
  unfold APU.StepMixer.channel
  rw [psg_volume_tab_eq _ hvol]
  simp only []
  rw [e0, e1]
  simp only []
  rw [e2]
  simp only []
  rw [e3, e4]

/-- C18: mixer output range on the integer path with master sound enabled.  For
all register values in their ranges (PSG volume tier 0..3, master volumes 0..7,
FIFO volume tiers 0..1, BIAS level 0..0x3FF, signed 8-bit PSG samples and
latches) the stereo sample handed to the resampler is, on each channel,
clamp(sum, 0, 0x3FF) - 0x200 for the unwrapped per-channel sum of the spec, the
terms of that sum and the sum itself stay far inside the 16-bit range, and the
sample lies in [-512, 511]. -/
theorem APU.mixer_output_range {φ : Type} (a : APU φ)
    (hen : a.soundcnt.master_enable = true)
    (hvol : a.soundcnt.psg.volume ≤ 3)
    (hmaster : ∀ c < 2, 0 ≤ a.soundcnt.psg.master c ∧ a.soundcnt.psg.master c ≤ 7)
    (hdv : ∀ f < 2, (a.soundcnt.dma f).volume ≤ 1)
    (hbias : 0 ≤ a.bias.level ∧ a.bias.level ≤ 0x3FF)
    (hpsg : ∀ i < 4, -128 ≤ a.psg_sample i ∧ a.psg_sample i ≤ 127)
    (hlatch : ∀ f < 2, -128 ≤ a.latch f ∧ a.latch f ≤ 127) :
    APU.StepMixer.sample a
      = some (clamp (APU.specMixerSum a 0) 0 0x3FF - 0x200,
              clamp (APU.specMixerSum a 1) 0 0x3FF - 0x200) ∧
    ∀ c < 2,
      (-512 ≤ APU.specPsgSum a c ∧ APU.specPsgSum a c ≤ 508) ∧
      (-512 ≤ APU.specPsgTerm a c ∧ APU.specPsgTerm a c ≤ 508) ∧
      (∀ f < 2, -512 ≤ APU.specFifoTerm a c f ∧ APU.specFifoTerm a c f ≤ 508) ∧
      (-1536 ≤ APU.specMixerSum a c ∧ APU.specMixerSum a c ≤ 2547) ∧
      -512 ≤ clamp (APU.specMixerSum a c) 0 0x3FF - 0x200 ∧
      clamp (APU.specMixerSum a c) 0 0x3FF - 0x200 ≤ 511 := by
  constructor
  · obtain ⟨l, _⟩ := APU.StepMixer.channel_eq a 0 hvol (hmaster 0 (by decide)) hdv hbias
      hpsg hlatch
    obtain ⟨r, _⟩ := APU.StepMixer.channel_eq a 1 hvol (hmaster 1 (by decide)) hdv hbias
      hpsg hlatch
    unfold APU.StepMixer.sample
    rw [l, r]
    simp [hen]
  · intro c hc
    obtain ⟨_, s1, s2⟩ := APU.StepMixer.psg_sample_eq a c hpsg
    obtain ⟨_, m1, m2⟩ := APU.StepMixer.channel_eq a c hvol (hmaster c hc) hdv hbias
      hpsg hlatch
    obtain ⟨c1, c2⟩ := clamp_bounds (APU.specMixerSum a c)
    exact ⟨⟨s1, s2⟩, APU.specPsgTerm_bounds a c hvol (hmaster c hc) hpsg,
      fun f hf => APU.specFifoTerm_bounds a c f (hlatch f hf), ⟨m1, m2⟩,
      by omega, by omega⟩

/-- Witness for C18: `demoAPU` with both latches 127 and all PSG samples 100.
The sum is 400 + 508 + 508 + 512 = 1928 on both channels and the sample is
clamp(1928, 0, 0x3FF) - 0x200 = 511. -/
theorem APU.mixer_output_range_witness :
    APU.StepMixer.sample
        { demoAPU [] with latch := fun _ => 127, psg_sample := fun _ => 100 }
      = some (511, 511) :=
  (APU.mixer_output_range
    { demoAPU [] with latch := fun _ => 127, psg_sample := fun _ => 100 }
    rfl (by decide) (by decide) (by decide) (by decide) (by decide) (by decide)).1

/-- The delay `I - (now & (I - 1))` for a power of two `I`: it lies in `1..I`
and `now + d` is the next multiple of `I` after `now`. -/
theorem grid_next (j now : Nat) :
    1 ≤ 2 ^ j - (now &&& (2 ^ j - 1)) ∧
    2 ^ j - (now &&& (2 ^ j - 1)) ≤ 2 ^ j ∧
    2 ^ j ∣ now + (2 ^ j - (now &&& (2 ^ j - 1))) ∧
    ∀ m, now < m → 2 ^ j ∣ m → now + (2 ^ j - (now &&& (2 ^ j - 1))) ≤ m := by
  have hpos : 0 < 2 ^ j := Nat.two_pow_pos j
  rw [Nat.and_pow_two_sub_one_eq_mod]
  have hlt : now % 2 ^ j < 2 ^ j := Nat.mod_lt _ hpos
  have hdm : 2 ^ j * (now / 2 ^ j) + now % 2 ^ j = now := Nat.div_add_mod now (2 ^ j)
  have hsum : now + (2 ^ j - now % 2 ^ j) = 2 ^ j * (now / 2 ^ j + 1) := by
    rw [Nat.mul_add, Nat.mul_one]
    omega
  refine ⟨by omega, by omega, ?_, ?_⟩
  · rw [hsum]
    exact Nat.dvd_mul_right _ _
  · intro m hm hdvd
    obtain ⟨k, rfl⟩ := hdvd
    rw [hsum]
    apply Nat.mul_le_mul_left
    have h1 : 2 ^ j * (now / 2 ^ j) < 2 ^ j * k := by omega
    have h2 := Nat.lt_of_mul_lt_mul_left h1
    omega

/-- C19: mixer grid alignment.  For every clock value `now` and every power of
two `2 ^ j` as the BIAS sample interval, with I = 256 when the HLE mixer is
engaged and I = `2 ^ j` otherwise, StepMixer reschedules the mixer event
d = I - (now AND (I - 1)) cycles later, 1 <= d <= I, and now + d is the
smallest multiple of I strictly greater than now. -/
theorem APU.mixer_grid_alignment (engaged : Bool) (j now : Nat) :
    ∃ d I : Nat, I = (if engaged = true then 256 else 2 ^ j) ∧
      APU.StepMixer.cycles engaged (2 ^ j) now = (d : Int) ∧
      d = I - (now &&& (I - 1)) ∧
      1 ≤ d ∧ d ≤ I ∧
      I ∣ now + d ∧
      ∀ m, now < m → I ∣ m → now + d ≤ m := by
  cases engaged
  · obtain ⟨g1, g2, g3, g4⟩ := grid_next j now
    refine ⟨2 ^ j - (now &&& (2 ^ j - 1)), 2 ^ j, by simp, ?_, rfl, g1, g2, g3, g4⟩
    unfold APU.StepMixer.cycles
    have hle : now &&& (2 ^ j - 1) ≤ 2 ^ j := by omega
    simp only [Bool.false_eq_true, if_false]
    omega
  · have g : 1 ≤ 256 - (now &&& 255) ∧ 256 - (now &&& 255) ≤ 256 ∧
        256 ∣ now + (256 - (now &&& 255)) ∧
        ∀ m, now < m → 256 ∣ m → now + (256 - (now &&& 255)) ≤ m := grid_next 8 now
    obtain ⟨g1, g2, g3, g4⟩ := g
    refine ⟨256 - (now &&& 255), 256, by simp, ?_, rfl, g1, g2, g3, g4⟩
    unfold APU.StepMixer.cycles
    simp only [if_true]
    omega

/-! ### Core::Run: the HLE hook -/

theorem Core.haltLoop_hook_free {ρ : Type} (hw : Components ρ) (f : Core ρ → Core ρ)
    (limit fuel : Nat) (s : Core ρ) :
    Core.haltLoop { hw with SoundMainRAM := f } limit fuel s = Core.haltLoop hw limit fuel s := by
  induction fuel generalizing s with
  | zero => rfl
  | succ k ih =>
    unfold Core.haltLoop
    split
    · exact ih _
    · rfl

/-- C20 (as stated, refuted): the core `hookCore` is not halted and its r15
equals hle_audio_hook, yet with a null sound-info pointer `Core::Run(1)`
executes one CPU step and returns without any call of SoundMainRAM. -/
theorem Core.hle_hook_counterexample :
    hookCore.haltcnt = HaltControl.Run ∧
    hookCore.cpu.r15 = hookCore.hle_audio_hook ∧
    (Core.Run (hookComponents false) 2 1 hookCore).map (fun t => (t.timestamp_now, t.rest))
      = some (3, 0) := by
  decide

/-- C20 (amended): within Core.Run the HLE mixer ingestion (MP2K SoundMainRAM)
is invoked exactly when the core is not halted, the CPU's r15 equals
hle_audio_hook and the sound-info pointer is not null, once before each such
CPU.Run step, and never otherwise.  For a state that passes the loop condition:
if the core is not halted, the iteration runs `cpu.Run()` on the state after
SoundMainRAM when r15 is at the hook and the pointer is valid, and on the state
itself otherwise; if the core is halted, the iteration is the same whatever
SoundMainRAM is replaced with. -/
theorem Core.hle_hook_guarded {ρ : Type} (hw : Components ρ) (limit fuel : Nat) (s : Core ρ)
    (hnow : s.timestamp_now < limit) :
    (s.haltcnt = HaltControl.Run →
      Core.RunLoop hw limit (fuel + 1) s
        = Core.RunLoop hw limit fuel
            (hw.cpu_Run
              (if s.cpu.r15 = s.hle_audio_hook ∧ hw.sound_info_valid s = true
               then hw.SoundMainRAM s else s))) ∧
    (s.haltcnt ≠ HaltControl.Run → ∀ f : Core ρ → Core ρ,
      Core.RunLoop hw limit (fuel + 1) s
        = (Core.haltLoop { hw with SoundMainRAM := f } limit fuel s).bind
            (fun s1 => Core.RunLoop hw limit fuel
              (Core.wake { hw with SoundMainRAM := f } s1))) := by
  constructor
  · intro hrun
    conv => lhs; unfold Core.RunLoop
    rw [if_pos hnow, if_pos hrun]
    unfold Core.runCPU
    by_cases h1 : s.cpu.r15 = s.hle_audio_hook <;>
      by_cases h2 : hw.sound_info_valid s = true <;> simp [h1, h2]
  · intro hhalt f
    conv => lhs; unfold Core.RunLoop
    rw [if_pos hnow, if_neg hhalt, Core.haltLoop_hook_free hw f limit fuel s]
    cases Core.haltLoop hw limit fuel s <;> rfl

/-- Witness for C20 (amended): from `hookCore` with a valid sound-info pointer,
`Core::Run(9)` executes three CPU steps, the first of them at the hook address,
and SoundMainRAM has been called once. -/
theorem Core.hle_hook_guarded_witness :
    Core.RunLoop (hookComponents true) 9 (3 + 1) hookCore
      = Core.RunLoop (hookComponents true) 9 3
          ((hookComponents true).cpu_Run
            (if hookCore.cpu.r15 = hookCore.hle_audio_hook
                ∧ (hookComponents true).sound_info_valid hookCore = true
             then (hookComponents true).SoundMainRAM hookCore else hookCore)) ∧
    (Core.RunLoop (hookComponents true) 9 (3 + 1) hookCore).map
      (fun t => (t.timestamp_now, t.rest)) = some (9, 1) :=
  ⟨(Core.hle_hook_guarded (hookComponents true) 9 3 hookCore (by decide)).1 rfl, by decide⟩

/-! ### RTC: 12-hour mode, frame of Write, counter bounds -/

/-- C21 (the code departs from the claim): in 12-hour mode `AdjustHour` sets bit
6 on the decimal hour before the BCD conversion.  With the clock at 13:45:07 a
DateTime read puts 0x65 in `buffer[4]` and a Time read puts 0x65 in
`buffer[0]`, where the claim has 0x40 | BCD(1) = 0x41; for every hour 12 + k,
k in 0..11, the byte is BCD(k | 64) and differs from 0x40 | BCD(k). -/
theorem RTC.adjust_hour_pm_divergence :
    (RTC.ReadRegister demoDecl demoTime
      { demoRTC with reg := demoDecl.DateTime,
                     control := { demoRTC.control with mode_24h := false } }).buffer 4 = 0x65 ∧
    (RTC.ReadRegister demoDecl demoTime
      { demoRTC with reg := demoDecl.Time,
                     control := { demoRTC.control with mode_24h := false } }).buffer 0 = 0x65 ∧
    0x40 ||| ConvertDecimalToBCD (13 - 12) = 0x41 ∧
    ∀ k : Nat, k < 12 →
      ConvertDecimalToBCD
          (RTC.AdjustHour { demoRTC.control with mode_24h := false } (12 + (k : Int)))
        = ConvertDecimalToBCD ((k ||| 64 : Nat) : Int) ∧
      ConvertDecimalToBCD ((k ||| 64 : Nat) : Int) ≠ 0x40 ||| ConvertDecimalToBCD (k : Int) := by
  refine ⟨by decide, by decide, by decide, ?_⟩
  intro k hk
  interval_cases k <;> decide

/-- C22: RTC transitions only on SCK rising edges with CS high.  For every RTC
state and every Write after which CS is 0, or in which CS was already 1 and
SCK does not go from 0 to 1, the call returns and the protocol state, selected
register, command byte, bit and byte counters, buffer and control register
are unchanged, and no IRQ is raised. -/
theorem RTC.write_without_edge (d : RTCDecl) (time : Tm) (value : Nat) (s : RTC)
    (h : (if s.port_direction d.CS = PortDirection.Out
            then (value >>> d.CS) &&& 1 else s.port.cs) = 0 ∨
         (s.port.cs ≠ 0 ∧
          ¬ (s.port.sck = 0 ∧
             (if s.port_direction d.SCK = PortDirection.Out
                then (value >>> d.SCK) &&& 1 else s.port.sck) ≠ 0))) :
    ∃ t, RTC.Write d time value s = some t ∧
      t.state = s.state ∧ t.reg = s.reg ∧ t.data = s.data ∧
      t.current_bit = s.current_bit ∧ t.current_byte = s.current_byte ∧
      t.buffer = s.buffer ∧ t.control = s.control ∧ t.irq_raised = s.irq_raised := by
  unfold RTC.Write
  by_cases h1 : s.port_direction d.CS = PortDirection.Out <;>
    by_cases h2 : s.port_direction d.SCK = PortDirection.Out <;>
    by_cases h3 : s.port_direction d.SIO = PortDirection.Out <;>
    simp only [h1, h2, h3, if_true, if_false] at h ⊢ <;>
    rcases h with h | ⟨h4, h5⟩ <;>
    first
      | (simp only [h, ne_eq, not_true_eq_false, if_false]
         exact ⟨_, rfl, rfl, rfl, rfl, rfl, rfl, rfl, rfl, rfl⟩)
      | (simp only [h4, h5, ne_eq, if_false]
         split <;> exact ⟨_, rfl, rfl, rfl, rfl, rfl, rfl, rfl, rfl, rfl⟩)

/-- Witness for C22: the selected demo RTC in the middle of a command, and a
write that keeps CS high and SCK low while it changes SIO. -/
theorem RTC.write_without_edge_witness :
    ∃ t, RTC.Write demoDecl demoTime (demoDecl.value 0 1)
        { demoRTCSelected with current_bit := 3, data := 5 } = some t ∧
      t.state = RTCState.Command ∧ t.reg = demoRTCSelected.reg ∧ t.data = 5 ∧
      t.current_bit = 3 ∧ t.current_byte = demoRTCSelected.current_byte ∧
      t.buffer = demoRTCSelected.buffer ∧ t.control = demoRTCSelected.control ∧
      t.irq_raised = demoRTCSelected.irq_raised :=
  RTC.write_without_edge demoDecl demoTime (demoDecl.value 0 1)
    { demoRTCSelected with current_bit := 3, data := 5 } (Or.inr ⟨by decide, by decide⟩)

theorem RTC.startTransfer_index_invariant (d : RTCDecl) (time : Tm) (t : RTC)
    (hargc : ∀ r < 8, d.s_argument_count r ≤ 7) :
    RTC.IndexInvariant d (RTC.startTransfer d time t) := by
  obtain ⟨f1, -, f3, f4, f5, f6, -⟩ := RTC.startTransfer_fields d time t
  have hreg : (t.data >>> 4) &&& 7 < 8 := Nat.lt_succ_of_le Nat.and_le_right
  have h7 := hargc _ hreg
  refine ⟨by rw [f3]; decide, ?_⟩
  intro hst
  rw [f4, f1]
  rcases hst with hst | hst
  · exact ⟨(f5.mp hst).2, h7⟩
  · exact ⟨(f6.mp hst).2, h7⟩

theorem RTC.ReceiveCommandSIO_index_invariant (d : RTCDecl) (time : Tm) (s : RTC)
    (hargc : ∀ r < 8, d.s_argument_count r ≤ 7)
    (hst : s.state = RTCState.Command) (hcb : s.current_bit < 8) :
    RTC.IndexInvariant d (RTC.ReceiveCommandSIO d time s) := by
  by_cases h7 : s.current_bit < 7
  · rw [RTC.ReceiveCommandSIO_shift d time s h7]
    exact ⟨by simp only []; omega, by simp [hst]⟩
  · have h : s.current_bit = 7 := by omega
    rw [RTC.ReceiveCommandSIO_last d time s h]
    split
    · exact RTC.startTransfer_index_invariant d time _ hargc
    · split
      · exact ⟨by simp, by simp [hst]⟩
      · exact RTC.startTransfer_index_invariant d time _ hargc

theorem RTC.ReceiveBufferSIO_index_invariant (d : RTCDecl) (s : RTC)
    (hst : s.state = RTCState.Receiving) (hinv : RTC.IndexInvariant d s) :
    ∃ t, RTC.ReceiveBufferSIO d s = some t ∧ RTC.IndexInvariant d t := by
  obtain ⟨hcb, hb⟩ := hinv
  obtain ⟨hbyte, h7⟩ := hb (Or.inr hst)
  by_cases hlt : s.current_bit < 7
  · rw [RTC.ReceiveBufferSIO_shift d s hbyte hlt]
    exact ⟨_, rfl, by simp only []; omega, fun _ => ⟨hbyte, h7⟩⟩
  · have h : s.current_bit = 7 := by omega
    rw [RTC.ReceiveBufferSIO_last d s hbyte (by omega) h]
    split
    · refine ⟨_, rfl, ?_, ?_⟩
      · simp only []
        rw [(RTC.WriteRegister_frame d _).2.2.2.1]
        simp
      · intro hc
        simp at hc
    · rename_i hne
      exact ⟨_, rfl, by simp, fun _ => ⟨by simp only []; omega, h7⟩⟩

theorem RTC.TransmitBufferSIO_index_invariant (d : RTCDecl) (s : RTC)
    (hst : s.state = RTCState.Sending) (hinv : RTC.IndexInvariant d s) :
    ∃ t, RTC.TransmitBufferSIO d s = some t ∧ RTC.IndexInvariant d t := by
  obtain ⟨hcb, hb⟩ := hinv
  obtain ⟨hbyte, h7⟩ := hb (Or.inl hst)
  have hlt7 : s.current_byte < 7 := by omega
  unfold RTC.TransmitBufferSIO
  simp only [hlt7, if_true]
  by_cases h8 : s.current_bit + 1 = 8
  · simp only [h8, if_true]
    by_cases hlast : s.current_byte + 1 = d.s_argument_count s.reg
    · simp only [hlast, if_true]
      exact ⟨_, rfl, by simp, by simp⟩
    · simp only [hlast, if_false]
      exact ⟨_, rfl, by simp, fun _ => ⟨by simp only []; omega, h7⟩⟩
  · simp only [h8, if_false]
    exact ⟨_, rfl, by simp only []; omega, fun _ => ⟨hbyte, h7⟩⟩

theorem RTC.onClock_index_invariant (d : RTCDecl) (time : Tm) (s : RTC)
    (hargc : ∀ r < 8, d.s_argument_count r ≤ 7) (hinv : RTC.IndexInvariant d s) :
    ∃ t, RTC.onClock d time s = some t ∧ RTC.IndexInvariant d t := by
  unfold RTC.onClock
  split
  · rename_i hst
    exact ⟨_, rfl, RTC.ReceiveCommandSIO_index_invariant d time s hargc hst hinv.1⟩
  · rename_i hst
    exact RTC.ReceiveBufferSIO_index_invariant d s hst hinv
  · rename_i hst
    exact RTC.TransmitBufferSIO_index_invariant d s hst hinv
  · exact ⟨s, rfl, hinv⟩

/-- The counter bounds do not depend on the pins. -/
theorem RTC.IndexInvariant_port (d : RTCDecl) (s : RTC) (p : RTCPort)
    (hinv : RTC.IndexInvariant d s) : RTC.IndexInvariant d { s with port := p } := hinv

theorem RTC.Write_index_invariant (d : RTCDecl) (time : Tm) (value : Nat) (s : RTC)
    (hargc : ∀ r < 8, d.s_argument_count r ≤ 7) (hinv : RTC.IndexInvariant d s) :
    ∃ t, RTC.Write d time value s = some t ∧ RTC.IndexInvariant d t := by
  have hcmd : ∀ p : RTCPort, RTC.IndexInvariant d
      { s with port := p, state := RTCState.Command, current_bit := 0, current_byte := 0 } :=
    fun p => ⟨by simp, by simp⟩
  unfold RTC.Write
  by_cases h1 : s.port_direction d.CS = PortDirection.Out <;>
    by_cases h2 : s.port_direction d.SCK = PortDirection.Out <;>
    by_cases h3 : s.port_direction d.SIO = PortDirection.Out <;>
    simp only [h1, h2, h3, if_true, if_false] <;>
    split_ifs <;>
    first
      | exact RTC.onClock_index_invariant d time _ hargc (RTC.IndexInvariant_port d s _ hinv)
      | exact ⟨_, rfl, RTC.IndexInvariant_port d s _ hinv⟩
      | exact ⟨_, rfl, hcmd _⟩

theorem RTC.writes_index_invariant (d : RTCDecl) (ws : List (Tm × Nat)) (s : RTC)
    (hargc : ∀ r < 8, d.s_argument_count r ≤ 7) (hinv : RTC.IndexInvariant d s) :
    ∃ t, RTC.writes d ws s = some t ∧ RTC.IndexInvariant d t := by
  induction ws generalizing s with
  | nil => exact ⟨s, rfl, hinv⟩
  | cons w ws ih =>
    obtain ⟨t, ht, hit⟩ := RTC.Write_index_invariant d w.1 w.2 s hargc hinv
    obtain ⟨u, hu, hiu⟩ := ih t hit
    exact ⟨u, by rw [RTC.writes, ht, Option.some_bind, hu], hiu⟩

/-- C27: RTC buffer indexing invariant.  Let every argument count of the table
be at most 7.  From `RTC::Reset()` in any prior state, every sequence of Write
calls runs without an access to `buffer` outside its 7 bytes, and in the state
it reaches the bit counter is below 8 and, whenever the state is Sending or
Receiving, the byte counter is below the argument count of the selected
register, which is at most 7. -/
theorem RTC.buffer_index_invariant (d : RTCDecl) (ws : List (Tm × Nat)) (s0 : RTC)
    (hargc : ∀ r < 8, d.s_argument_count r ≤ 7) :
    ∃ t, RTC.writes d ws (RTC.Reset s0) = some t ∧
      t.current_bit < 8 ∧
      (t.state = RTCState.Sending ∨ t.state = RTCState.Receiving →
        t.current_byte < d.s_argument_count t.reg ∧ d.s_argument_count t.reg ≤ 7 ∧
        t.current_byte < 7) := by
  obtain ⟨t, ht, h1, h2⟩ := RTC.writes_index_invariant d ws (RTC.Reset s0) hargc
    ⟨by simp [RTC.Reset], by simp [RTC.Reset]⟩
  refine ⟨t, ht, h1, fun hst => ?_⟩
  obtain ⟨a, b⟩ := h2 hst
  exact ⟨a, b, by omega⟩

/-- Witness for C27: after reset, raising CS and clocking in the command byte
0xA6 (read DateTime) leaves the demo RTC in state Sending with byte counter 0,
below the argument count 7. -/
theorem RTC.buffer_index_invariant_witness :
    (∃ t, RTC.writes demoDecl demoWrites (RTC.Reset demoRTC) = some t ∧
      t.current_bit < 8 ∧
      (t.state = RTCState.Sending ∨ t.state = RTCState.Receiving →
        t.current_byte < demoDecl.s_argument_count t.reg ∧
        demoDecl.s_argument_count t.reg ≤ 7 ∧ t.current_byte < 7)) ∧
    (RTC.writes demoDecl demoWrites (RTC.Reset demoRTC)).map
      (fun t => (t.state, t.reg, t.current_byte)) = some (RTCState.Sending, 2, 0) :=
  ⟨RTC.buffer_index_invariant demoDecl demoWrites demoRTC (by decide), by decide⟩

/-! ### Core::SearchSoundMainRAM: the not-found result and the pointer read -/

theorem Core.SearchSoundMainRAM.loop_not_found (crc32 : List Nat → Nat) (rom : List Nat)
    (address_max : Nat) (h32 : address_max + 2 < 2 ^ 32)
    (hno : ∀ a, a % 2 = 0 → a ≤ address_max → crc32 ((rom.drop a).take 48) ≠ 0x27EA7FCF)
    (n fuel address : Nat) (heven : address % 2 = 0) (haddr : address ≤ address_max + 2)
    (hn : address_max < address + 2 * n) (hfuel : n < fuel) :
    Core.SearchSoundMainRAM.loop crc32 rom address_max fuel address = some 0xFFFFFFFF := by
  induction n generalizing fuel address with
  | zero =>
    obtain ⟨f, rfl⟩ : ∃ f, fuel = f + 1 := ⟨fuel - 1, by omega⟩
    have h1 : ¬ address ≤ address_max := by omega
    rw [Core.SearchSoundMainRAM.loop]
    simp only [h1, if_false]
  | succ n ih =>
    obtain ⟨f, rfl⟩ : ∃ f, fuel = f + 1 := ⟨fuel - 1, by omega⟩
    rw [Core.SearchSoundMainRAM.loop]
    by_cases h1 : address ≤ address_max
    · have h2 := hno address heven h1
      have h3 : (address + 2) % 2 ^ 32 = address + 2 := Nat.mod_eq_of_lt (by omega)
      simp only [h1, if_true, kSoundMainLength, kSoundMainCRC32, h2, if_false, h3]
      exact ih f (address + 2) (by omega) (by omega) (by omega) (by omega)
    · simp only [h1, if_false]

theorem Core.SearchSoundMainRAM.loop_found_mod (crc32 : List Nat → Nat) (rom : List Nat)
    (address_max a : Nat) (ham : a ≤ address_max) (h32 : a < 2 ^ 32)
    (heven : a % 2 = 0)
    (hmatch : crc32 ((rom.drop a).take 48) = 0x27EA7FCF)
    (hlow : ∀ b, b < a → b % 2 = 0 → crc32 ((rom.drop b).take 48) ≠ 0x27EA7FCF)
    (n fuel address : Nat) (hn : address + 2 * n = a) (hfuel : n < fuel) :
    Core.SearchSoundMainRAM.loop crc32 rom address_max fuel address
      = (read_u32 rom ((a + 0x74) % 2 ^ 32)).map adjustSoundMainRAM := by
  induction n generalizing fuel address with
  | zero =>
    have ha : address = a := by omega
    subst ha
    obtain ⟨f, rfl⟩ : ∃ f, fuel = f + 1 := ⟨fuel - 1, by omega⟩
    rw [Core.SearchSoundMainRAM.loop]
    simp only [ham, if_true, kSoundMainLength, kSoundMainCRC32, hmatch]
  | succ n ih =>
    obtain ⟨f, rfl⟩ : ∃ f, fuel = f + 1 := ⟨fuel - 1, by omega⟩
    have h1 : address ≤ address_max := by omega
    have h2 : crc32 ((rom.drop address).take 48) ≠ 0x27EA7FCF :=
      hlow address (by omega) (by omega)
    have h3 : (address + 2) % 2 ^ 32 = address + 2 := Nat.mod_eq_of_lt (by omega)
    rw [Core.SearchSoundMainRAM.loop]
    simp only [h1, if_true, kSoundMainLength, kSoundMainCRC32, h2, if_false, h3]
    exact ih f (address + 2) (by omega) (by omega)

/-- The search on a ROM below 4 GiB whose lowest matching even offset is `a`. -/
theorem Core.SearchSoundMainRAM_found (crc32 : List Nat → Nat) (rom : List Nat) (a : Nat)
    (hsize : rom.length < 2 ^ 32) (h48 : 48 ≤ rom.length) (ha : a ≤ rom.length - 48)
    (heven : a % 2 = 0)
    (hmatch : crc32 ((rom.drop a).take 48) = 0x27EA7FCF)
    (hlow : ∀ b, b < a → b % 2 = 0 → crc32 ((rom.drop b).take 48) ≠ 0x27EA7FCF) :
    Core.SearchSoundMainRAM crc32 rom
      = (read_u32 rom ((a + 0x74) % 2 ^ 32)).map adjustSoundMainRAM := by
  unfold Core.SearchSoundMainRAM
  have hlen : ¬ rom.length < kSoundMainLength := by
    simp only [kSoundMainLength]
    omega
  simp only [hlen, if_false]
  have ham : (rom.length - kSoundMainLength) % 2 ^ 32 = rom.length - 48 := by
    simp only [kSoundMainLength]
    exact Nat.mod_eq_of_lt (by omega)
  rw [ham]
  exact Core.SearchSoundMainRAM.loop_found_mod crc32 rom (rom.length - 48) a ha (by omega)
    heven hmatch hlow (a / 2) ((rom.length - 48) / 2 + 2) 0 (by omega) (by omega)

theorem adjustSoundMainRAM_even (p : Nat) (hp : p < 2 ^ 32) :
    adjustSoundMainRAM p % 2 = 0 ∧ adjustSoundMainRAM p ≠ 0xFFFFFFFF := by
  rw [adjustSoundMainRAM_eq p hp]
  split <;> omega

/-- C25: for a ROM below 4 GiB and every CRC function, `SearchSoundMainRAM()`
returns 0xFFFFFFFF if and only if the ROM is shorter than 48 bytes or no
48-byte window starting at an even offset <= size - 48 has CRC-32 0x27EA7FCF;
the adjusted pointer returned on a match is even for every pointer value, so it
is never 0xFFFFFFFF. -/
theorem Core.search_not_found_iff (crc32 : List Nat → Nat) (rom : List Nat)
    (hsize : rom.length < 2 ^ 32) :
    (Core.SearchSoundMainRAM crc32 rom = some 0xFFFFFFFF ↔
      (rom.length < 48 ∨
        ∀ a, a % 2 = 0 → a ≤ rom.length - 48 →
          crc32 ((rom.drop a).take 48) ≠ 0x27EA7FCF)) ∧
    ∀ p, p < 2 ^ 32 → adjustSoundMainRAM p % 2 = 0 ∧ adjustSoundMainRAM p ≠ 0xFFFFFFFF := by
  refine ⟨⟨fun hres => ?_, fun h => ?_⟩, adjustSoundMainRAM_even⟩
  · by_contra hcon
    rw [not_or] at hcon
    obtain ⟨h48, hex⟩ := hcon
    have hex2 : ∃ a, a % 2 = 0 ∧ a ≤ rom.length - 48 ∧
        crc32 ((rom.drop a).take 48) = 0x27EA7FCF := by
      by_contra hne
      exact hex fun a h1 h2 h3 => hne ⟨a, h1, h2, h3⟩
    have hspec := Nat.find_spec hex2
    have hmin := fun b (hb : b < Nat.find hex2) => Nat.find_min hex2 hb
    generalize Nat.find hex2 = a at hspec hmin
    obtain ⟨s1, s2, s3⟩ := hspec
    rw [Core.SearchSoundMainRAM_found crc32 rom a hsize (by omega) s2 s1 s3
      (fun b hb he hc => hmin b hb ⟨he, by omega, hc⟩)] at hres
    cases hr : read_u32 rom ((a + 0x74) % 2 ^ 32) with
    | none => rw [hr] at hres; exact absurd hres (by simp)
    | some p =>
      rw [hr, Option.map_some', Option.some.injEq] at hres
      exact (adjustSoundMainRAM_even p (read_u32_some rom _ p hr).2).2 hres
  · rcases h with h | h
    · unfold Core.SearchSoundMainRAM
      rw [if_pos (by simp only [kSoundMainLength]; exact h)]
    · by_cases h48 : rom.length < 48
      · unfold Core.SearchSoundMainRAM
        rw [if_pos (by simp only [kSoundMainLength]; exact h48)]
      · unfold Core.SearchSoundMainRAM
        have hlen : ¬ rom.length < kSoundMainLength := by
          simp only [kSoundMainLength]
          exact h48
        have ham : (rom.length - kSoundMainLength) % 2 ^ 32 = rom.length - 48 := by
          simp only [kSoundMainLength]
          exact Nat.mod_eq_of_lt (by omega)
        simp only [hlen, if_false]
        rw [ham]
        exact Core.SearchSoundMainRAM.loop_not_found crc32 rom (rom.length - 48) (by omega) h
          ((rom.length - 48) / 2 + 1) ((rom.length - 48) / 2 + 2) 0 (by decide) (by omega)
          (by omega) (by omega)

theorem zeroROM_window (a : Nat) (ha : a ≤ 0x1000 - 48) :
    ((List.replicate 0x1000 0).drop a).take 48 = List.replicate 48 0 := by
  rw [List.drop_replicate, List.take_replicate]
  congr 1
  omega

/-- Witness for C25: the all-zero ROM of 0x1000 bytes has no matching window and
the search returns 0xFFFFFFFF. -/
theorem Core.search_not_found_iff_witness :
    Core.SearchSoundMainRAM crc32 (List.replicate 0x1000 0) = some 0xFFFFFFFF ∧
    ∀ p, p < 2 ^ 32 → adjustSoundMainRAM p % 2 = 0 ∧ adjustSoundMainRAM p ≠ 0xFFFFFFFF :=
  ⟨(Core.search_not_found_iff crc32 (List.replicate 0x1000 0)
      (by rw [List.length_replicate]; decide)).1.mpr
      (Or.inr fun a _ ha => by
        rw [List.length_replicate] at ha
        rw [zeroROM_window a ha, crc32_zero_window]
        decide),
    (Core.search_not_found_iff crc32 (List.replicate 0x1000 0)
      (by rw [List.length_replicate]; decide)).2⟩

theorem truncatedROM_length : truncatedROM.length = 0x1074 := by
  unfold truncatedROM demoROM
  rw [List.length_take, List.length_append, List.length_replicate]
  have : demoTail.length = 0x78 := by decide
  omega

theorem truncatedROM_window (b : Nat) (hb : b ≤ 0x1000) :
    (truncatedROM.drop b).take 48 = (demoROM.drop b).take 48 := by
  unfold truncatedROM
  rw [List.drop_take, List.take_take]
  congr 1
  omega

set_option maxRecDepth 8000 in
/-- C26 (the code departs from the claim): `truncatedROM` has 0x1074 bytes, the
signature matches at the even offset 0x1000 <= size - 48 and at no lower even
offset, but 0x1000 + 0x78 exceeds the size: the pointer read at 0x1074 leaves
the ROM, `read<u32>` has no bounds check, and the search has no defined
result. -/
theorem Core.search_pointer_read_out_of_bounds :
    truncatedROM.length = 0x1074 ∧
    48 ≤ truncatedROM.length ∧
    0x1000 % 2 = 0 ∧ 0x1000 ≤ truncatedROM.length - 48 ∧
    crc32 ((truncatedROM.drop 0x1000).take 48) = 0x27EA7FCF ∧
    ¬ (0x1000 + 0x78 ≤ truncatedROM.length) ∧
    read_u32 truncatedROM (0x1000 + 0x74) = none ∧
    Core.SearchSoundMainRAM crc32 truncatedROM = none := by
  have hlen := truncatedROM_length
  have hmatch : crc32 ((truncatedROM.drop 0x1000).take 48) = 0x27EA7FCF := by
    rw [truncatedROM_window 0x1000 (Nat.le_refl _), demoROM_drop 0x1000 (Nat.le_refl _)]
    simp [crc32, crc32_byte, crc32_bit, demoTail, demoSignature]
  have hread : read_u32 truncatedROM (0x1000 + 0x74) = none := by
    unfold read_u32
    rw [hlen]
    rfl
  refine ⟨hlen, by omega, by decide, by omega, hmatch, by omega, hread, ?_⟩
  rw [Core.SearchSoundMainRAM_found crc32 truncatedROM 0x1000 (by omega) (by omega)
    (by omega) (by decide) hmatch
    (fun b hb he => by
      rw [truncatedROM_window b (by omega)]
      by_cases hz : b + 48 ≤ 0x1000
      · rw [demoROM_window_zero b hz, crc32_zero_window]
        decide
      · rw [demoROM_drop b (by omega)]
        have e : 0x1000 - b = 2 * ((0x1000 - b) / 2) := by omega
        rw [e]
        exact demoROM_window_overlap ((0x1000 - b) / 2) (by omega))]
  have e : (0x1000 + 0x74) % 2 ^ 32 = 0x1000 + 0x74 := by decide
  rw [e, hread]
  rfl

/-! ### APU: reset and the pipe bounds -/

/-- C23 (the code departs from the claim): `APU::Reset()` empties the pipes and
resets the FIFOs but never assigns `latch`.  After one overflow of timer 0 has
latched the byte 1 from FIFO 0 of `demoAPU`, a reset leaves both FIFOs and both
pipes empty and `latch[0]` still 1; for every prior state the latches after
the reset are the latches before it. -/
theorem APU.reset_keeps_latch :
    (APU.OnTimerOverflow listFIFO 0 1 (demoAPU [0x04030201])).latch 0 = 1 ∧
    (APU.Reset listReset (APU.OnTimerOverflow listFIFO 0 1 (demoAPU [0x04030201]))).latch 0
      = 1 ∧
    (∀ i < 2, listFIFO.Count ((APU.Reset listReset
        (APU.OnTimerOverflow listFIFO 0 1 (demoAPU [0x04030201]))).fifo i) = 0) ∧
    (∀ (φ : Type) (R : APUResetDecl φ) (a : APU φ),
      (APU.Reset R a).latch = a.latch ∧
      ∀ i < 2, (APU.Reset R a).fifo_pipe i = { word := 0, size := 0 } ∧
        (APU.Reset R a).fifo i = R.fifo_Reset (a.fifo i)) := by
  refine ⟨by decide, by decide, by decide, ?_⟩
  intro φ R a
  refine ⟨rfl, fun i hi => ?_⟩
  simp [APU.Reset, hi]

theorem pipe_shift_bound (word : Nat) (size : Int) (h0 : 0 < size) (h4 : size ≤ 4)
    (hw : word < 2 ^ (8 * size.toNat)) :
    word >>> 8 < 2 ^ (8 * (size - 1).toNat) := by
  obtain ⟨k, rfl⟩ := Int.eq_ofNat_of_zero_le (Int.le_of_lt h0)
  have hk : 1 ≤ k ∧ k ≤ 4 := by omega
  obtain ⟨k1, k4⟩ := hk
  rw [Nat.shiftRight_eq_div_pow]
  interval_cases k <;> simp at hw ⊢ <;> omega

/-- The body when the pipe and the FIFO are both empty: the FIFO and the pipe
stay as they are and the low byte of the pipe word goes to the latch. -/
theorem APU.OnTimerOverflow.body_idle {φ : Type} (F : FIFODecl φ) (i : Nat) (a : APU φ)
    (hsize : (a.fifo_pipe i).size = 0) (hcount : ¬ F.Count (a.fifo i) > 0) :
    (APU.OnTimerOverflow.body F i a).fifo i = a.fifo i ∧
    (APU.OnTimerOverflow.body F i a).fifo_pipe i = a.fifo_pipe i ∧
    (APU.OnTimerOverflow.body F i a).latch i = toS8 (a.fifo_pipe i).word := by
  unfold APU.OnTimerOverflow.body
  simp only []
  refine ⟨?_, ?_, ?_⟩ <;> (repeat' split) <;> simp_all [setAt]

/-- The bounds of one pipe after the loop body for its FIFO. -/
theorem APU.OnTimerOverflow.body_pipe_bounds {φ : Type} (F : FIFODecl φ) (i : Nat)
    (a : APU φ)
    (h : 0 ≤ (a.fifo_pipe i).size ∧ (a.fifo_pipe i).size ≤ 4 ∧
      (a.fifo_pipe i).word < 2 ^ (8 * (a.fifo_pipe i).size.toNat)) :
    0 ≤ ((APU.OnTimerOverflow.body F i a).fifo_pipe i).size ∧
    ((APU.OnTimerOverflow.body F i a).fifo_pipe i).size ≤ 4 ∧
    ((APU.OnTimerOverflow.body F i a).fifo_pipe i).word
      < 2 ^ (8 * ((APU.OnTimerOverflow.body F i a).fifo_pipe i).size.toNat) := by
  obtain ⟨h0, h4, hw⟩ := h
  by_cases hs : (a.fifo_pipe i).size > 0
  · rw [(APU.OnTimerOverflow.body_drain F i a hs).2.1]
    exact ⟨by simp only []; omega, by simp only []; omega,
      pipe_shift_bound _ _ hs h4 hw⟩
  · have hz : (a.fifo_pipe i).size = 0 := by omega
    by_cases hc : F.Count (a.fifo i) > 0
    · rw [(APU.OnTimerOverflow.body_load F i a hz hc).2.1]
      refine ⟨by simp, by simp, ?_⟩
      have hlt : (F.ReadWord (a.fifo i)).1 % 2 ^ 32 < 2 ^ 32 := Nat.mod_lt _ (by decide)
      simp only [Nat.shiftRight_eq_div_pow]
      have e : (8 * (3 : Int).toNat) = 24 := by decide
      rw [e]
      omega
    · rw [(APU.OnTimerOverflow.body_idle F i a hz hc).2.1]
      exact ⟨h0, h4, hw⟩

theorem APU.OnTimerOverflow.iter_pipe_invariant {φ : Type} (F : FIFODecl φ) (n : Int)
    (i : Nat) (a : APU φ) (h : APU.PipeInvariant a) :
    APU.PipeInvariant (APU.OnTimerOverflow.iter F n i a) := by
  unfold APU.OnTimerOverflow.iter
  split
  · intro j hj
    by_cases hji : j = i
    · subst hji
      exact APU.OnTimerOverflow.body_pipe_bounds F j a (h j hj)
    · rw [(APU.OnTimerOverflow.body_frame F i j a hji).2.2.1]
      exact h j hj
  · exact h

theorem APU.OnTimerOverflow_pipe_invariant {φ : Type} (F : FIFODecl φ) (n times : Int)
    (a : APU φ) (h : APU.PipeInvariant a) :
    APU.PipeInvariant (APU.OnTimerOverflow F n times a) := by
  unfold APU.OnTimerOverflow
  split
  · exact h
  · exact APU.OnTimerOverflow.iter_pipe_invariant F n 1 _
      (APU.OnTimerOverflow.iter_pipe_invariant F n 0 a h)

theorem APU.overflows_pipe_invariant {φ : Type} (F : FIFODecl φ) (cs : List (Int × Int))
    (a : APU φ) (h : APU.PipeInvariant a) : APU.PipeInvariant (APU.overflows F cs a) := by
  induction cs generalizing a with
  | nil => exact h
  | cons c cs ih => exact ih _ (APU.OnTimerOverflow_pipe_invariant F c.1 c.2 a h)

theorem APU.Reset_pipe_invariant {φ : Type} (R : APUResetDecl φ) (a : APU φ) :
    APU.PipeInvariant (APU.Reset R a) := by
  intro i hi
  simp [APU.Reset, hi]

/-- C28: FIFO pipe invariant.  In every state `a` reached from `APU::Reset()`
(in any prior state) by a sequence of OnTimerOverflow calls, each pipe
satisfies 0 <= size <= 4 and word < 2^(8 * size); and in such a state an
overflow of a timer linked to a FIFO, with master sound enabled, that finds
both the pipe and the FIFO empty sets the latch to 0 and leaves the pipe
empty. -/
theorem APU.pipe_invariant {φ : Type} (R : APUResetDecl φ) (F : FIFODecl φ)
    (cs : List (Int × Int)) (a0 a : APU φ)
    (hreach : a = APU.overflows F cs (APU.Reset R a0)) (i : Nat) (hi : i < 2) :
    0 ≤ (a.fifo_pipe i).size ∧ (a.fifo_pipe i).size ≤ 4 ∧
    (a.fifo_pipe i).word < 2 ^ (8 * (a.fifo_pipe i).size.toNat) ∧
    ∀ n times : Int,
      a.soundcnt.master_enable = true → (a.soundcnt.dma i).timer_id = n →
      (a.fifo_pipe i).size = 0 → F.Count (a.fifo i) = 0 →
      (APU.OnTimerOverflow F n times a).latch i = 0 ∧
      ((APU.OnTimerOverflow F n times a).fifo_pipe i).size = 0 := by
  have hinv := APU.overflows_pipe_invariant F cs (APU.Reset R a0)
    (APU.Reset_pipe_invariant R a0) i hi
  rw [← hreach] at hinv
  obtain ⟨h0, h4, hw⟩ := hinv
  refine ⟨h0, h4, hw, ?_⟩
  intro n times hen hlink hsize hcount
  obtain ⟨-, -, l3, l4⟩ := APU.OnTimerOverflow_linked F n times a i hi hen hlink
  obtain ⟨-, b2, b3⟩ := APU.OnTimerOverflow.body_idle F i a hsize (by omega)
  have hword : (a.fifo_pipe i).word = 0 := by
    rw [hsize] at hw
    simpa using hw
  rw [l3, l4, b2, b3, hword]
  exact ⟨by decide, hsize⟩

/-- Witness for C28: `demoAPU` with a stale word in pipe 0, reset with resets
that keep the sound control, then two overflows of timer 0: the pipe is empty
with word 0, and a further overflow latches 0. -/
theorem APU.pipe_invariant_witness :
    ((APU.overflows listFIFO [(0, 1), (0, 1)]
        (APU.Reset { listReset with soundcnt_Reset := fun c => c }
          { demoAPU [7] with fifo_pipe := fun _ => { word := 0x0605, size := 2 } })).fifo_pipe
      0) = { word := 0, size := 0 } ∧
    (APU.OnTimerOverflow listFIFO 0 1
      (APU.overflows listFIFO [(0, 1), (0, 1)]
        (APU.Reset { listReset with soundcnt_Reset := fun c => c }
          { demoAPU [7] with fifo_pipe := fun _ => { word := 0x0605, size := 2 } }))).latch
      0 = 0 :=
  ⟨by decide,
   ((APU.pipe_invariant { listReset with soundcnt_Reset := fun c => c } listFIFO
      [(0, 1), (0, 1)]
      { demoAPU [7] with fifo_pipe := fun _ => { word := 0x0605, size := 2 } } _ rfl 0
      (by decide)).2.2.2 0 1 rfl rfl rfl rfl).1⟩

/-! ### PPU: DrawBackground -/

theorem PPU.SameRegisters.refl {ρ : Type} (s : PPU ρ) : PPU.SameRegisters s s :=
  ⟨rfl, rfl, rfl, rfl⟩

theorem PPU.SameRegisters.trans {ρ : Type} {t u s : PPU ρ} (h1 : PPU.SameRegisters t u)
    (h2 : PPU.SameRegisters u s) : PPU.SameRegisters t s :=
  ⟨h1.1.trans h2.1, h1.2.1.trans h2.2.1, h1.2.2.1.trans h2.2.2.1, h1.2.2.2.trans h2.2.2.2⟩

theorem PPU.SameRegisters.ite {ρ : Type} {c : Prop} [Decidable c] {t u s : PPU ρ}
    (h1 : PPU.SameRegisters t s) (h2 : PPU.SameRegisters u s) :
    PPU.SameRegisters (if c then t else u) s := by
  split
  · exact h1
  · exact h2

theorem PPU.DrawBackgroundImpl.render_frame {ρ : Type} (R : PPURender ρ) (hR : R.Frame)
    (mode latched cycle : Nat) (s : PPU ρ) :
    PPU.SameRegisters (PPU.DrawBackgroundImpl.render R mode latched cycle s) s := by
  obtain ⟨r0, r2, r3, r4, r5⟩ := hR
  have ht : ∀ t, PPU.SameRegisters (PPU.DrawBackgroundImpl.renderText R mode latched cycle t)
      t := fun t =>
    PPU.SameRegisters.ite (PPU.SameRegisters.ite (r0 _ _ _) (PPU.SameRegisters.refl t))
      (PPU.SameRegisters.refl t)
  have ha : ∀ t, PPU.SameRegisters
      (PPU.DrawBackgroundImpl.renderAffine R mode latched cycle t) t := fun t =>
    PPU.SameRegisters.ite (PPU.SameRegisters.ite (r2 _ _ _) (PPU.SameRegisters.refl t))
      (PPU.SameRegisters.refl t)
  have hb : ∀ t, PPU.SameRegisters
      (PPU.DrawBackgroundImpl.renderBitmap R mode latched cycle t) t := by
    intro t
    unfold PPU.DrawBackgroundImpl.renderBitmap
    simp only []
    split_ifs <;>
      repeat (first
        | exact PPU.SameRegisters.refl _
        | refine PPU.SameRegisters.trans (r3 _ _) ?_
        | refine PPU.SameRegisters.trans (r4 _ _) ?_
        | refine PPU.SameRegisters.trans (r5 _ _) ?_)
  exact PPU.SameRegisters.ite
    (PPU.SameRegisters.trans (hb _) (PPU.SameRegisters.trans (ha _) (ht s))) (ht s)

theorem PPU.DrawBackgroundImpl.body_below {ρ : Type} (R : PPURender ρ) (hR : R.Frame)
    (mode latched : Nat) (s : PPU ρ) (h : s.bg.cycle + 1 < 1232) :
    PPU.SameRegisters (PPU.DrawBackgroundImpl.body R mode latched s) s := by
  have hc : ¬ (1 + s.bg.cycle) % 2 ^ 32 = 1232 := by omega
  unfold PPU.DrawBackgroundImpl.body
  simp only [hc, if_false]
  exact PPU.DrawBackgroundImpl.render_frame R hR mode latched _ s

theorem PPU.DrawBackgroundImpl.body_last {ρ : Type} (R : PPURender ρ) (hR : R.Frame)
    (mode latched : Nat) (s : PPU ρ) (h : s.bg.cycle = 1231) :
    (PPU.DrawBackgroundImpl.body R mode latched s).mmio
      = PPU.DrawBackgroundImpl.lineEnd mode latched s.mmio ∧
    (PPU.DrawBackgroundImpl.body R mode latched s).bg.cycle = 1231 ∧
    (PPU.DrawBackgroundImpl.body R mode latched s).bg.timestamp_last_sync
      = s.bg.timestamp_last_sync ∧
    (PPU.DrawBackgroundImpl.body R mode latched s).timestamp_now = s.timestamp_now := by
  have hc : (1 + s.bg.cycle) % 2 ^ 32 = 1232 := by omega
  obtain ⟨f1, f2, f3, f4⟩ := PPU.DrawBackgroundImpl.render_frame R hR mode latched 1232 s
  unfold PPU.DrawBackgroundImpl.body
  simp only [hc, if_true]
  exact ⟨by rw [f1], by rw [f2, h], f3, f4⟩

theorem PPU.DrawBackgroundImpl.loop_below {ρ : Type} (R : PPURender ρ) (hR : R.Frame)
    (mode latched n : Nat) (s : PPU ρ) (h : s.bg.cycle + n < 1232) :
    (PPU.DrawBackgroundImpl.loop R mode latched n s).mmio = s.mmio ∧
    (PPU.DrawBackgroundImpl.loop R mode latched n s).bg.cycle = s.bg.cycle + n ∧
    (PPU.DrawBackgroundImpl.loop R mode latched n s).bg.timestamp_last_sync
      = s.bg.timestamp_last_sync ∧
    (PPU.DrawBackgroundImpl.loop R mode latched n s).timestamp_now = s.timestamp_now := by
  induction n generalizing s with
  | zero => exact ⟨rfl, rfl, rfl, rfl⟩
  | succ n ih =>
    obtain ⟨f1, f2, f3, f4⟩ := PPU.DrawBackgroundImpl.body_below R hR mode latched s (by omega)
    have hne : ¬ ((PPU.DrawBackgroundImpl.body R mode latched s).bg.cycle + 1) % 2 ^ 32
        = 1232 := by
      rw [f2]; omega
    rw [PPU.DrawBackgroundImpl.loop]
    simp only [hne, if_false]
    obtain ⟨g1, g2, g3, g4⟩ := ih
      { (PPU.DrawBackgroundImpl.body R mode latched s) with
        bg := { (PPU.DrawBackgroundImpl.body R mode latched s).bg with
          cycle := ((PPU.DrawBackgroundImpl.body R mode latched s).bg.cycle + 1) % 2 ^ 32 } }
      (by simp only []; rw [f2]; omega)
    simp only [] at g1 g2 g3 g4
    rw [g1, g2, g3, g4, f1, f2, f3, f4]
    exact ⟨rfl, by omega, rfl, rfl⟩

theorem PPU.DrawBackgroundImpl.loop_reach {ρ : Type} (R : PPURender ρ) (hR : R.Frame)
    (mode latched n : Nat) (s : PPU ρ) (hlt : s.bg.cycle < 1232)
    (h : 1232 ≤ s.bg.cycle + n) :
    (PPU.DrawBackgroundImpl.loop R mode latched n s).mmio
      = PPU.DrawBackgroundImpl.lineEnd mode latched s.mmio ∧
    (PPU.DrawBackgroundImpl.loop R mode latched n s).bg.cycle = 1232 ∧
    (PPU.DrawBackgroundImpl.loop R mode latched n s).bg.timestamp_last_sync
      = s.bg.timestamp_last_sync ∧
    (PPU.DrawBackgroundImpl.loop R mode latched n s).timestamp_now = s.timestamp_now := by
  induction n generalizing s with
  | zero => omega
  | succ n ih =>
    rw [PPU.DrawBackgroundImpl.loop]
    by_cases hlast : s.bg.cycle = 1231
    · obtain ⟨f1, f2, f3, f4⟩ := PPU.DrawBackgroundImpl.body_last R hR mode latched s hlast
      have he : ((PPU.DrawBackgroundImpl.body R mode latched s).bg.cycle + 1) % 2 ^ 32
          = 1232 := by
        rw [f2]
        rfl
      simp only [he, if_true]
      exact ⟨f1, trivial, f3, f4⟩
    · obtain ⟨f1, f2, f3, f4⟩ := PPU.DrawBackgroundImpl.body_below R hR mode latched s
        (by omega)
      have hne : ¬ ((PPU.DrawBackgroundImpl.body R mode latched s).bg.cycle + 1) % 2 ^ 32
          = 1232 := by
        rw [f2]; omega
      simp only [hne, if_false]
      obtain ⟨g1, g2, g3, g4⟩ := ih
        { (PPU.DrawBackgroundImpl.body R mode latched s) with
          bg := { (PPU.DrawBackgroundImpl.body R mode latched s).bg with
            cycle := ((PPU.DrawBackgroundImpl.body R mode latched s).bg.cycle + 1) % 2 ^ 32 } }
        (by simp only []; rw [f2]; omega) (by simp only []; rw [f2]; omega)
      simp only [] at g1 g2 g3 g4
      rw [g1, g2, g3, g4, f1, f3, f4]
      exact ⟨rfl, rfl, rfl, rfl⟩

theorem and_two_pow_ne_zero (x k : Nat) : x &&& 2 ^ k ≠ 0 ↔ x.testBit k = true := by
  constructor
  · intro h
    by_contra hb
    apply h
    apply Nat.eq_of_testBit_eq
    intro i
    rw [Nat.testBit_and, Nat.testBit_two_pow, Nat.zero_testBit]
    by_cases hi : k = i
    · subst hi
      simp [hb]
    · simp [hi]
  · intro hb h
    have h2 : (x &&& 2 ^ k).testBit k = true := by
      rw [Nat.testBit_and, hb, Nat.testBit_two_pow_self]
      rfl
    rw [h, Nat.zero_testBit] at h2
    exact absurd h2 (by decide)

/-- The test of an enable bit on `latched_dispcnt_and_current_dispcnt`. -/
theorem latched_bit (a b id : Nat) (hid : id ≤ 1) :
    ((a &&& b) % 2 ^ 16) &&& (256 <<< (2 + id)) ≠ 0
      ↔ a.testBit (10 + id) = true ∧ b.testBit (10 + id) = true := by
  have e : 256 <<< (2 + id) = 2 ^ (10 + id) := by
    interval_cases id <;> rfl
  have hlt : 10 + id < 16 := by omega
  rw [e, and_two_pow_ne_zero, Nat.testBit_mod_two_pow, Nat.testBit_and]
  simp [hlt]

theorem PPU.stepMosaic_frame (m : PPUMMIO) :
    (PPU.stepMosaic m).bgx = m.bgx ∧ (PPU.stepMosaic m).bgy = m.bgy ∧
    (PPU.stepMosaic m).bgpb = m.bgpb ∧ (PPU.stepMosaic m).bgpd = m.bgpd ∧
    (PPU.stepMosaic m).bgcnt_mosaic_enable = m.bgcnt_mosaic_enable ∧
    (PPU.stepMosaic m).mosaic_bg.size_y = m.mosaic_bg.size_y := by
  unfold PPU.stepMosaic
  simp only []
  split_ifs <;> exact ⟨rfl, rfl, rfl, rfl, rfl, rfl⟩

/-- What `AdvanceBGXY(id)` does to the reference point `id`, and what it leaves
alone. -/
theorem PPU.AdvanceBGXY_spec (latched id : Nat) (m : PPUMMIO) :
    ((PPU.AdvanceBGXY latched id m).bgx id)._current
      = PPU.specAdvance (decide (latched &&& (256 <<< (2 + id)) ≠ 0))
          (m.bgcnt_mosaic_enable (2 + id)) m.mosaic_bg._counter_y m.mosaic_bg.size_y
          (m.bgpb id) (m.bgx id)._current ∧
    ((PPU.AdvanceBGXY latched id m).bgy id)._current
      = PPU.specAdvance (decide (latched &&& (256 <<< (2 + id)) ≠ 0))
          (m.bgcnt_mosaic_enable (2 + id)) m.mosaic_bg._counter_y m.mosaic_bg.size_y
          (m.bgpd id) (m.bgy id)._current ∧
    (∀ j, j ≠ id → (PPU.AdvanceBGXY latched id m).bgx j = m.bgx j ∧
      (PPU.AdvanceBGXY latched id m).bgy j = m.bgy j) ∧
    (PPU.AdvanceBGXY latched id m).mosaic_bg = m.mosaic_bg ∧
    (PPU.AdvanceBGXY latched id m).bgpb = m.bgpb ∧
    (PPU.AdvanceBGXY latched id m).bgpd = m.bgpd ∧
    (PPU.AdvanceBGXY latched id m).bgcnt_mosaic_enable = m.bgcnt_mosaic_enable := by
  unfold PPU.AdvanceBGXY PPU.specAdvance
  by_cases h1 : latched &&& (256 <<< (2 + id)) ≠ 0 <;>
    by_cases h2 : m.bgcnt_mosaic_enable (2 + id) = true <;>
    by_cases h3 : m.mosaic_bg._counter_y = 0 <;>
    simp [h1, h2, h3, setAt] <;>
    intro j hj <;> simp [hj]

theorem PPU.specAdvance_disabled (mosaic : Bool) (counter size_y step x : Int) :
    PPU.specAdvance false mosaic counter size_y step x = x := rfl

/-- The reference points after the statements of cycle 1232. -/
theorem PPU.DrawBackgroundImpl.lineEnd_spec (mode latched : Nat) (m : PPUMMIO) :
    ((PPU.DrawBackgroundImpl.lineEnd mode latched m).bgx 0)._current
      = PPU.specAdvance (decide ((1 ≤ mode ∧ mode ≤ 5) ∧ latched &&& (256 <<< (2 + 0)) ≠ 0))
          (m.bgcnt_mosaic_enable 2) (PPU.stepMosaic m).mosaic_bg._counter_y
          m.mosaic_bg.size_y (m.bgpb 0) (m.bgx 0)._current ∧
    ((PPU.DrawBackgroundImpl.lineEnd mode latched m).bgy 0)._current
      = PPU.specAdvance (decide ((1 ≤ mode ∧ mode ≤ 5) ∧ latched &&& (256 <<< (2 + 0)) ≠ 0))
          (m.bgcnt_mosaic_enable 2) (PPU.stepMosaic m).mosaic_bg._counter_y
          m.mosaic_bg.size_y (m.bgpd 0) (m.bgy 0)._current ∧
    ((PPU.DrawBackgroundImpl.lineEnd mode latched m).bgx 1)._current
      = PPU.specAdvance (decide (mode = 2 ∧ latched &&& (256 <<< (2 + 1)) ≠ 0))
          (m.bgcnt_mosaic_enable 3) (PPU.stepMosaic m).mosaic_bg._counter_y
          m.mosaic_bg.size_y (m.bgpb 1) (m.bgx 1)._current ∧
    ((PPU.DrawBackgroundImpl.lineEnd mode latched m).bgy 1)._current
      = PPU.specAdvance (decide (mode = 2 ∧ latched &&& (256 <<< (2 + 1)) ≠ 0))
          (m.bgcnt_mosaic_enable 3) (PPU.stepMosaic m).mosaic_bg._counter_y
          m.mosaic_bg.size_y (m.bgpd 1) (m.bgy 1)._current := by
  obtain ⟨s1, s2, s3, s4, s5, s6⟩ := PPU.stepMosaic_frame m
  obtain ⟨a1, a2, a3, a4, a5, a6, a7⟩ := PPU.AdvanceBGXY_spec latched 0 (PPU.stepMosaic m)
  simp only [s1, s2, s3, s4, s5, s6] at a1 a2 a3 a5 a6 a7
  obtain ⟨a31, a32⟩ := a3 1 (by decide)
  have hl : PPU.DrawBackgroundImpl.lineEnd mode latched m
      = if mode = 2 then
          PPU.AdvanceBGXY latched 1
            (if 1 ≤ mode ∧ mode ≤ 5 then PPU.AdvanceBGXY latched 0 (PPU.stepMosaic m)
             else PPU.stepMosaic m)
        else
          (if 1 ≤ mode ∧ mode ≤ 5 then PPU.AdvanceBGXY latched 0 (PPU.stepMosaic m)
           else PPU.stepMosaic m) := rfl
  rw [hl]
  by_cases c0 : 1 ≤ mode ∧ mode ≤ 5
  · have e0 : ∀ P : Prop, [Decidable P] → decide ((1 ≤ mode ∧ mode ≤ 5) ∧ P) = decide P := by
      intro P _
      simp [c0]
    obtain ⟨b1, b2, b3, -⟩ := PPU.AdvanceBGXY_spec latched 1
      (PPU.AdvanceBGXY latched 0 (PPU.stepMosaic m))
    obtain ⟨b31, b32⟩ := b3 0 (by decide)
    simp only [a4, a5, a6, a7, a31, a32, s6] at b1 b2
    rw [e0, if_pos c0]
    by_cases c1 : mode = 2
    · have e1 : ∀ P : Prop, [Decidable P] → decide (mode = 2 ∧ P) = decide P := by
        intro P _
        simp [c1]
      rw [e1, if_pos c1]
      exact ⟨by rw [b31, a1], by rw [b32, a2], b1, b2⟩
    · have e1 : ∀ P : Prop, [Decidable P] → decide (mode = 2 ∧ P) = false := by
        intro P _
        simp [c1]
      rw [e1, if_neg c1, PPU.specAdvance_disabled, PPU.specAdvance_disabled]
      exact ⟨a1, a2, by rw [a31], by rw [a32]⟩
  · have c1 : ¬ mode = 2 := fun h => c0 (by omega)
    have e0 : ∀ P : Prop, [Decidable P] → decide ((1 ≤ mode ∧ mode ≤ 5) ∧ P) = false := by
      intro P _
      simp [c0]
    have e1 : ∀ P : Prop, [Decidable P] → decide (mode = 2 ∧ P) = false := by
      intro P _
      simp [c1]
    rw [e0, e1, if_neg c0, if_neg c1]
    simp [PPU.specAdvance_disabled, s1, s2]

/-- What `DrawBackground` does to the registers and the cycle counter when it
does not return early: the loop of the mode's `DrawBackgroundImpl` for modes 0
to 7, nothing for any other mode value. -/
theorem PPU.DrawBackground_fields {ρ : Type} (R : PPURender ρ) (s : PPU ρ)
    (hc : PPU.elapsed s ≠ 0) (hlt : s.bg.cycle < 1232) :
    (s.mmio.dispcnt_mode ≤ 7 →
      (PPU.DrawBackground R s).mmio
        = (PPU.DrawBackgroundImpl.loop R (if s.mmio.dispcnt_mode ≤ 5 then s.mmio.dispcnt_mode
            else 7) ((s.mmio.dispcnt_latch 0 &&& s.mmio.dispcnt_hword) % 2 ^ 16)
            (PPU.elapsed s).toNat s).mmio ∧
      (PPU.DrawBackground R s).bg.cycle
        = (PPU.DrawBackgroundImpl.loop R (if s.mmio.dispcnt_mode ≤ 5 then s.mmio.dispcnt_mode
            else 7) ((s.mmio.dispcnt_latch 0 &&& s.mmio.dispcnt_hword) % 2 ^ 16)
            (PPU.elapsed s).toNat s).bg.cycle) ∧
    (7 < s.mmio.dispcnt_mode →
      (PPU.DrawBackground R s).mmio = s.mmio ∧
      (PPU.DrawBackground R s).bg.cycle = s.bg.cycle) := by
  have hcond : ¬ (PPU.elapsed s = 0 ∨ s.bg.cycle ≥ 1232) := by
    intro h
    rcases h with h | h
    · exact hc h
    · omega
  unfold PPU.DrawBackground
  simp only [hcond, if_false]
  constructor
  · intro hmode
    by_cases h5 : s.mmio.dispcnt_mode ≤ 5
    · simp [h5, PPU.DrawBackgroundImpl]
    · have h67 : s.mmio.dispcnt_mode = 6 ∨ s.mmio.dispcnt_mode = 7 := by omega
      simp [h5, h67, PPU.DrawBackgroundImpl]
  · intro hmode
    have h5 : ¬ s.mmio.dispcnt_mode ≤ 5 := by omega
    have h67 : ¬ (s.mmio.dispcnt_mode = 6 ∨ s.mmio.dispcnt_mode = 7) := by omega
    simp [h5, h67]

theorem PPU.specEnabled_bg2 (m : PPUMMIO) :
    decide ((1 ≤ (if m.dispcnt_mode ≤ 5 then m.dispcnt_mode else 7) ∧
        (if m.dispcnt_mode ≤ 5 then m.dispcnt_mode else 7) ≤ 5) ∧
      ((m.dispcnt_latch 0 &&& m.dispcnt_hword) % 2 ^ 16) &&& (256 <<< (2 + 0)) ≠ 0)
      = PPU.specEnabled m 2 := by
  unfold PPU.specEnabled
  rw [decide_eq_decide, latched_bit _ _ 0 (by decide)]
  by_cases h5 : m.dispcnt_mode ≤ 5
  · simp [h5]
  · simp [h5]

theorem PPU.specEnabled_bg3 (m : PPUMMIO) (hmode : m.dispcnt_mode ≤ 7) :
    decide ((if m.dispcnt_mode ≤ 5 then m.dispcnt_mode else 7) = 2 ∧
      ((m.dispcnt_latch 0 &&& m.dispcnt_hword) % 2 ^ 16) &&& (256 <<< (2 + 1)) ≠ 0)
      = PPU.specEnabled m 3 := by
  unfold PPU.specEnabled
  rw [decide_eq_decide, latched_bit _ _ 1 (by decide)]
  by_cases h5 : m.dispcnt_mode ≤ 5
  · simp [h5]
  · simp [h5]
    omega

theorem PPU.specEnabled_other_mode (m : PPUMMIO) (hmode : 7 < m.dispcnt_mode)
    (bg_id : Nat) : PPU.specEnabled m bg_id = false := by
  unfold PPU.specEnabled
  rw [decide_eq_false_iff_not]
  intro h
  omega

/-- C24: affine reference point advance at scanline cycle 1232, under the
contract that the render functions leave the registers alone.  When a call of
DrawBackground takes the cycle counter from below 1232 to 1232, the internal
X/Y of BG2 (in modes 1..5) and of BG3 (in mode 2 only) advance by PB/PD if the
background's enable bit is set in both the latched and the current DISPCNT and
mosaic is off for it, by size_y * PB / size_y * PD if mosaic is on and the
mosaic row counter, as just updated, is 0; in every other case they are
unchanged.  A call that stays below cycle 1232 leaves the registers as they
are. -/
theorem PPU.affine_advance_gated {ρ : Type} (R : PPURender ρ) (hR : R.Frame) (s : PPU ρ)
    (hlt : s.bg.cycle < 1232) :
    (1232 ≤ s.bg.cycle + (PPU.elapsed s).toNat →
      (((PPU.DrawBackground R s).mmio.bgx 0)._current
        = PPU.specAdvance (PPU.specEnabled s.mmio 2) (s.mmio.bgcnt_mosaic_enable 2)
            (PPU.stepMosaic s.mmio).mosaic_bg._counter_y s.mmio.mosaic_bg.size_y
            (s.mmio.bgpb 0) (s.mmio.bgx 0)._current) ∧
      (((PPU.DrawBackground R s).mmio.bgy 0)._current
        = PPU.specAdvance (PPU.specEnabled s.mmio 2) (s.mmio.bgcnt_mosaic_enable 2)
            (PPU.stepMosaic s.mmio).mosaic_bg._counter_y s.mmio.mosaic_bg.size_y
            (s.mmio.bgpd 0) (s.mmio.bgy 0)._current) ∧
      (((PPU.DrawBackground R s).mmio.bgx 1)._current
        = PPU.specAdvance (PPU.specEnabled s.mmio 3) (s.mmio.bgcnt_mosaic_enable 3)
            (PPU.stepMosaic s.mmio).mosaic_bg._counter_y s.mmio.mosaic_bg.size_y
            (s.mmio.bgpb 1) (s.mmio.bgx 1)._current) ∧
      (((PPU.DrawBackground R s).mmio.bgy 1)._current
        = PPU.specAdvance (PPU.specEnabled s.mmio 3) (s.mmio.bgcnt_mosaic_enable 3)
            (PPU.stepMosaic s.mmio).mosaic_bg._counter_y s.mmio.mosaic_bg.size_y
            (s.mmio.bgpd 1) (s.mmio.bgy 1)._current)) ∧
    (s.bg.cycle + (PPU.elapsed s).toNat < 1232 → (PPU.DrawBackground R s).mmio = s.mmio) := by
  constructor
  · intro hreach
    have hc : PPU.elapsed s ≠ 0 := by
      intro h
      rw [h] at hreach
      simp at hreach
      omega
    obtain ⟨f1, f2⟩ := PPU.DrawBackground_fields R s hc hlt
    by_cases hmode : s.mmio.dispcnt_mode ≤ 7
    · obtain ⟨l1, -⟩ := PPU.DrawBackgroundImpl.loop_reach R hR
        (if s.mmio.dispcnt_mode ≤ 5 then s.mmio.dispcnt_mode else 7)
        ((s.mmio.dispcnt_latch 0 &&& s.mmio.dispcnt_hword) % 2 ^ 16)
        (PPU.elapsed s).toNat s hlt hreach
      obtain ⟨e1, e2, e3, e4⟩ := PPU.DrawBackgroundImpl.lineEnd_spec
        (if s.mmio.dispcnt_mode ≤ 5 then s.mmio.dispcnt_mode else 7)
        ((s.mmio.dispcnt_latch 0 &&& s.mmio.dispcnt_hword) % 2 ^ 16) s.mmio
      rw [PPU.specEnabled_bg2 s.mmio] at e1 e2
      rw [PPU.specEnabled_bg3 s.mmio hmode] at e3 e4
      rw [(f1 hmode).1, l1]
      exact ⟨e1, e2, e3, e4⟩
    · have h7 : 7 < s.mmio.dispcnt_mode := by omega
      rw [(f2 h7).1, PPU.specEnabled_other_mode s.mmio h7, PPU.specEnabled_other_mode s.mmio h7]
      exact ⟨rfl, rfl, rfl, rfl⟩
  · intro hbelow
    by_cases hc : PPU.elapsed s = 0
    · unfold PPU.DrawBackground
      simp only [hc, true_or, if_true]
    · obtain ⟨f1, f2⟩ := PPU.DrawBackground_fields R s hc hlt
      by_cases hmode : s.mmio.dispcnt_mode ≤ 7
      · rw [(f1 hmode).1]
        exact (PPU.DrawBackgroundImpl.loop_below R hR _ _ _ s hbelow).1
      · exact (f2 (by omega)).1

theorem demoRender_frame : demoRender.Frame :=
  ⟨fun _ _ _ => ⟨rfl, rfl, rfl, rfl⟩, fun _ _ _ => ⟨rfl, rfl, rfl, rfl⟩,
   fun _ _ => ⟨rfl, rfl, rfl, rfl⟩, fun _ _ => ⟨rfl, rfl, rfl, rfl⟩,
   fun _ _ => ⟨rfl, rfl, rfl, rfl⟩⟩

/-- Witness for C24: the demo PPU in mode 2 at cycle 1230, 5 cycles after the
last sync, BG2 and BG3 enabled and mosaic off: the reference points (100, 200)
and (300, 400) advance by PB = 3 and PD = 5. -/
theorem PPU.affine_advance_gated_witness :
    ((PPU.DrawBackground demoRender (demoPPU 2 1230 5)).mmio.bgx 0)._current = 103 ∧
    ((PPU.DrawBackground demoRender (demoPPU 2 1230 5)).mmio.bgy 0)._current = 205 ∧
    ((PPU.DrawBackground demoRender (demoPPU 2 1230 5)).mmio.bgx 1)._current = 303 ∧
    ((PPU.DrawBackground demoRender (demoPPU 2 1230 5)).mmio.bgy 1)._current = 405 :=
  (PPU.affine_advance_gated demoRender demoRender_frame (demoPPU 2 1230 5) (by decide)).1
    (by decide)

/-- C29: scanline cycle counter bound, under the contract that the render
functions leave the cycle counter and the registers alone.  For every state
with bg.cycle <= 1232, a mode in 0..7 and an elapsed cycle count
c = (int)(Now - timestamp_last_sync) >= 0, DrawBackground leaves
bg.cycle = min(1232, bg.cycle + c), which never exceeds 1232; once bg.cycle is
1232 DrawBackground changes nothing; InitBackground resets it to 0. -/
theorem PPU.cycle_counter_bound {ρ : Type} (R : PPURender ρ) (hR : R.Frame) (s : PPU ρ)
    (h0 : 0 ≤ PPU.elapsed s) (hcycle : s.bg.cycle ≤ 1232)
    (hmode : s.mmio.dispcnt_mode ≤ 7) :
    ((PPU.DrawBackground R s).bg.cycle : Int)
      = min 1232 ((s.bg.cycle : Int) + PPU.elapsed s) ∧
    (PPU.DrawBackground R s).bg.cycle ≤ 1232 ∧
    (s.bg.cycle = 1232 → PPU.DrawBackground R s = s) ∧
    (PPU.InitBackground (PPU.DrawBackground R s)).bg.cycle = 0 := by
  have hfull : s.bg.cycle = 1232 → PPU.DrawBackground R s = s := by
    intro h
    unfold PPU.DrawBackground
    have hge : s.bg.cycle ≥ 1232 := by omega
    simp only [hge, or_true, if_true]
  have key : (PPU.DrawBackground R s).bg.cycle
      = min 1232 (s.bg.cycle + (PPU.elapsed s).toNat) := by
    by_cases hc : PPU.elapsed s = 0
    · have e : PPU.DrawBackground R s = s := by
        unfold PPU.DrawBackground
        simp only [hc, true_or, if_true]
      rw [e, hc]
      simp
      omega
    · by_cases hlt : s.bg.cycle < 1232
      · obtain ⟨f1, -⟩ := PPU.DrawBackground_fields R s hc hlt
        rw [(f1 hmode).2]
        by_cases hreach : 1232 ≤ s.bg.cycle + (PPU.elapsed s).toNat
        · rw [(PPU.DrawBackgroundImpl.loop_reach R hR _ _ _ s hlt hreach).2.1]
          omega
        · rw [(PPU.DrawBackgroundImpl.loop_below R hR _ _ _ s (by omega)).2.1]
          omega
      · rw [hfull (by omega)]
        omega
  have hnat := Int.toNat_of_nonneg h0
  refine ⟨?_, ?_, hfull, rfl⟩
  · rw [key]
    omega
  · rw [key]
    omega

/-- Witness for C29: the demo PPU in mode 0 at cycle 1000, 500 cycles after the
last sync: DrawBackground stops the counter at 1232. -/
theorem PPU.cycle_counter_bound_witness :
    ((PPU.DrawBackground demoRender (demoPPU 0 1000 500)).bg.cycle : Int) = 1232 :=
  (PPU.cycle_counter_bound demoRender demoRender_frame (demoPPU 0 1000 500) (by decide)
    (by decide) (by decide)).1

end Tomato
